import Mathlib

/-!
# Form-maker: validation engine and form versioning

A shallow embedding of `src/server/utils/validation.js` (`validateField`,
`validateSubmission`), of the create handler, the update handler and the CSV
export of `src/server/routes/admin.js`, of the public read of
`src/server/routes/forms.js`, of the submission handler of
`src/server/routes/submissions.js` and of `sanitizeInput` of
`src/server/middleware/sanitize.js`, followed by theorems about them.

Modelling conventions.

* JavaScript values are the JSON values plus `undefined` (`JVal`).  Numbers are
  `JNum`: `NaN`, the two infinities, or a finite value kept as an exact rational
  (every finite double is a rational, and `<`, `>` on doubles agree with the
  order of the rationals they denote).
* Library routines whose definition lies outside the repository
  (`StringToNumber`, `Number::toString`, `new RegExp(..).test`, `Date.parse`,
  `JSON.stringify`) are parameters: the record `Builtins`, and the `stringify`
  argument of `putForm`.  Theorems quantify over them; the closed examples use
  instances that agree with the library on the inputs of the examples.
* A JavaScript exception is the `Except.error` result.  The only exception the
  validator can raise on JSON input is the `TypeError` of `ToPrimitive` on an
  object whose own `toString` property is not callable.
* The answer object and the error object are finite maps of own properties
  (association lists); keys are assumed not to be member names of
  `Object.prototype`.
* Strings are sequences of Unicode scalar values; `jsLength` counts UTF-16 code
  units as `String.prototype.length` does.
* The database is the record `Store` of the stored forms and submissions.
  What Mongoose does with the schemas (the cast of an id, the building of a
  document from a stored form, the casts and validators run on a save) is the
  record `Mongoose` of parameters; an exception it raises reaches the `catch`
  block of the handler, which answers 500.  An accepted document is stored as
  the handler built it; failures of the database connection are not modelled.
-/

namespace FormMaker

/-! ## JavaScript values -/

/-- A JavaScript number: NaN, an infinity, or a finite value. -/
inductive JNum where
  | nan
  | posInf
  | negInf
  | fin (q : ℚ)
deriving DecidableEq

/-- A JavaScript value as it can occur in a parsed JSON body, plus `undefined`
(the result of reading a missing key). Objects list their own properties. -/
inductive JVal where
  | undefined
  | null
  | bool (b : Bool)
  | num (n : JNum)
  | str (s : String)
  | arr (xs : List JVal)
  | obj (kvs : List (String × JVal))

/-- The exceptions a run can raise. -/
inductive JSError where
  | typeError
deriving DecidableEq

instance instDecidableEqExcept {ε α : Type} [DecidableEq ε] [DecidableEq α] :
    DecidableEq (Except ε α)
  | .ok a, .ok b =>
      if h : a = b then isTrue (by rw [h]) else isFalse (fun h2 => h (Except.ok.inj h2))
  | .error a, .error b =>
      if h : a = b then isTrue (by rw [h]) else isFalse (fun h2 => h (Except.error.inj h2))
  | .ok _, .error _ => isFalse (fun h => by cases h)
  | .error _, .ok _ => isFalse (fun h => by cases h)

/-- Library routines used by the validator, taken as parameters. -/
structure Builtins where
  /-- `StringToNumber`: the numeric value of a string (`NaN` if it has none). -/
  stringToNumber : String → JNum
  /-- `Number::toString`: the decimal rendering used by template literals. -/
  numberToString : JNum → String
  /-- `new RegExp(p)`: `none` when the pattern does not compile (SyntaxError),
  otherwise the `test` function of the compiled pattern. -/
  regExp : String → Option (String → Bool)
  /-- `Date.parse`: the time value of a date string (`NaN` if unparsable). -/
  dateParse : String → JNum

/-- `isNaN` on a number. -/
def JNum.isNaN : JNum → Bool
  | .nan => true
  | _ => false

/-- The `<` of JavaScript numbers: false as soon as one side is NaN. -/
def JNum.lt : JNum → JNum → Bool
  | .nan, _ => false
  | _, .nan => false
  | .negInf, .negInf => false
  | .negInf, _ => true
  | _, .negInf => false
  | .posInf, _ => false
  | .fin _, .posInf => true
  | .fin a, .fin b => decide (a < b)

/-- The `>` of JavaScript numbers. -/
def JNum.gt (a b : JNum) : Bool := JNum.lt b a

/-- `value === null || value === undefined || value === ''`. -/
def isMissing : JVal → Bool
  | .undefined => true
  | .null => true
  | .str s => s == ""
  | _ => false

/-- `ToBoolean`: the truthiness of a value. -/
def truthy : JVal → Bool
  | .undefined => false
  | .null => false
  | .bool b => b
  | .num .nan => false
  | .num (.fin q) => q != 0
  | .num _ => true
  | .str s => s != ""
  | .arr _ => true
  | .obj _ => true

/-- `Array.isArray`. -/
def isArray : JVal → Bool
  | .arr _ => true
  | _ => false

/-- Whether an object has an own property of the given name. -/
def hasOwn (kvs : List (String × JVal)) (k : String) : Bool :=
  kvs.any fun kv => kv.1 == k

/-- `ToPrimitive` of a plain object, for either hint: an own `toString`
property holds a JSON value, never a function, and the inherited `valueOf`
returns the object itself, so the conversion throws; otherwise the inherited
`Object.prototype.toString` answers. -/
def objToPrimitive (kvs : List (String × JVal)) : Except JSError String :=
  if hasOwn kvs "toString" then .error .typeError else .ok "[object Object]"

mutual
/-- `ToString` of a value. -/
def toStr (B : Builtins) : JVal → Except JSError String
  | .undefined => .ok "undefined"
  | .null => .ok "null"
  | .bool b => .ok (if b then "true" else "false")
  | .num n => .ok (B.numberToString n)
  | .str s => .ok s
  | .arr xs => joinStr B xs
  | .obj kvs => objToPrimitive kvs
/-- `Array.prototype.join(',')`, which `Array.prototype.toString` calls. -/
def joinStr (B : Builtins) : List JVal → Except JSError String
  | [] => .ok ""
  | [x] => elemStr B x
  | x :: y :: rest =>
    match elemStr B x with
    | .error e => .error e
    | .ok a =>
      match joinStr B (y :: rest) with
      | .error e => .error e
      | .ok b => .ok (a ++ "," ++ b)
/-- One element inside `join`: `undefined` and `null` render as the empty string. -/
def elemStr (B : Builtins) : JVal → Except JSError String
  | .undefined => .ok ""
  | .null => .ok ""
  | .bool b => .ok (if b then "true" else "false")
  | .num n => .ok (B.numberToString n)
  | .str s => .ok s
  | .arr xs => joinStr B xs
  | .obj kvs => objToPrimitive kvs
end

/-- `ToPrimitive`: primitives are returned as they are, arrays and objects
become a string (or throw). The hint makes no difference on JSON values. -/
def toPrimitive (B : Builtins) : JVal → Except JSError JVal
  | .arr xs =>
    match joinStr B xs with
    | .error e => .error e
    | .ok s => .ok (.str s)
  | .obj kvs =>
    match objToPrimitive kvs with
    | .error e => .error e
    | .ok s => .ok (.str s)
  | v => .ok v

/-- `ToNumber` of a primitive. -/
def primToNumber (B : Builtins) : JVal → JNum
  | .undefined => .nan
  | .null => .fin 0
  | .bool b => if b then .fin 1 else .fin 0
  | .num n => n
  | .str s => B.stringToNumber s
  | _ => .nan

/-- `Number(value)`. -/
def toNumber (B : Builtins) (v : JVal) : Except JSError JNum :=
  match toPrimitive B v with
  | .error e => .error e
  | .ok p => .ok (primToNumber B p)

/-- `String.prototype.length`: the number of UTF-16 code units. -/
def jsLength (s : String) : ℕ :=
  (s.data.map fun c => if c.val.toNat < 65536 then 1 else 2).sum

/-- `TimeClip`: whether a number is a valid time value. -/
def timeClipValid : JNum → Bool
  | .fin q => decide (|q| ≤ 8640000000000000)
  | _ => false

/-- `!isNaN(new Date(value).getTime())`. -/
def dateValid (B : Builtins) (v : JVal) : Except JSError Bool :=
  match toPrimitive B v with
  | .error e => .error e
  | .ok (.str s) => .ok (!(B.dateParse s).isNaN)
  | .ok p => .ok (timeClipValid (primToNumber B p))

/-! ## The e-mail pattern -/

/-- The character classes the pattern `/^[^\s@]+@[^\s@]+\.[^\s@]+$/`
distinguishes. -/
inductive EmailSym where
  | atSign
  | dot
  | space
  | other
deriving DecidableEq

/-- The class `\s` of a regular expression: WhiteSpace and LineTerminator. -/
def isJsSpace (c : Char) : Bool :=
  let n := c.val.toNat
  n == 9 || n == 10 || n == 11 || n == 12 || n == 13 || n == 32 || n == 160 ||
  n == 5760 || (8192 ≤ n && n ≤ 8202) || n == 8232 || n == 8233 || n == 8239 ||
  n == 8287 || n == 12288 || n == 65279

/-- The class of one character. -/
def emailSym (c : Char) : EmailSym :=
  if c = '@' then .atSign
  else if c = '.' then .dot
  else if isJsSpace c then .space
  else .other

/-- The class `[^\s@]`: a dot or any other character that is neither white
space nor `@`. -/
def notSpaceAt : RegularExpression EmailSym :=
  RegularExpression.plus (RegularExpression.char EmailSym.dot) (RegularExpression.char EmailSym.other)

/-- The expression `[^\s@]+`. -/
def notSpaceAtPlus : RegularExpression EmailSym :=
  RegularExpression.comp notSpaceAt (RegularExpression.star notSpaceAt)

/-- The pattern `[^\s@]+@[^\s@]+\.[^\s@]+` between its anchors. -/
def emailRegex : RegularExpression EmailSym :=
  RegularExpression.comp notSpaceAtPlus
    (RegularExpression.comp (RegularExpression.char EmailSym.atSign)
      (RegularExpression.comp notSpaceAtPlus
        (RegularExpression.comp (RegularExpression.char EmailSym.dot) notSpaceAtPlus)))

/-- The call `emailRegex.test(s)` on a string: the anchors make it a match of the
whole string. -/
def emailTest (s : String) : Bool :=
  emailRegex.rmatch (s.data.map emailSym)

/-! ## Field definitions (`src/server/models/Form.js`, `src/client/src/types/index.ts`) -/

/-- One option of a radio, select or checkbox field, over the type of the
fields it can carry. -/
structure FieldOptionOf (α : Type) where
  label : String
  value : String
  nestedFields : Option (List α)

/-- The `validation` bag of a field; each entry may be absent. -/
structure Validation where
  min : Option JNum
  max : Option JNum
  minLength : Option JNum
  maxLength : Option JNum
  regex : Option String

/-- A field definition. `options` and `validation` may be absent; nested
fields are reached through an option only. -/
structure Field where
  _id : Option String
  label : String
  type : String
  name : String
  required : Bool
  options : Option (List (FieldOptionOf Field))
  validation : Option Validation
  order : ℚ

/-- An option of a field. -/
abbrev FieldOption := FieldOptionOf Field

/-- The expression `field.validation?.min`. -/
def Field.vmin (f : Field) : Option JNum := f.validation.bind Validation.min

/-- The expression `field.validation?.max`. -/
def Field.vmax (f : Field) : Option JNum := f.validation.bind Validation.max

/-- The expression `field.validation?.minLength`. -/
def Field.vminLength (f : Field) : Option JNum := f.validation.bind Validation.minLength

/-- The expression `field.validation?.maxLength`. -/
def Field.vmaxLength (f : Field) : Option JNum := f.validation.bind Validation.maxLength

/-- The expression `field.validation?.regex`. -/
def Field.vregex (f : Field) : Option String := f.validation.bind Validation.regex

/-- The test `!field.options || field.options.length === 0`. -/
def Field.noOptions (f : Field) : Bool :=
  match f.options with
  | none => true
  | some opts => opts.length == 0

/-- The list `field.options.map(opt => opt.value)` (empty when options are absent). -/
def Field.validValues (f : Field) : List String :=
  match f.options with
  | none => []
  | some opts => opts.map fun o => o.value

/-- The comparison `optValue === value` of an option value (a string) with an
answer: true for the same string only. -/
def strictEqStr (optValue : String) : JVal → Bool
  | .str s => optValue == s
  | _ => false

/-- The call `validValues.includes(value)`. -/
def includesVal (validValues : List String) (v : JVal) : Bool :=
  validValues.any fun o => strictEqStr o v

/-! ## `validateField` (`src/server/utils/validation.js`, lines 3-89) -/

/-- Case `'email'`. -/
def checkEmail (B : Builtins) (f : Field) (value : JVal) : Except JSError (List String) :=
  match toStr B value with
  | .error e => .error e
  | .ok s => .ok (if !emailTest s then [ f.label ++ " must be a valid email address"] else [])

/-- Case `'number'`. -/
def checkNumber (B : Builtins) (f : Field) (value : JVal) : Except JSError (List String) :=
  match toNumber B value with
  | .error e => .error e
  | .ok numValue =>
    if numValue.isNaN then .ok [ f.label ++ " must be a number"]
    else
      .ok ((match f.vmin with
            | some m =>
              if numValue.lt m then [ f.label ++ " must be at least " ++ B.numberToString m] else []
            | none => []) ++
           (match f.vmax with
            | some m =>
              if numValue.gt m then [ f.label ++ " must be at most " ++ B.numberToString m] else []
            | none => []))

/-- The regex rule of cases `'text'` and `'textarea'`: skipped when the pattern
is absent or empty, and when it does not compile (the `catch` block is empty). -/
def checkRegex (B : Builtins) (f : Field) (strValue : String) : List String :=
  match f.vregex with
  | none => []
  | some pat =>
    if pat == "" then []
    else
      match B.regExp pat with
      | none => []
      | some test => if !test strValue then [ f.label ++ " format is invalid"] else []

/-- Cases `'text'` and `'textarea'`. -/
def checkText (B : Builtins) (f : Field) (value : JVal) : Except JSError (List String) :=
  match toStr B value with
  | .error e => .error e
  | .ok strValue =>
    .ok ((match f.vminLength with
          | some m =>
            if (JNum.fin (jsLength strValue)).lt m then
              [ f.label ++ " must be at least " ++ B.numberToString m ++ " characters"]
            else []
          | none => []) ++
         (match f.vmaxLength with
          | some m =>
            if (JNum.fin (jsLength strValue)).gt m then
              [ f.label ++ " must be at most " ++ B.numberToString m ++ " characters"]
            else []
          | none => []) ++
         checkRegex B f strValue)

/-- Case `'date'`. -/
def checkDate (B : Builtins) (f : Field) (value : JVal) : Except JSError (List String) :=
  match dateValid B value with
  | .error e => .error e
  | .ok ok => .ok (if !ok then [ f.label ++ " must be a valid date"] else [])

/-- Cases `'radio'` and `'select'`. -/
def checkChoice (f : Field) (value : JVal) : List String :=
  if f.noOptions then [ f.label ++ " has no options defined"]
  else if !includesVal f.validValues value then [ f.label ++ " must be one of the provided options"]
  else []

/-- Case `'checkbox'`. -/
def checkCheckbox (f : Field) (value : JVal) : List String :=
  match value with
  | .arr xs =>
    if !f.noOptions then
      if (xs.filter fun v => !includesVal f.validValues v).length > 0 then
        [ f.label ++ " contains invalid options"]
      else []
    else []
  | _ => [ f.label ++ " must be an array"]

/-- The function `validateField(field, value)`: the list of error messages, or
the exception raised while coercing the value. -/
def validateField (B : Builtins) (field : Field) (value : JVal) : Except JSError (List String) :=
  if field.required then
    if isMissing value then .ok [ field.label ++ " is required"]
    else validateFieldType B field value
  else if isMissing value then .ok []
  else validateFieldType B field value
where
  /-- The `switch (field.type)` block. -/
  validateFieldType (B : Builtins) (field : Field) (value : JVal) : Except JSError (List String) :=
    if field.type = "email" then checkEmail B field value
    else if field.type = "number" then checkNumber B field value
    else if field.type = "text" ∨ field.type = "textarea" then checkText B field value
    else if field.type = "date" then checkDate B field value
    else if field.type = "radio" ∨ field.type = "select" then .ok (checkChoice field value)
    else if field.type = "checkbox" then .ok (checkCheckbox field value)
    else .ok []

/-! ## `validateSubmission` (`src/server/utils/validation.js`, lines 91-125) -/

/-- The flat answer object: its own properties. -/
abbrev Answers := List (String × JVal)

/-- The read `answers[key]`: `undefined` when the key is missing. -/
def Answers.get (answers : Answers) (key : String) : JVal :=
  (answers.lookup key).getD .undefined

/-- The `errors` object: its own properties, in insertion order. -/
abbrev ErrorMap := List (String × List String)

/-- The assignment `errors[key] = msgs`: an existing key keeps its place and
takes the new value, a new key is appended. -/
def ErrorMap.set : ErrorMap → String → List String → ErrorMap
  | [], key, msgs => [(key, msgs)]
  | (k, v) :: rest, key, msgs =>
    if k = key then (k, msgs) :: rest else (k, v) :: ErrorMap.set rest key msgs

/-- The read `errors[key]`. -/
def ErrorMap.get? (errors : ErrorMap) (key : String) : Option (List String) :=
  errors.lookup key

/-- The keys of the `errors` object. -/
def ErrorMap.keys (errors : ErrorMap) : List String := errors.map Prod.fst

/-- The two variables `errors` and `hasErrors` of `validateSubmission`. -/
structure VState where
  errors : ErrorMap
  hasErrors : Bool
deriving DecidableEq

/-- The returned object `{ isValid, errors }`. -/
structure ValidationResult where
  isValid : Bool
  errors : ErrorMap
deriving DecidableEq

/-- The form document (`formSchema`). -/
structure Form where
  _id : String
  title : String
  description : String
  fields : List Field
  version : ℕ
  isActive : Bool
  updatedAt : ℕ

/-- The copy `[...fields].sort((a, b) => a.order - b.order)`: the stable sort by
ascending `order`. -/
def sortFields (fields : List Field) : List Field :=
  List.insertionSort (fun a b => a.order ≤ b.order) fields

/-- The template literal of the synthesized key of a nested field. -/
def nestedKey (field nestedField : Field) : String :=
  field.name ++ "_" ++ nestedField.name

/-- The recording step shared by both loops: `if (errs.length > 0) { errors[key] =
errs; hasErrors = true }`. -/
def record (st : VState) (key : String) (errs : List String) : VState :=
  if errs.length > 0 then { errors := st.errors.set key errs, hasErrors := true } else st

/-- The inner loop `selectedOption.nestedFields.forEach(...)`. -/
def validateNested (B : Builtins) (answers : Answers) (field : Field) :
    List Field → VState → Except JSError VState
  | [], st => .ok st
  | nestedField :: rest, st =>
    match validateField B nestedField (answers.get (nestedKey field nestedField)) with
    | .error e => .error e
    | .ok nestedErrors =>
      validateNested B answers field rest (record st (nestedKey field nestedField) nestedErrors)

/-- The lookup `field.options.find(opt => opt.value === value)`. -/
def findSelected (opts : List FieldOption) (value : JVal) : Option FieldOption :=
  opts.find? fun opt => strictEqStr opt.value value

/-- The nested fields the cascade evaluates for a field and its answer: those of
the selected option of a radio or select field with a truthy answer, none in
every other case. -/
def cascadeFields (field : Field) (value : JVal) : List Field :=
  if (field.type = "radio" ∨ field.type = "select") ∧ truthy value = true then
    match field.options with
    | none => []
    | some opts =>
      match findSelected opts value with
      | none => []
      | some selectedOption =>
        match selectedOption.nestedFields with
        | none => []
        | some nestedFields => nestedFields
  else []

/-- The body of the outer loop for one field. -/
def validateOne (B : Builtins) (answers : Answers) (field : Field) (st : VState) :
    Except JSError VState :=
  match validateField B field (answers.get field.name) with
  | .error e => .error e
  | .ok fieldErrors =>
    validateNested B answers field (cascadeFields field (answers.get field.name))
      (record st field.name fieldErrors)

/-- The outer loop `sortedFields.forEach(...)`. -/
def validateFields (B : Builtins) (answers : Answers) :
    List Field → VState → Except JSError VState
  | [], st => .ok st
  | field :: rest, st =>
    match validateOne B answers field st with
    | .error e => .error e
    | .ok st1 => validateFields B answers rest st1

/-- The function `validateSubmission(form, answers)`. -/
def validateSubmission (B : Builtins) (form : Form) (answers : Answers) :
    Except JSError ValidationResult :=
  match validateFields B answers (sortFields form.fields) { errors := [], hasErrors := false } with
  | .error e => .error e
  | .ok st => .ok { isValid := !st.hasErrors, errors := st.errors }

/-- The keys and fields on which one run calls `validateField`, in the order of
the calls, for a field list already in evaluation order: each field under its
name, followed by the nested fields of its selected option under their
synthesized keys. -/
def evaluated (answers : Answers) (fields : List Field) : List (String × Field) :=
  fields.flatMap fun field =>
    (field.name, field) ::
      (cascadeFields field (answers.get field.name)).map fun nf => (nestedKey field nf, nf)

/-- The keys one run of `validateSubmission` evaluates, in order. -/
def evaluatedKeys (form : Form) (answers : Answers) : List String :=
  (evaluated answers (sortFields form.fields)).map Prod.fst

/-- A sequence of `validateField` calls, each followed by the recording step. -/
def runChecks (B : Builtins) (answers : Answers) :
    List (String × Field) → VState → Except JSError VState
  | [], st => .ok st
  | (key, field) :: rest, st =>
    match validateField B field (answers.get key) with
    | .error e => .error e
    | .ok errs => runChecks B answers rest (record st key errs)

/-- The invariant of the two variables: the flag is set exactly when the error
object has a key, and no stored list is empty. -/
def VState.Consistent (st : VState) : Prop :=
  (st.hasErrors = true ↔ st.errors ≠ []) ∧ ∀ e ∈ st.errors, e.2 ≠ []

mutual
/-- Whether `ToPrimitive` succeeds on a value: it is not an object with an own
`toString` property, nor an array holding such an object at any depth of
arrays. -/
def coercible : JVal → Bool
  | .arr xs => coercibleList xs
  | .obj kvs => !hasOwn kvs "toString"
  | _ => true
/-- Whether every element of an array is coercible. -/
def coercibleList : List JVal → Bool
  | [] => true
  | x :: xs => coercible x && coercibleList xs
end

/-- The field types whose case of `validateField` coerces the value to a
primitive (`regex.test`, `Number`, `String`, `new Date`). -/
def coercesValue (f : Field) : Bool :=
  f.type = "email" ∨ f.type = "number" ∨ f.type = "text" ∨ f.type = "textarea" ∨ f.type = "date"

/-! ## The update handler (`src/server/routes/admin.js`, lines 52-78) -/

/-- The destructured request body of `PUT /forms/:id`; an absent entry is
`undefined`. A supplied `fields` entry is a list of field definitions. -/
structure UpdateBody where
  title : Option String
  description : Option String
  fields : Option (List Field)
  isActive : Option Bool

/-- The handler of `PUT /forms/:id` on the form it found, up to `form.save()`.
`stringify` is `JSON.stringify` on a field list (`JSON.stringify(undefined)` is
`undefined`, here `none`); `now` is the clock read by the `pre('save')` hook.
The casts Mongoose applies on assignment (trimming, generated `_id`s) are not
modelled. -/
def putForm (stringify : List Field → String) (now : ℕ) (form : Form) (body : UpdateBody) : Form :=
  let fieldsChanged : Bool := some (stringify form.fields) != body.fields.map stringify
  let form1 : Form := match body.title with
    | some t => { form with title := t }
    | none => form
  let form2 : Form := match body.description with
    | some d => { form1 with description := d }
    | none => form1
  let form3 : Form := match body.fields with
    | some fs => { form2 with fields := fs }
    | none => form2
  let form4 : Form := match body.isActive with
    | some a => { form3 with isActive := a }
    | none => form3
  let form5 : Form :=
    if fieldsChanged && body.fields.isSome then { form4 with version := form4.version + 1 }
    else form4
  { form5 with updatedAt := now }

/-! ## The database (`src/server/models/Submission.js`) -/

/-- A stored submission (`submissionSchema`). -/
structure Submission where
  _id : String
  formId : String
  formVersion : ℕ
  answers : Answers
  ip : String
  submittedAt : ℕ

/-- The two collections of the database. -/
structure Store where
  forms : List Form
  submissions : List Submission

/-- What Mongoose does with the schemas of `src/server/models`, taken as
parameters: casts, validation and the building of documents are run by the
library. -/
structure Mongoose where
  /-- The cast of a string to `ObjectId` that `findById` makes: the message of
  the `CastError` for a string that does not cast, `none` for one that casts. -/
  idError : String → Option String
  /-- The document built from a stored form under `formSchema`, as it is handed
  to a handler. -/
  hydrate : Form → Form
  /-- Building and saving a form document: the message of the error that the
  casts and validators of `formSchema` raise, `none` when the save is accepted. -/
  formError : Form → Option String
  /-- Building and saving a submission document: the message of the error that
  `submissionSchema` raises (a key that the `Map` of `answers` refuses), `none`
  when the save is accepted. -/
  submissionError : Submission → Option String

/-- The query `Form.findById(id)`: it throws the `CastError` for an id that does
not cast; otherwise it gives the document of the stored form with that `_id`,
if any. -/
def Store.findById (M : Mongoose) (db : Store) (id : String) : Except String (Option Form) :=
  match M.idError id with
  | some msg => .error msg
  | none => .ok ((db.forms.find? fun f => f._id == id).map M.hydrate)

/-! ## The public read (`src/server/routes/forms.js`, lines 17-40) -/

/-- The response of the public read: the status and either the `error` text or
the form data. -/
structure FormResponse where
  status : ℕ
  error : Option String
  form : Option Form

/-- The handler of `GET /forms/:id`: 500 with the message of the exception
when the query throws, 404 for an unknown or inactive form, otherwise the form
with `fields` replaced by the sorted copy. -/
def getPublicForm (M : Mongoose) (db : Store) (id : String) : FormResponse :=
  match db.findById M id with
  | .error msg => { status := 500, error := some msg, form := none }
  | .ok none => { status := 404, error := some "Form not found", form := none }
  | .ok (some form) =>
    if !form.isActive then { status := 404, error := some "Form not found", form := none }
    else
      { status := 200, error := none,
        form := some { form with fields := sortFields form.fields } }

/-! ## The submission handler (`src/server/routes/submissions.js`, lines 8-50) -/

/-- The destructured body of `POST /submissions`; an absent entry is
`undefined`. A supplied `answers` entry is an answer object. -/
structure SubmitBody where
  formId : Option String
  answers : Option Answers

/-- What the handler takes from outside the request body: the `_id` Mongoose
gives the new document, `req.ip || req.headers['x-forwarded-for'] || ''`, and
the clock read by the `submittedAt` default. -/
structure SubmitEnv where
  newId : String
  ip : String
  now : ℕ

/-- The JSON response of `POST /submissions`: the status and the entries of
the body that are present. -/
structure SubmitResponse where
  status : ℕ
  error : Option String
  errors : Option ErrorMap
  message : Option String
  submissionId : Option String
deriving DecidableEq

/-- The `message` of the exception, as the `catch` block reports it. -/
def JSError.message : JSError → String
  | .typeError => "Cannot convert object to primitive value"

/-- The document `new Submission({formId: form._id, formVersion: form.version,
answers: new Map(Object.entries(answers)), ip})` with its generated `_id` and
the default of `submittedAt`. -/
def newSubmission (env : SubmitEnv) (form : Form) (answers : Answers) : Submission :=
  { _id := env.newId, formId := form._id, formVersion := form.version,
    answers := answers, ip := env.ip, submittedAt := env.now }

/-- The handler of `POST /submissions`: the response and the database after it.
A falsy `formId` (absent or empty) or an absent `answers` gives 400; an
exception of the query 500; an unknown or inactive form 404; an exception of
the validator 500; an invalid submission 400 with the error object; a
submission document that Mongoose refuses 500; otherwise the submission is
stored with every entry of the answer object and the response is 201. Every
exception reaches the one `catch` block, which answers 500 with its message. -/
def postSubmission (B : Builtins) (M : Mongoose) (env : SubmitEnv) (db : Store)
    (body : SubmitBody) : SubmitResponse × Store :=
  match body.formId, body.answers with
  | some formId, some answers =>
    if formId = "" then
      ({ status := 400, error := some "formId and answers are required", errors := none,
         message := none, submissionId := none }, db)
    else
      match db.findById M formId with
      | .error msg =>
        ({ status := 500, error := some msg, errors := none, message := none,
           submissionId := none }, db)
      | .ok none =>
        ({ status := 404, error := some "Form not found or inactive", errors := none,
           message := none, submissionId := none }, db)
      | .ok (some form) =>
        if !form.isActive then
          ({ status := 404, error := some "Form not found or inactive", errors := none,
             message := none, submissionId := none }, db)
        else
          match validateSubmission B form answers with
          | .error e =>
            ({ status := 500, error := some e.message, errors := none, message := none,
               submissionId := none }, db)
          | .ok validation =>
            if !validation.isValid then
              ({ status := 400, error := some "Validation failed",
                 errors := some validation.errors, message := none, submissionId := none }, db)
            else
              match M.submissionError (newSubmission env form answers) with
              | some msg =>
                ({ status := 500, error := some msg, errors := none, message := none,
                   submissionId := none }, db)
              | none =>
                ({ status := 201, error := none, errors := none,
                   message := some "Submission successful", submissionId := some env.newId },
                 { db with submissions := db.submissions ++ [newSubmission env form answers] })
  | _, _ =>
    ({ status := 400, error := some "formId and answers are required", errors := none,
       message := none, submissionId := none }, db)

/-- The field without the regex rule: the same field with `validation.regex`
removed. -/
def Field.withoutRegex (f : Field) : Field :=
  { f with validation := f.validation.map fun v => { v with regex := none } }

/-- Whether the regex rule of a field names a pattern that does not compile. -/
def Field.badRegex (B : Builtins) (f : Field) : Bool :=
  match f.vregex with
  | some pat => (B.regExp pat).isNone
  | none => false

/-- The field with its regex rule removed when the pattern does not compile. -/
def Field.dropBadRegex (B : Builtins) (f : Field) : Field :=
  if f.badRegex B then f.withoutRegex else f

/-- The option with the non-compiling regex rules of its nested fields removed. -/
def dropBadRegexNested (B : Builtins) (o : FieldOption) : FieldOption :=
  { o with nestedFields := o.nestedFields.map (List.map (Field.dropBadRegex B)) }

/-- The field with the non-compiling regex rules removed, its own and those of
the nested fields of its options. -/
def Field.dropBadRegexAll (B : Builtins) (f : Field) : Field :=
  { Field.dropBadRegex B f with options := f.options.map (List.map (dropBadRegexNested B)) }

/-- The form with every non-compiling regex rule removed. -/
def Form.dropBadRegex (B : Builtins) (form : Form) : Form :=
  { form with fields := form.fields.map (Field.dropBadRegexAll B) }

/-- Every key a form can evaluate: the names of its fields and the synthesized
keys of all nested fields of all their options. -/
def formKeys (form : Form) : List String :=
  form.fields.flatMap fun f =>
    f.name :: (match f.options with
      | none => []
      | some opts => opts.flatMap fun o =>
          match o.nestedFields with
          | none => []
          | some nfs => nfs.map fun nf => nestedKey f nf)

/-! ## Creating and updating forms (`src/server/routes/admin.js`, lines 30-78) -/

/-- The destructured body of `POST /forms`; an absent entry is `undefined`. -/
structure CreateBody where
  title : Option String
  description : Option String
  fields : Option (List Field)

/-- What the create handler takes from outside the request body: the `_id`
Mongoose gives the new document and the clock read by the timestamps. -/
structure CreateEnv where
  newId : String
  now : ℕ

/-- The document `new Form({title, description: description || '', fields:
fields || []})` for a truthy title, with the defaults `version: 1` and
`isActive: true` of `formSchema`. The casts that change an accepted value
(trimming, generated `_id`s of the fields) are not modelled. -/
def newForm (env : CreateEnv) (title : String) (body : CreateBody) : Form :=
  { _id := env.newId, title := title,
    description := (match body.description with
      | some d => if d = "" then "" else d
      | none => ""),
    fields := (match body.fields with
      | some fs => fs
      | none => []),
    version := 1, isActive := true, updatedAt := env.now }

/-- The handler of `POST /forms`: the response and the database after it. A
falsy title (absent or empty) gives 400; otherwise the new document is saved:
when Mongoose refuses it the `catch` block answers 500 with the message and
nothing is stored, when it is accepted it is stored and returned with 201. -/
def postForm (M : Mongoose) (env : CreateEnv) (db : Store) (body : CreateBody) :
    FormResponse × Store :=
  match body.title with
  | none => ({ status := 400, error := some "Title is required", form := none }, db)
  | some title =>
    if title = "" then ({ status := 400, error := some "Title is required", form := none }, db)
    else
      match M.formError (newForm env title body) with
      | some msg => ({ status := 500, error := some msg, form := none }, db)
      | none =>
        ({ status := 201, error := none, form := some (newForm env title body) },
         { db with forms := db.forms ++ [newForm env title body] })

/-- The write `form.save()` of an existing document: the stored form with the
same `_id` is replaced. -/
def Store.saveForm (db : Store) (form : Form) : Store :=
  { db with forms := db.forms.map fun f => if f._id = form._id then form else f }

/-- The handler of `PUT /forms/:id`: 500 when the query throws, 404 for an
unknown id; otherwise the document updated by `putForm` is saved: when Mongoose
refuses it the `catch` block answers 500 with the message and the stored form
stays as it was, when it is accepted it is stored and returned. -/
def putFormHandler (M : Mongoose) (stringify : List Field → String) (now : ℕ) (db : Store)
    (id : String) (body : UpdateBody) : FormResponse × Store :=
  match db.findById M id with
  | .error msg => ({ status := 500, error := some msg, form := none }, db)
  | .ok none => ({ status := 404, error := some "Form not found", form := none }, db)
  | .ok (some form) =>
    match M.formError (putForm stringify now form body) with
    | some msg => ({ status := 500, error := some msg, form := none }, db)
    | none =>
      ({ status := 200, error := none, form := some (putForm stringify now form body) },
       db.saveForm (putForm stringify now form body))

/-! ## Keys, names and the order of fields -/

/-- The keys one field can evaluate: its name and the synthesized keys of all
nested fields of all its options. -/
def fieldKeys (f : Field) : List String :=
  f.name :: (match f.options with
    | none => []
    | some opts => opts.flatMap fun o =>
        match o.nestedFields with
        | none => []
        | some nfs => nfs.map fun nf => nestedKey f nf)

/-- The keys one field evaluates under an answer object: its name and the
synthesized keys of the nested fields of its selected option. -/
def fieldEvaluatedKeys (answers : Answers) (f : Field) : List String :=
  f.name :: (cascadeFields f (answers.get f.name)).map fun nf => nestedKey f nf

/-- A character of the class `[a-z0-9-]`. -/
def isNameChar (c : Char) : Bool :=
  c.isLower || c.isDigit || c == '-'

/-- A name that matches `[a-z0-9-]+` as a whole. -/
def validName (s : String) : Bool :=
  s.data != [] && s.data.all isNameChar

/-- Whether every name of a form, of its fields and of the nested fields of
their options, matches `[a-z0-9-]+`. -/
def Form.NamesValid (form : Form) : Prop :=
  ∀ f ∈ form.fields, validName f.name = true ∧
    ∀ opts, f.options = some opts → ∀ o ∈ opts, ∀ nfs, o.nestedFields = some nfs →
      ∀ nf ∈ nfs, validName nf.name = true

/-- Whether names are unique among siblings: among the fields of the form, and
among the nested fields of each option. -/
def Form.NamesUnique (form : Form) : Prop :=
  (form.fields.map Field.name).Nodup ∧
    ∀ f ∈ form.fields, ∀ opts, f.options = some opts → ∀ o ∈ opts, ∀ nfs,
      o.nestedFields = some nfs → (nfs.map Field.name).Nodup

/-- The field with its `order` set aside. -/
def Field.stripOrder (f : Field) : Field := { f with order := 0 }

/-- Two outcomes of `validateSubmission` that agree: the same exception, or
results with the same `isValid` and the same message list under every key. -/
def SameOutcome (x y : Except JSError ValidationResult) : Prop :=
  match x, y with
  | .ok r1, .ok r2 => r1.isValid = r2.isValid ∧ ∀ k, r1.errors.get? k = r2.errors.get? k
  | .error e1, .error e2 => e1 = e2
  | _, _ => False

/-! ## The e-mail shape in the words of the specification -/

/-- The list holds a `.` with at least one character before it and at least one
after it. -/
def hasInnerDot (d : List Char) : Bool :=
  (List.range d.length).any fun i =>
    decide (0 < i) && decide (i + 1 < d.length) && (d[i]? == some '.')

/-- The shape `local@domain.tld` as the specification words it: no white space,
exactly one `@`, a non-empty part before the `@`, and after the `@` a part that
holds a `.` with at least one character on each side. -/
def emailShape (s : String) : Bool :=
  s.data.all (fun c => !isJsSpace c) && s.data.count '@' == 1 &&
    !(s.data.takeWhile fun c => c != '@').isEmpty &&
    hasInnerDot ((s.data.dropWhile fun c => c != '@').drop 1)

/-! ## The CSV export (`src/server/routes/admin.js`, lines 163-199) -/

/-- An entry of the array `fieldHeaders`: `{ field }` for the column of a
top-level field, `{ field, nested }` for the column of a nested field. -/
structure FieldHeader where
  field : Field
  nested : Option Field

/-- The two arrays the header loop fills. -/
structure HeaderState where
  headers : List String
  fieldHeaders : List FieldHeader

/-- The loop `option.nestedFields.forEach(...)`. -/
def pushNested (field : Field) : List Field → HeaderState → HeaderState
  | [], st => st
  | nestedField :: rest, st =>
    pushNested field rest
      { headers := st.headers ++ [ field.label ++ " - " ++ nestedField.label],
        fieldHeaders := st.fieldHeaders ++ [{ field := field, nested := some nestedField }] }

/-- The loop `field.options.forEach(...)`. -/
def pushOptions (field : Field) : List FieldOption → HeaderState → HeaderState
  | [], st => st
  | opt :: rest, st =>
    match opt.nestedFields with
    | none => pushOptions field rest st
    | some nestedFields => pushOptions field rest (pushNested field nestedFields st)

/-- The body of `form.fields.forEach(...)`. -/
def pushField (st : HeaderState) (field : Field) : HeaderState :=
  let st1 : HeaderState :=
    { headers := st.headers ++ [ field.label],
      fieldHeaders := st.fieldHeaders ++ [{ field := field, nested := none }] }
  match field.options with
  | none => st1
  | some opts => pushOptions field opts st1

/-- The arrays `headers` and `fieldHeaders` after the header loop, which walks
`form.fields` in storage order. -/
def exportHeaders (form : Form) : HeaderState :=
  form.fields.foldl pushField { headers := ["Submitted At"], fieldHeaders := [] }

/-- The test `value !== undefined && value !== null && value !== ''`. -/
def cellPresent : JVal → Bool
  | .undefined => false
  | .null => false
  | .str s => s != ""
  | _ => true

/-- The cell expression `<test> ? String(value) : ''`. -/
def cellText (B : Builtins) (value : JVal) : Except JSError String :=
  if cellPresent value then toStr B value else .ok ""

/-- The body of `fieldHeaders.forEach(...)`: one `row.push`. -/
def pushCell (B : Builtins) (answers : Answers) (row : List String) (h : FieldHeader) :
    Except JSError (List String) :=
  match h.nested with
  | some nested =>
    let key := h.field.name ++ "_" ++ nested.name
    match cellText B (answers.get key) with
    | .error e => .error e
    | .ok cell => .ok (row ++ [cell])
  | none =>
    match cellText B (answers.get h.field.name) with
    | .error e => .error e
    | .ok cell => .ok (row ++ [cell])

/-- The loop `fieldHeaders.forEach(...)` over a row. -/
def pushCells (B : Builtins) (answers : Answers) :
    List FieldHeader → List String → Except JSError (List String)
  | [], row => .ok row
  | h :: rest, row =>
    match pushCell B answers row h with
    | .error e => .error e
    | .ok row1 => pushCells B answers rest row1

/-- The cells of the row of one submission, before they are quoted and joined.
The rendering `toISOString` of the time stamp is a parameter. -/
def exportRow (B : Builtins) (toISOString : ℕ → String) (fieldHeaders : List FieldHeader)
    (sub : Submission) : Except JSError (List String) :=
  pushCells B sub.answers fieldHeaders [toISOString sub.submittedAt]

/-- The key under which the export reads the cell of a column. -/
def FieldHeader.key (h : FieldHeader) : String :=
  match h.nested with
  | some nested => h.field.name ++ "_" ++ nested.name
  | none => h.field.name

/-- The field whose answer a column shows. -/
def FieldHeader.target (h : FieldHeader) : Field :=
  match h.nested with
  | some nested => nested
  | none => h.field

/-- The header text of a column. -/
def FieldHeader.title (h : FieldHeader) : String :=
  match h.nested with
  | some nested => h.field.label ++ " - " ++ nested.label
  | none => h.field.label

/-- The columns of the nested fields of a list of options. -/
def optionColumns (field : Field) (opts : List FieldOption) : List FieldHeader :=
  opts.flatMap fun o =>
    match o.nestedFields with
    | none => []
    | some nfs => nfs.map fun nf => { field := field, nested := some nf }

/-- The columns of one field: its own, then those of all nested fields of all
its options. -/
def fieldColumns (f : Field) : List FieldHeader :=
  { field := f, nested := none } ::
    (match f.options with
    | none => []
    | some opts => optionColumns f opts)

/-! ## The input sanitizer (`src/server/middleware/sanitize.js`) -/

/-- The three pattern replacements of the string case, whose patterns are run
by the regular-expression engine: parameters. -/
structure Replacers where
  /-- `.replace(/<script\b[^<]*(?:(?!<\/script>)<[^<]*)*<\/script>/gi, '')`. -/
  scriptBlocks : String → String
  /-- `.replace(/javascript:/gi, '')`. -/
  javascriptScheme : String → String
  /-- `.replace(/on\w+\s*=/gi, '')`. -/
  eventHandlers : String → String

/-- `String.prototype.trim`: white space and line terminators are removed at
both ends. -/
def jsTrim (s : String) : String :=
  String.mk ((s.data.dropWhile isJsSpace).reverse.dropWhile isJsSpace).reverse

/-- `.replace(/[<>]/g, '')`: every `<` and every `>` is removed. -/
def removeAngles (s : String) : String :=
  String.mk (s.data.filter fun c => c != '<' && c != '>')

/-- The string case of `sanitizeInput`. -/
def sanitizeString (R : Replacers) (s : String) : String :=
  removeAngles (R.eventHandlers (R.javascriptScheme (R.scriptBlocks (jsTrim s))))

/-- The definition of an own property: an existing key keeps its place and takes
the new value, a new key is appended. -/
def defineProp : List (String × JVal) → String → JVal → List (String × JVal)
  | [], key, v => [(key, v)]
  | (k, w) :: rest, key, v =>
    if k = key then (k, v) :: rest else (k, w) :: defineProp rest key v

/-- The assignment `sanitized[key] = v` on an object created by `{}`: the key
`__proto__` reaches the inherited setter and defines no own property, every
other key defines an own property. -/
def assignProp (sanitized : List (String × JVal)) (key : String) (v : JVal) :
    List (String × JVal) :=
  if key = "__proto__" then sanitized else defineProp sanitized key v

mutual
/-- The function `sanitizeInput(obj)`.  In the object case `obj.constructor` and
`obj.hasOwnProperty` are own properties when the object has such keys; their
values are JSON values, never the function `Object` nor a function at all. -/
def sanitizeInput (R : Replacers) : JVal → Except JSError JVal
  | .undefined => .ok .undefined
  | .null => .ok .null
  | .bool b => .ok (.bool b)
  | .num n => .ok (.num n)
  | .str s => .ok (.str (sanitizeString R s))
  | .arr xs =>
    match sanitizeItems R xs with
    | .error e => .error e
    | .ok ys => .ok (.arr ys)
  | .obj kvs =>
    if hasOwn kvs "constructor" then .ok (.obj kvs)
    else if hasOwn kvs "hasOwnProperty" then .error .typeError
    else
      match sanitizeProps R kvs [] with
      | .error e => .error e
      | .ok sanitized => .ok (.obj sanitized)
/-- The call `obj.map(item => sanitizeInput(item))`. -/
def sanitizeItems (R : Replacers) : List JVal → Except JSError (List JVal)
  | [] => .ok []
  | x :: rest =>
    match sanitizeInput R x with
    | .error e => .error e
    | .ok y =>
      match sanitizeItems R rest with
      | .error e => .error e
      | .ok ys => .ok (y :: ys)
/-- The loop `for (const key in obj)` over the own properties, from the object
`sanitized` built so far. -/
def sanitizeProps (R : Replacers) :
    List (String × JVal) → List (String × JVal) → Except JSError (List (String × JVal))
  | [], sanitized => .ok sanitized
  | (key, value) :: rest, sanitized =>
    match sanitizeInput R value with
    | .error e => .error e
    | .ok v => sanitizeProps R rest (assignProp sanitized (sanitizeString R key) v)
end

/-- A string holds neither `<` nor `>`. -/
def noAngleString (s : String) : Bool :=
  s.data.all fun c => c != '<' && c != '>'

mutual
/-- Every string in a value, at every depth of arrays and objects and
including the object keys, holds neither `<` nor `>`. -/
def noAngle : JVal → Bool
  | .str s => noAngleString s
  | .arr xs => noAngleItems xs
  | .obj kvs => noAngleProps kvs
  | _ => true
/-- The elements of an array hold no angle bracket. -/
def noAngleItems : List JVal → Bool
  | [] => true
  | x :: rest => noAngle x && noAngleItems rest
/-- The keys and values of an object hold no angle bracket. -/
def noAngleProps : List (String × JVal) → Bool
  | [] => true
  | (k, v) :: rest => noAngleString k && noAngle v && noAngleProps rest
end

mutual
/-- No object in the value, at any depth, has an own property named
`constructor` or `hasOwnProperty`. -/
def guarded : JVal → Bool
  | .arr xs => guardedItems xs
  | .obj kvs => !hasOwn kvs "constructor" && !hasOwn kvs "hasOwnProperty" && guardedProps kvs
  | _ => true
/-- The elements of an array are guarded. -/
def guardedItems : List JVal → Bool
  | [] => true
  | x :: rest => guarded x && guardedItems rest
/-- The values of an object are guarded. -/
def guardedProps : List (String × JVal) → Bool
  | [] => true
  | (_, v) :: rest => guarded v && guardedProps rest
end

/-! ## Concrete data for the closed examples -/

/-- Whether a string is a non-empty run of decimal digits. -/
def isDigits (s : String) : Bool :=
  s.data != [] && s.data.all fun c => c.isDigit

/-- The value of a run of decimal digits. -/
def digitsValue (s : String) : ℕ :=
  s.data.foldl (fun n c => 10 * n + (c.toNat - 48)) 0

/-- Whether a string is a non-empty run of ASCII letters and digits. -/
def isAlphanumeric (s : String) : Bool :=
  s.data != [] && s.data.all fun c => c.isAlphanum

/-- The library routines on the fragment the closed examples use. Exact there:
`StringToNumber` on the empty string, on runs of decimal digits, on `Infinity`
and `-Infinity`, and on the other strings of letters; `Number::toString` on NaN, the infinities and the integers
below `10^21` in magnitude; `new RegExp` on a pattern of letters and digits
(a substring search) and on the pattern `(` (a SyntaxError); `Date.parse` on
strings that name no date. Outside the fragment the entries are placeholders. -/
def sampleBuiltins : Builtins where
  stringToNumber := fun s =>
    if s = "" then .fin 0
    else if isDigits s then .fin (digitsValue s)
    else if s = "Infinity" then .posInf
    else if s = "-Infinity" then .negInf
    else .nan
  numberToString := fun n =>
    match n with
    | .nan => "NaN"
    | .posInf => "Infinity"
    | .negInf => "-Infinity"
    | .fin q => toString q.num
  regExp := fun p =>
    if isAlphanumeric p then some (fun s => s.data.tails.any fun t => p.data.isPrefixOf t) else none
  dateParse := fun _ => .nan

/-- A field with nothing optional set. -/
def plainField ( label type name : String) (required : Bool) : Field :=
  { _id := none, label := label, type := type, name := name, required := required,
    options := none, validation := none, order := 0 }

/-- A form around a field list. -/
def formOf (fields : List Field) : Form :=
  { _id := "650000000000000000000001", title := "Survey", description := "", fields := fields, version := 1,
    isActive := true, updatedAt := 0 }

/-- The required checkbox `agree` without options, labelled `I agree`. -/
def agreeField : Field := plainField "I agree" "checkbox" "agree" true

/-- The number field `age` with `validation: {min: 18, max: 65}`. -/
def ageField : Field :=
  { plainField "age" "number" "age" false with
    validation := some { min := some (.fin 18), max := some (.fin 65), minLength := none,
                         maxLength := none, regex := none } }

/-- The required nested text field `details`. -/
def detailsField : Field := plainField "Details" "text" "details" true

/-- The select field `country` with the options `us` and `other`, the latter
carrying the nested field `details`. -/
def countryField : Field :=
  { plainField "Country" "select" "country" false with
    options := some [{ label := "United States", value := "us", nestedFields := none },
                     { label := "Other", value := "other", nestedFields := some [detailsField] }] }

/-- A select field `country` in which two options share the value `other` and
only the second carries the nested field `details`. -/
def shadowedCountryField : Field :=
  { plainField "Country" "select" "country" false with
    options := some [{ label := "Other", value := "other", nestedFields := none },
                     { label := "Elsewhere", value := "other", nestedFields := some [detailsField] }] }

/-- A nested field of type `radio` that declares no options. -/
def kindField : Field := plainField "Kind" "radio" "kind" false

/-- The select field `country` whose option `other` carries the nested radio
field `kind`. -/
def countryKindField : Field :=
  { plainField "Country" "select" "country" false with
    options := some [{ label := "Other", value := "other", nestedFields := some [kindField] }] }

/-- A nested field of type `select` with the options `small` and `large`. -/
def sizeField : Field :=
  { plainField "Size" "select" "size" false with
    options := some [{ label := "Small", value := "small", nestedFields := none },
                     { label := "Large", value := "large", nestedFields := none }] }

/-- The select field `country` whose option `other` carries the nested select
field `size`. -/
def countrySizeField : Field :=
  { plainField "Country" "select" "country" false with
    options := some [{ label := "Other", value := "other", nestedFields := some [sizeField] }] }

/-- The text `"s"` of a JSON string without characters that need escaping. -/
def jsonQuote (s : String) : String :=
  String.singleton (Char.ofNat 34) ++ s ++ String.singleton (Char.ofNat 34)

/-- One field as `JSON.stringify` renders it, for a field without `_id`,
options and validation bag, with an integer `order`. -/
def sampleFieldJson (f : Field) : String :=
  "\x7b" ++ jsonQuote "label" ++ ":" ++ jsonQuote f.label ++ "," ++
    jsonQuote "type" ++ ":" ++ jsonQuote f.type ++ "," ++
    jsonQuote "name" ++ ":" ++ jsonQuote f.name ++ "," ++
    jsonQuote "required" ++ ":" ++ (if f.required then "true" else "false") ++ "," ++
    jsonQuote "order" ++ ":" ++ toString f.order.num ++ "\x7d"

/-- The routine `JSON.stringify` on the fragment the closed examples use: lists
of fields without `_id`, options and validation bag, whose strings need no
escaping and whose `order` is an integer. -/
def sampleStringify (fields : List Field) : String :=
  "[" ++ String.intercalate "," (fields.map sampleFieldJson) ++ "]"

/-- The text field `name`, and the same field retyped as a number field. -/
def nameAsNumberField : Field := plainField "Name" "number" "name" false

/-- The text field `name`. -/
def nameField : Field := plainField "Name" "text" "name" false

/-- The checkbox field `colors` with the options `red` and `blue`. -/
def colorsField : Field :=
  { plainField "Colors" "checkbox" "colors" false with
    options := some [{ label := "Red", value := "red", nestedFields := none },
                     { label := "Blue", value := "blue", nestedFields := none }] }

/-- The text field `letter` whose `validation.regex` is the pattern `a`. -/
def letterField : Field :=
  { plainField "Letter" "text" "letter" false with
    validation := some { min := none, max := none, minLength := none, maxLength := none,
                         regex := some "a" } }

/-- The text field `nick` with `validation: {minLength: 3, maxLength: 5}`. -/
def nickField : Field :=
  { plainField "Nick" "text" "nick" false with
    validation := some { min := none, max := none, minLength := some (.fin 3),
                         maxLength := some (.fin 5), regex := none } }

/-- The number field `score` without bounds. -/
def scoreField : Field := plainField "Score" "number" "score" false

/-- The number field `level` with `validation: {min: 5}`. -/
def levelField : Field :=
  { plainField "Level" "number" "level" false with
    validation := some { min := some (.fin 5), max := none, minLength := none,
                         maxLength := none, regex := none } }

/-- The number field `level` with `validation: {min: 5, max: 2}`. -/
def crossedLevelField : Field :=
  { plainField "Level" "number" "level" false with
    validation := some { min := some (.fin 5), max := some (.fin 2), minLength := none,
                         maxLength := none, regex := none } }

/-- The text field `a` with `order` 2. -/
def thirdField : Field := { plainField "A" "text" "a" false with order := 2 }

/-- The text field `b` with `order` 1. -/
def firstField : Field := { plainField "B" "text" "b" false with order := 1 }

/-- The text field `c` with `order` 1. -/
def secondField : Field := { plainField "C" "text" "c" false with order := 1 }

/-- Whether a string is the text of an `ObjectId`: 24 hexadecimal digits. -/
def isObjectIdText (s : String) : Bool :=
  s.data.length == 24 &&
    s.data.all fun c => c.isDigit || ('a' ≤ c && c ≤ 'f') || ('A' ≤ c && c ≤ 'F')

/-- The `enum` of the path `type` of `fieldSchema`. -/
def fieldTypeEnum : List String :=
  ["text", "textarea", "number", "email", "date", "checkbox", "radio", "select"]

/-- Whether an option of the field carries a nested field object. -/
def hasNestedObject (f : Field) : Bool :=
  match f.options with
  | none => false
  | some opts => opts.any fun o =>
      match o.nestedFields with
      | none => false
      | some nfs => !nfs.isEmpty

/-- Whether a top-level field passes `fieldSchema`: `label` and `name` are
required after trimming, `type` is required within the `enum`, and no option
carries a nested field object (the declaration of `nestedFields` has a `type`
key, so Mongoose casts its elements to strings and an object fails the cast). -/
def fieldAccepted (f : Field) : Bool :=
  jsTrim f.label != "" && jsTrim f.name != "" && fieldTypeEnum.contains f.type &&
    !hasNestedObject f

/-- A field as the document of a stored form holds it: without nested field
objects. -/
def dropNestedObjects (f : Field) : Field :=
  { f with options := f.options.map fun opts =>
      opts.map fun o => { o with nestedFields := o.nestedFields.map fun _ => [] } }

/-- Whether the `Map` of `answers` takes a key: it holds no `.` and does not
start with `$`. -/
def answerKeyAccepted (k : String) : Bool :=
  k.data.head? != some '$' && k.data.all fun c => c != '.'

/-- An instance of the library for the closed examples, which agrees with
Mongoose on their inputs: an id casts when it is the text of 24 hexadecimal
digits; a form document is refused when its title is blank after trimming or
a top-level field fails `fieldAccepted`; a submission document is refused when
the `Map` refuses a key of the answers; the document of a stored form holds no
nested field object. The message texts stand for the messages Mongoose
composes and no example depends on them. -/
def sampleMongoose : Mongoose :=
  { idError := fun id =>
      if isObjectIdText id then none else some ("Cast to ObjectId failed for value " ++ id),
    hydrate := fun form => { form with fields := form.fields.map dropNestedObjects },
    formError := fun form =>
      if jsTrim form.title != "" && form.fields.all fieldAccepted then none
      else some "Form validation failed",
    submissionError := fun sub =>
      if sub.answers.all fun kv => answerKeyAccepted kv.1 then none
      else some "Mongoose maps do not support this key" }

/-- A database that holds the one form with the text field `name`, and no
submission. -/
def nameStore : Store := { forms := [formOf [nameField]], submissions := [] }

/-- The identifier, address and time given to the submissions of the examples. -/
def sampleEnv : SubmitEnv := { newId := "660000000000000000000001", ip := "127.0.0.1", now := 9 }

/-- A request for the form of `nameStore` whose answers carry, besides `name`,
the key `extra`, which names no field. -/
def extraKeyBody : SubmitBody :=
  { formId := some "650000000000000000000001", answers := some [("name", .str "Ada"), ("extra", .str "x")] }

/-- A request for the form of `nameStore` whose answers carry, besides `name`,
the key `a.b`. -/
def dottedKeyBody : SubmitBody :=
  { formId := some "650000000000000000000001",
    answers := some [("name", .str "Ada"), ("a.b", .str "x")] }

/-- A second text field with the name `name`, labelled `Name again`. -/
def nameTwinField : Field := plainField "Name again" "text" "name" false

/-- The identifier and time given to the forms created in the examples. -/
def sampleCreateEnv : CreateEnv := { newId := "650000000000000000000002", now := 5 }

/-- A database without forms and submissions. -/
def emptyStore : Store := { forms := [], submissions := [] }

/-- A database that holds one inactive form, with the text field `name`. -/
def inactiveStore : Store :=
  { forms := [{ formOf [nameField] with isActive := false }], submissions := [] }

/-- An optional e-mail field. -/
def emailField : Field := plainField "Email" "email" "email" false

/-- A rendering of time stamps for the closed examples, exact at time 0. -/
def epochIso : ℕ → String := fun _ => "1970-01-01T00:00:00.000Z"

/-- A stored submission of the form `country, age` that selects `other` and
fills the nested field. -/
def storedSubmission : Submission :=
  { _id := "660000000000000000000001", formId := "650000000000000000000001", formVersion := 1,
    answers := [("country", .str "other"), ("country_details", .str "north")],
    ip := "::1", submittedAt := 0 }

/-- The request body `{"constructor": 1, "note": "<b>"}`. -/
def constructorBody : JVal :=
  .obj [("constructor", .num (.fin 1)), ("note", .str "<b>")]

/-- The text field `code` whose `validation.regex` is the pattern `(`, which
does not compile. -/
def badRegexField : Field :=
  { plainField "Code" "text" "code" false with
    validation := some { min := none, max := none, minLength := none, maxLength := none,
                         regex := some "(" } }

/-- An answer object whose `name` is the object `{"toString": null}`. -/
def objectAnswers : Answers := [("name", .obj [("toString", .null)])]


/-! ## The error object -/

theorem ErrorMap.get?_set_self (m : ErrorMap) (k : String) (v : List String) :
    (m.set k v).get? k = some v := by
  induction m with
  | nil => simp [ErrorMap.set, ErrorMap.get?, List.lookup]
  | cons hd tl ih =>
    obtain ⟨k1, v1⟩ := hd
    by_cases h : k1 = k
    · simp [ErrorMap.set, ErrorMap.get?, List.lookup, h]
    · have h2 : (k == k1) = false := by simpa using fun h3 => h h3.symm
      simp only [ErrorMap.set, h, if_false, ErrorMap.get?, List.lookup, h2]
      exact ih

theorem ErrorMap.get?_set_ne (m : ErrorMap) (k k2 : String) (v : List String) (hne : k2 ≠ k) :
    (m.set k v).get? k2 = m.get? k2 := by
  induction m with
  | nil =>
    have h2 : (k2 == k) = false := by simpa using hne
    simp [ErrorMap.set, ErrorMap.get?, List.lookup, h2]
  | cons hd tl ih =>
    obtain ⟨k1, v1⟩ := hd
    by_cases h : k1 = k
    · subst h
      have h2 : (k2 == k1) = false := by simpa using hne
      simp [ErrorMap.set, ErrorMap.get?, List.lookup, h2]
    · simp only [ErrorMap.set, h, if_false, ErrorMap.get?, List.lookup]
      cases hk : (k2 == k1)
      · exact ih
      · rfl

theorem ErrorMap.mem_set (m : ErrorMap) (k : String) (v : List String) (e : String × List String)
    (h : e ∈ m.set k v) : e ∈ m ∨ e = (k, v) := by
  induction m with
  | nil => simpa [ErrorMap.set] using h
  | cons hd tl ih =>
    obtain ⟨k1, v1⟩ := hd
    by_cases hk : k1 = k
    · subst hk
      simp only [ErrorMap.set, if_true, List.mem_cons] at h
      rcases h with h | h
      · exact Or.inr h
      · exact Or.inl (List.mem_cons_of_mem _ h)
    · simp only [ErrorMap.set, hk, if_false, List.mem_cons] at h
      rcases h with h | h
      · exact Or.inl (h ▸ List.mem_cons_self _ _)
      · rcases ih h with h2 | h2
        · exact Or.inl (List.mem_cons_of_mem _ h2)
        · exact Or.inr h2

theorem ErrorMap.set_ne_nil (m : ErrorMap) (k : String) (v : List String) : m.set k v ≠ [] := by
  cases m with
  | nil => simp [ErrorMap.set]
  | cons hd tl =>
    obtain ⟨k1, v1⟩ := hd
    simp only [ErrorMap.set]
    split_ifs <;> simp

theorem ErrorMap.get?_eq_none_iff (m : ErrorMap) (k : String) :
    m.get? k = none ↔ k ∉ m.keys := by
  induction m with
  | nil => simp [ErrorMap.get?, ErrorMap.keys]
  | cons hd tl ih =>
    obtain ⟨k1, v1⟩ := hd
    simp only [ErrorMap.get?, List.lookup, ErrorMap.keys, List.map_cons, List.mem_cons, not_or]
    cases hk : (k == k1)
    · have : k ≠ k1 := by simpa using hk
      simp only [ErrorMap.get?, ErrorMap.keys] at ih
      simp [ih, this]
    · have : k = k1 := by simpa using hk
      simp [this]

theorem ErrorMap.keys_set (m : ErrorMap) (k : String) (v : List String) (k2 : String)
    (h : k2 ∈ (m.set k v).keys) : k2 ∈ m.keys ∨ k2 = k := by
  simp only [ErrorMap.keys, List.mem_map] at h ⊢
  obtain ⟨e, he, rfl⟩ := h
  rcases ErrorMap.mem_set m k v e he with h1 | h1
  · exact Or.inl ⟨e, h1, rfl⟩
  · exact Or.inr (by rw [h1])

/-! ## The loops as one sequence of checks -/

theorem runChecks_append (B : Builtins) (answers : Answers) (l1 l2 : List (String × Field))
    (st : VState) :
    runChecks B answers (l1 ++ l2) st =
      match runChecks B answers l1 st with
      | .error e => .error e
      | .ok st1 => runChecks B answers l2 st1 := by
  induction l1 generalizing st with
  | nil => simp [runChecks]
  | cons hd tl ih =>
    obtain ⟨k, f⟩ := hd
    simp only [List.cons_append, runChecks]
    cases validateField B f (answers.get k) with
    | error e => rfl
    | ok errs => exact ih _

theorem validateNested_eq (B : Builtins) (answers : Answers) (field : Field) (nfs : List Field)
    (st : VState) :
    validateNested B answers field nfs st =
      runChecks B answers (nfs.map fun nf => (nestedKey field nf, nf)) st := by
  induction nfs generalizing st with
  | nil => simp [validateNested, runChecks]
  | cons nf rest ih =>
    simp only [validateNested, List.map_cons, runChecks]
    cases validateField B nf (answers.get (nestedKey field nf)) with
    | error e => rfl
    | ok errs => exact ih _

theorem validateFields_eq (B : Builtins) (answers : Answers) (fields : List Field) (st : VState) :
    validateFields B answers fields st = runChecks B answers (evaluated answers fields) st := by
  induction fields generalizing st with
  | nil => simp [validateFields, runChecks, evaluated]
  | cons f rest ih =>
    have hev : evaluated answers (f :: rest) =
        ((f.name, f) :: (cascadeFields f (answers.get f.name)).map fun nf => (nestedKey f nf, nf))
          ++ evaluated answers rest := by
      simp [evaluated]
    rw [hev, runChecks_append]
    simp only [validateFields, validateOne, runChecks]
    cases validateField B f (answers.get f.name) with
    | error e => rfl
    | ok errs =>
      simp only [validateNested_eq]
      cases runChecks B answers
          ((cascadeFields f (answers.get f.name)).map fun nf => (nestedKey f nf, nf))
          (record st f.name errs) with
      | error e => rfl
      | ok st1 => exact ih _

theorem validateSubmission_eq (B : Builtins) (form : Form) (answers : Answers) :
    validateSubmission B form answers =
      match runChecks B answers (evaluated answers (sortFields form.fields))
          { errors := [], hasErrors := false } with
      | .error e => .error e
      | .ok st => .ok { isValid := !st.hasErrors, errors := st.errors } := by
  simp only [validateSubmission, validateFields_eq]

/-! ## Messages -/

theorem str_append_left_cancel {l a b : String} (h : l ++ a = l ++ b) : a = b := by
  have := congrArg String.data h
  simp only [String.data_append] at this
  exact String.ext (List.append_cancel_left this)

/-- A message that continues the label with a text whose second character is
not `i` is not the message `<label> is required`. -/
theorem msg_ne_required (l rest tail : String) (h : (rest.data.take 2) ≠ [' ', 'i'])
    (h2 : 2 ≤ rest.data.length) :
    l ++ rest ++ tail ≠ l ++ " is required" := by
  intro heq
  rw [String.append_assoc] at heq
  have h3 := congrArg (fun s => s.data.take 2) (str_append_left_cancel heq)
  simp only [String.data_append] at h3
  rw [List.take_append_of_le_length h2] at h3
  exact h (by simpa using h3)

theorem msg_ne_required0 (l rest : String) (h : (rest.data.take 2) ≠ [' ', 'i'])
    (h2 : 2 ≤ rest.data.length) :
    l ++ rest ≠ l ++ " is required" := by
  have := msg_ne_required l rest "" h h2
  simpa using this

theorem not_mem_opt_msg (l rest : String) (tail : String) (c : Bool)
    (h : (rest.data.take 2) ≠ [' ', 'i']) (h2 : 2 ≤ rest.data.length) :
    l ++ " is required" ∉ (if c then [l ++ rest ++ tail] else []) := by
  split_ifs
  · simp only [List.mem_singleton]
    exact (msg_ne_required l rest tail h h2).symm
  · simp

theorem not_mem_opt_msg0 (l rest : String) (c : Bool)
    (h : (rest.data.take 2) ≠ [' ', 'i']) (h2 : 2 ≤ rest.data.length) :
    l ++ " is required" ∉ (if c then [l ++ rest] else []) := by
  split_ifs
  · simp only [List.mem_singleton]
    exact (msg_ne_required0 l rest h h2).symm
  · simp

theorem checkRegex_no_required (B : Builtins) (f : Field) (s : String) :
    f.label ++ " is required" ∉ checkRegex B f s := by
  unfold checkRegex
  split
  · simp
  · split_ifs
    · simp
    · split
      · simp
      · exact not_mem_opt_msg0 _ _ _ (by decide) (by decide)

theorem validateFieldType_no_required (B : Builtins) (f : Field) (v : JVal) (msgs : List String)
    (h : validateField.validateFieldType B f v = .ok msgs) :
    f.label ++ " is required" ∉ msgs := by
  unfold validateField.validateFieldType at h
  split_ifs at h
  · unfold checkEmail at h
    split at h
    · cases h
    · cases h
      exact not_mem_opt_msg0 _ _ _ (by decide) (by decide)
  · unfold checkNumber at h
    split at h
    · cases h
    · split_ifs at h
      · cases h
        simp only [List.mem_singleton]
        exact (msg_ne_required0 _ _ (by decide) (by decide)).symm
      · cases h
        simp only [List.mem_append, not_or]
        constructor
        · split
          · exact not_mem_opt_msg _ _ _ _ (by decide) (by decide)
          · simp
        · split
          · exact not_mem_opt_msg _ _ _ _ (by decide) (by decide)
          · simp
  · unfold checkText at h
    split at h
    · cases h
    · cases h
      simp only [List.mem_append, not_or]
      refine ⟨⟨?_, ?_⟩, checkRegex_no_required B f _⟩
      · split
        · split_ifs
          · simp only [List.mem_singleton]
            intro heq
            rw [String.append_assoc, String.append_assoc] at heq
            have h3 := congrArg String.data (str_append_left_cancel heq)
            simp [String.data_append] at h3
          · simp
        · simp
      · split
        · split_ifs
          · simp only [List.mem_singleton]
            intro heq
            rw [String.append_assoc, String.append_assoc] at heq
            have h3 := congrArg String.data (str_append_left_cancel heq)
            simp [String.data_append] at h3
          · simp
        · simp
  · unfold checkDate at h
    split at h
    · cases h
    · cases h
      exact not_mem_opt_msg0 _ _ _ (by decide) (by decide)
  · cases h
    unfold checkChoice
    split_ifs
    · simp only [List.mem_singleton]
      exact (msg_ne_required0 _ _ (by decide) (by decide)).symm
    · simp only [List.mem_singleton]
      exact (msg_ne_required0 _ _ (by decide) (by decide)).symm
    · simp
  · cases h
    unfold checkCheckbox
    split
    · split_ifs
      · simp only [List.mem_singleton]
        exact (msg_ne_required0 _ _ (by decide) (by decide)).symm
      · simp
      · simp
    · simp only [List.mem_singleton]
      exact (msg_ne_required0 _ _ (by decide) (by decide)).symm
  · cases h
    simp

theorem isMissing_iff (v : JVal) :
    isMissing v = true ↔ v = .undefined ∨ v = .null ∨ v = .str "" := by
  cases v <;> simp [isMissing]

theorem isMissing_eq_false_iff (v : JVal) :
    isMissing v = false ↔ ¬ (v = .undefined ∨ v = .null ∨ v = .str "") := by
  rw [← isMissing_iff]
  simp

/-- On a present value `validateField` is the `switch` on the type, whether the
field is required or not. -/
theorem validateField_present (B : Builtins) (field : Field) (v : JVal)
    (hv : isMissing v = false) :
    validateField B field v = validateField.validateFieldType B field v := by
  unfold validateField
  simp [hv]

theorem validateField_missing (B : Builtins) (field : Field) (v : JVal)
    (hv : isMissing v = true) :
    validateField B field v =
      .ok (if field.required then [ field.label ++ " is required"] else []) := by
  unfold validateField
  cases hr : field.required <;> simp [hv]

/-! ## Coercions and exceptions -/

theorem objToPrimitive_ok_iff (kvs : List (String × JVal)) :
    (∃ s, objToPrimitive kvs = .ok s) ↔ hasOwn kvs "toString" = false := by
  unfold objToPrimitive
  cases hasOwn kvs "toString" <;> simp

mutual
theorem joinStr_ok_iff (B : Builtins) :
    ∀ xs : List JVal, (∃ s, joinStr B xs = .ok s) ↔ coercibleList xs = true
  | [] => by simp [joinStr, coercibleList]
  | [x] => by
    have := elemStr_ok_iff B x
    simp [joinStr, coercibleList, this]
  | x :: y :: rest => by
    have h1 := elemStr_ok_iff B x
    have h2 := joinStr_ok_iff B (y :: rest)
    rw [coercibleList, Bool.and_eq_true, ← h1, ← h2]
    simp only [joinStr]
    cases elemStr B x with
    | error e => simp
    | ok a =>
      cases joinStr B (y :: rest) with
      | error e => simp
      | ok b => simp
theorem elemStr_ok_iff (B : Builtins) :
    ∀ v : JVal, (∃ s, elemStr B v = .ok s) ↔ coercible v = true
  | .undefined => by simp [elemStr, coercible]
  | .null => by simp [elemStr, coercible]
  | .bool b => by simp [elemStr, coercible]
  | .num n => by simp [elemStr, coercible]
  | .str s => by simp [elemStr, coercible]
  | .arr xs => by
    have := joinStr_ok_iff B xs
    simpa [elemStr, coercible] using this
  | .obj kvs => by
    have := objToPrimitive_ok_iff kvs
    simpa [elemStr, coercible] using this
end

theorem toPrimitive_ok_iff (B : Builtins) (v : JVal) :
    (∃ p, toPrimitive B v = .ok p) ↔ coercible v = true := by
  cases v with
  | arr xs =>
    rw [coercible, ← joinStr_ok_iff B xs]
    simp only [toPrimitive]
    cases joinStr B xs <;> simp
  | obj kvs =>
    have := objToPrimitive_ok_iff kvs
    rw [coercible]
    simp only [toPrimitive]
    cases h : objToPrimitive kvs <;> simp_all
  | _ => simp [toPrimitive, coercible]

theorem toStr_ok_iff (B : Builtins) (v : JVal) :
    (∃ s, toStr B v = .ok s) ↔ coercible v = true := by
  cases v with
  | arr xs => simpa [toStr, coercible] using joinStr_ok_iff B xs
  | obj kvs => simpa [toStr, coercible] using objToPrimitive_ok_iff kvs
  | _ => simp [toStr, coercible]

theorem toNumber_ok_iff (B : Builtins) (v : JVal) :
    (∃ n, toNumber B v = .ok n) ↔ coercible v = true := by
  rw [← toPrimitive_ok_iff B v]
  unfold toNumber
  cases toPrimitive B v <;> simp

theorem dateValid_ok_iff (B : Builtins) (v : JVal) :
    (∃ b, dateValid B v = .ok b) ↔ coercible v = true := by
  rw [← toPrimitive_ok_iff B v]
  unfold dateValid
  cases h : toPrimitive B v with
  | error e => simp
  | ok p => cases p <;> simp

/-- The `switch` of `validateField` returns exactly when the case of the
field's type coerces nothing or the value converts to a primitive. -/
theorem validateFieldType_ok_iff (B : Builtins) (f : Field) (v : JVal) :
    (∃ msgs, validateField.validateFieldType B f v = .ok msgs) ↔
      (coercesValue f = true → coercible v = true) := by
  unfold validateField.validateFieldType coercesValue
  split_ifs with h1 h2 h3 h4 h5 h6
  · simp only [h1, true_or, decide_True, forall_const]
    rw [← toStr_ok_iff B v]
    unfold checkEmail
    cases toStr B v <;> simp
  · simp only [h2, true_or, or_true, decide_True, forall_const]
    rw [← toNumber_ok_iff B v]
    unfold checkNumber
    cases toNumber B v with
    | error e => simp
    | ok n => by_cases hn : n.isNaN = true <;> simp [hn]
  · have : (f.type = "email" ∨ f.type = "number" ∨ f.type = "text" ∨ f.type = "textarea" ∨
        f.type = "date") := by tauto
    simp only [this, decide_True, forall_const]
    rw [← toStr_ok_iff B v]
    unfold checkText
    cases toStr B v <;> simp
  · simp only [h4, or_true, decide_True, forall_const]
    rw [← dateValid_ok_iff B v]
    unfold checkDate
    cases dateValid B v <;> simp
  · have : ¬ (f.type = "email" ∨ f.type = "number" ∨ f.type = "text" ∨ f.type = "textarea" ∨
        f.type = "date") := by tauto
    simp [this]
  · have : ¬ (f.type = "email" ∨ f.type = "number" ∨ f.type = "text" ∨ f.type = "textarea" ∨
        f.type = "date") := by tauto
    simp [this]
  · have : ¬ (f.type = "email" ∨ f.type = "number" ∨ f.type = "text" ∨ f.type = "textarea" ∨
        f.type = "date") := by tauto
    simp [this]

/-- A call of `validateField` returns exactly when the value is missing, or the
field's type coerces nothing, or the value converts to a primitive. -/
theorem validateField_ok_iff (B : Builtins) (f : Field) (v : JVal) :
    (∃ msgs, validateField B f v = .ok msgs) ↔
      (coercesValue f = true → isMissing v = false → coercible v = true) := by
  cases hm : isMissing v
  · rw [validateField_present B f v hm, validateFieldType_ok_iff]
    simp
  · rw [validateField_missing B f v hm]
    simp

/-- When a call does not return, it throws the TypeError. -/
theorem except_ok_or_typeError {α : Type} (x : Except JSError α) :
    (∃ a, x = .ok a) ∨ x = .error .typeError := by
  cases x with
  | ok a => exact Or.inl ⟨a, rfl⟩
  | error e => cases e; exact Or.inr rfl

/-- A sequence of checks returns exactly when each of its calls does. -/
theorem runChecks_ok_iff (B : Builtins) (answers : Answers) (l : List (String × Field))
    (st : VState) :
    (∃ st1, runChecks B answers l st = .ok st1) ↔
      ∀ kf ∈ l, ∃ msgs, validateField B kf.2 (answers.get kf.1) = .ok msgs := by
  induction l generalizing st with
  | nil => simp [runChecks]
  | cons hd tl ih =>
    obtain ⟨k, f⟩ := hd
    simp only [runChecks, List.mem_cons, forall_eq_or_imp]
    cases h : validateField B f (answers.get k) with
    | error e => simp
    | ok errs =>
      simp only [Except.ok.injEq, exists_eq', true_and]
      exact ih _

/-! ## What a sequence of checks leaves in the state -/

theorem record_get?_ne (st : VState) (k k2 : String) (errs : List String) (hne : k2 ≠ k) :
    (record st k errs).errors.get? k2 = st.errors.get? k2 := by
  unfold record
  split_ifs
  · exact ErrorMap.get?_set_ne _ _ _ _ hne
  · rfl

theorem record_get?_self (st : VState) (k : String) (errs : List String) :
    (record st k errs).errors.get? k = if errs = [] then st.errors.get? k else some errs := by
  unfold record
  cases errs with
  | nil => simp
  | cons a t => simp [ErrorMap.get?_set_self]

theorem record_hasErrors (st : VState) (k : String) (errs : List String) :
    (record st k errs).hasErrors = (st.hasErrors || decide (errs ≠ [])) := by
  unfold record
  cases errs with
  | nil => simp
  | cons a t => simp

theorem record_keys (st : VState) (k : String) (errs : List String) (k2 : String)
    (h : k2 ∈ (record st k errs).errors.keys) : k2 ∈ st.errors.keys ∨ (k2 = k ∧ errs ≠ []) := by
  unfold record at h
  split_ifs at h with hl
  · rcases ErrorMap.keys_set _ _ _ _ h with h1 | h1
    · exact Or.inl h1
    · exact Or.inr ⟨h1, by intro he; simp [he] at hl⟩
  · exact Or.inl h

theorem record_keys_mono (st : VState) (k : String) (errs : List String) (k2 : String)
    (h : k2 ∈ st.errors.keys) : k2 ∈ (record st k errs).errors.keys := by
  rw [← not_not (a := k2 ∈ (record st k errs).errors.keys), ← ErrorMap.get?_eq_none_iff]
  rw [← not_not (a := k2 ∈ st.errors.keys), ← ErrorMap.get?_eq_none_iff] at h
  by_cases hk : k2 = k
  · subst hk
    rw [record_get?_self]
    split_ifs
    · exact h
    · simp
  · rw [record_get?_ne _ _ _ _ hk]
    exact h

theorem record_key_self (st : VState) (k : String) (errs : List String) (h : errs ≠ []) :
    k ∈ (record st k errs).errors.keys := by
  rw [← not_not (a := k ∈ (record st k errs).errors.keys), ← ErrorMap.get?_eq_none_iff,
    record_get?_self]
  simp [h]

theorem record_consistent (st : VState) (k : String) (errs : List String)
    (h : st.Consistent) : (record st k errs).Consistent := by
  unfold record
  split_ifs with hl
  · refine ⟨by simp [ErrorMap.set_ne_nil], fun e he => ?_⟩
    rcases ErrorMap.mem_set _ _ _ _ he with h1 | h1
    · exact h.2 e h1
    · rw [h1]
      intro hnil
      simp only at hnil
      simp [hnil] at hl
  · exact h

theorem runChecks_consistent (B : Builtins) (answers : Answers) (l : List (String × Field))
    (st st1 : VState) (h : runChecks B answers l st = .ok st1) (hc : st.Consistent) :
    st1.Consistent := by
  induction l generalizing st with
  | nil =>
    simp only [runChecks, Except.ok.injEq] at h
    exact h ▸ hc
  | cons hd tl ih =>
    obtain ⟨k, f⟩ := hd
    simp only [runChecks] at h
    cases hv : validateField B f (answers.get k) with
    | error e => simp [hv] at h
    | ok errs =>
      simp only [hv] at h
      exact ih _ h (record_consistent st k errs hc)

/-- Every key of the final error object was there before or is the key of a
check that reported a non-empty list. -/
theorem runChecks_keys (B : Builtins) (answers : Answers) (l : List (String × Field))
    (st st1 : VState) (h : runChecks B answers l st = .ok st1) (k : String)
    (hk : k ∈ st1.errors.keys) :
    k ∈ st.errors.keys ∨
      ∃ kf ∈ l, kf.1 = k ∧ ∃ errs, validateField B kf.2 (answers.get k) = .ok errs ∧ errs ≠ [] := by
  induction l generalizing st with
  | nil =>
    simp only [runChecks, Except.ok.injEq] at h
    exact Or.inl (h ▸ hk)
  | cons hd tl ih =>
    obtain ⟨k0, f⟩ := hd
    simp only [runChecks] at h
    cases hv : validateField B f (answers.get k0) with
    | error e => simp [hv] at h
    | ok errs =>
      simp only [hv] at h
      rcases ih _ h with h1 | ⟨kf, hkf, h2⟩
      · rcases record_keys _ _ _ _ h1 with h3 | ⟨h3, h4⟩
        · exact Or.inl h3
        · subst h3
          exact Or.inr ⟨(k, f), List.mem_cons_self _ _, rfl, errs, hv, h4⟩
      · exact Or.inr ⟨kf, List.mem_cons_of_mem _ hkf, h2⟩

/-- A key once in the error object stays in it. -/
theorem runChecks_keys_mono (B : Builtins) (answers : Answers) (l : List (String × Field))
    (st st1 : VState) (h : runChecks B answers l st = .ok st1) (k : String)
    (hk : k ∈ st.errors.keys) : k ∈ st1.errors.keys := by
  induction l generalizing st with
  | nil =>
    simp only [runChecks, Except.ok.injEq] at h
    exact h ▸ hk
  | cons hd tl ih =>
    obtain ⟨k0, f⟩ := hd
    simp only [runChecks] at h
    cases hv : validateField B f (answers.get k0) with
    | error e => simp [hv] at h
    | ok errs =>
      simp only [hv] at h
      exact ih _ h (record_keys_mono _ _ _ _ hk)

/-- A check that reports a non-empty list leaves its key in the final error
object. -/
theorem runChecks_reported (B : Builtins) (answers : Answers) (l : List (String × Field))
    (st st1 : VState) (h : runChecks B answers l st = .ok st1) (k : String) (f : Field)
    (hkf : (k, f) ∈ l) (errs : List String)
    (hv : validateField B f (answers.get k) = .ok errs) (hne : errs ≠ []) :
    k ∈ st1.errors.keys := by
  induction l generalizing st with
  | nil => cases hkf
  | cons hd tl ih =>
    obtain ⟨k0, f0⟩ := hd
    simp only [runChecks] at h
    cases hv0 : validateField B f0 (answers.get k0) with
    | error e => simp [hv0] at h
    | ok errs0 =>
      simp only [hv0] at h
      rcases List.mem_cons.1 hkf with h1 | h1
      · cases h1
        rw [hv] at hv0
        cases hv0
        exact runChecks_keys_mono B answers tl _ st1 h k (record_key_self st k errs hne)
      · exact ih _ h h1

/-- The flag, once set, stays set. -/
theorem runChecks_hasErrors_mono (B : Builtins) (answers : Answers) (l : List (String × Field))
    (st st1 : VState) (h : runChecks B answers l st = .ok st1) (hs : st.hasErrors = true) :
    st1.hasErrors = true := by
  induction l generalizing st with
  | nil =>
    simp only [runChecks, Except.ok.injEq] at h
    exact h ▸ hs
  | cons hd tl ih =>
    obtain ⟨k0, f⟩ := hd
    simp only [runChecks] at h
    cases hv : validateField B f (answers.get k0) with
    | error e => simp [hv] at h
    | ok errs =>
      simp only [hv] at h
      exact ih _ h (by rw [record_hasErrors, hs]; rfl)

/-- Checks under other keys leave the entry of a key as it was. -/
theorem runChecks_get?_untouched (B : Builtins) (answers : Answers) (l : List (String × Field))
    (st st1 : VState) (h : runChecks B answers l st = .ok st1) (k : String)
    (hk : k ∉ l.map Prod.fst) : st1.errors.get? k = st.errors.get? k := by
  induction l generalizing st with
  | nil =>
    simp only [runChecks, Except.ok.injEq] at h
    rw [h]
  | cons hd tl ih =>
    obtain ⟨k0, f⟩ := hd
    simp only [runChecks] at h
    simp only [List.map_cons, List.mem_cons, not_or] at hk
    cases hv : validateField B f (answers.get k0) with
    | error e => simp [hv] at h
    | ok errs =>
      simp only [hv] at h
      rw [ih _ h hk.2, record_get?_ne _ _ _ _ hk.1]

/-- With pairwise distinct keys, the entry of a checked key is the list its
check reported, when that list is not empty, and is untouched otherwise; a
non-empty report also sets the flag. -/
theorem runChecks_get?_of_nodup (B : Builtins) (answers : Answers) (l : List (String × Field))
    (st st1 : VState) (h : runChecks B answers l st = .ok st1)
    (hnd : (l.map Prod.fst).Nodup) (k : String) (f : Field) (hkf : (k, f) ∈ l)
    (errs : List String) (hv : validateField B f (answers.get k) = .ok errs) :
    st1.errors.get? k = (if errs = [] then st.errors.get? k else some errs) ∧
      (errs ≠ [] → st1.hasErrors = true) := by
  induction l generalizing st with
  | nil => cases hkf
  | cons hd tl ih =>
    obtain ⟨k0, f0⟩ := hd
    simp only [runChecks] at h
    simp only [List.map_cons, List.nodup_cons] at hnd
    cases hv0 : validateField B f0 (answers.get k0) with
    | error e => simp [hv0] at h
    | ok errs0 =>
      simp only [hv0] at h
      rcases List.mem_cons.1 hkf with h1 | h1
      · cases h1
        rw [hv] at hv0
        cases hv0
        refine ⟨?_, fun hne => ?_⟩
        · rw [runChecks_get?_untouched B answers tl _ st1 h k hnd.1, record_get?_self]
        · exact runChecks_hasErrors_mono B answers tl _ st1 h
            (by rw [record_hasErrors]; simp [hne])
      · have hne : k ≠ k0 := by
          intro he
          exact hnd.1 (he ▸ List.mem_map_of_mem Prod.fst h1)
        have := ih _ h hnd.2 h1
        rw [record_get?_ne _ _ _ _ hne] at this
        exact this

/-! ## Which fields are evaluated -/

theorem mem_sortFields (fields : List Field) (f : Field) : f ∈ sortFields fields ↔ f ∈ fields :=
  (List.perm_insertionSort _ fields).mem_iff

theorem findSelected_some (opts : List FieldOption) (v : JVal) (opt : FieldOption)
    (h : findSelected opts v = some opt) : opt ∈ opts ∧ v = .str opt.value := by
  unfold findSelected at h
  refine ⟨List.mem_of_find?_eq_some h, ?_⟩
  have := List.find?_some h
  cases v <;> simp_all [strictEqStr]

/-- A nested field is evaluated only through the selected option of a radio
or select field with a truthy answer. -/
theorem mem_cascadeFields (f : Field) (v : JVal) (nf : Field) :
    nf ∈ cascadeFields f v ↔
      (f.type = "radio" ∨ f.type = "select") ∧ truthy v = true ∧
        ∃ opts opt nfs, f.options = some opts ∧ findSelected opts v = some opt ∧
          opt.nestedFields = some nfs ∧ nf ∈ nfs := by
  unfold cascadeFields
  split_ifs with hc
  · cases ho : f.options with
    | none => simp
    | some opts =>
      cases hs : findSelected opts v with
      | none => simp [hs]
      | some opt =>
        cases hn : opt.nestedFields with
        | none => simp [hs, hn]
        | some nfs => simp [hc.1, hc.2, hs, hn]
  · simp only [List.not_mem_nil, false_iff]
    rintro ⟨h1, h2, -⟩
    exact hc ⟨h1, h2⟩

theorem cascadeFields_of_missing (f : Field) (v : JVal) (hv : isMissing v = true) :
    cascadeFields f v = [] := by
  have ht : truthy v = false := by
    rcases (isMissing_iff v).1 hv with h | h | h <;> (subst h; rfl)
  unfold cascadeFields
  simp [ht]

theorem cascadeFields_of_type (f : Field) (v : JVal)
    (ht : ¬ (f.type = "radio" ∨ f.type = "select")) : cascadeFields f v = [] := by
  unfold cascadeFields
  simp [ht]

theorem mem_evaluated (answers : Answers) (fields : List Field) (k : String) (g : Field) :
    (k, g) ∈ evaluated answers fields ↔
      (g ∈ fields ∧ k = g.name) ∨
        ∃ f ∈ fields, g ∈ cascadeFields f (answers.get f.name) ∧ k = nestedKey f g := by
  unfold evaluated
  simp only [List.mem_flatMap, List.mem_cons, Prod.mk.injEq, List.mem_map]
  constructor
  · rintro ⟨f, hf, h | ⟨nf, hnf, h1, h2⟩⟩
    · exact Or.inl ⟨h.2 ▸ hf, h.2 ▸ h.1⟩
    · exact Or.inr ⟨f, hf, h2 ▸ hnf, by rw [← h1, h2]⟩
  · rintro (⟨hg, hk⟩ | ⟨f, hf, hg, hk⟩)
    · exact ⟨g, hg, Or.inl ⟨hk, rfl⟩⟩
    · exact ⟨f, hf, Or.inr ⟨g, hg, hk.symm, rfl⟩⟩

/-- The pair of final state and result of a run that returned. -/
theorem validateSubmission_ok (B : Builtins) (form : Form) (answers : Answers)
    (r : ValidationResult) (h : validateSubmission B form answers = .ok r) :
    ∃ st, runChecks B answers (evaluated answers (sortFields form.fields))
        { errors := [], hasErrors := false } = .ok st ∧
      r = { isValid := !st.hasErrors, errors := st.errors } := by
  rw [validateSubmission_eq] at h
  cases hr : runChecks B answers (evaluated answers (sortFields form.fields))
      { errors := [], hasErrors := false } with
  | error e => simp [hr] at h
  | ok st =>
    simp only [hr, Except.ok.injEq] at h
    exact ⟨st, rfl, h.symm⟩

/-- A run returns exactly when no evaluated field whose case coerces the value
receives a present value that fails to convert to a primitive. -/
theorem validateSubmission_ok_iff (B : Builtins) (form : Form) (answers : Answers) :
    (∃ r, validateSubmission B form answers = .ok r) ↔
      ∀ kf ∈ evaluated answers (sortFields form.fields),
        coercesValue kf.2 = true → isMissing (answers.get kf.1) = false →
          coercible (answers.get kf.1) = true := by
  rw [validateSubmission_eq]
  have := runChecks_ok_iff B answers (evaluated answers (sortFields form.fields))
    { errors := [], hasErrors := false }
  simp only [validateField_ok_iff] at this
  rw [← this]
  cases runChecks B answers (evaluated answers (sortFields form.fields))
      { errors := [], hasErrors := false } <;> simp

/-! ## Required fields -/

/-- C1. For a required field, `validateField` returns exactly the one message
`<label> is required` when the value is `undefined`, `null` or the empty
string, and for every other value no message of the returned list is
`<label> is required`. -/
theorem validateField_required (B : Builtins) (field : Field) (v : JVal)
    (hreq : field.required = true) :
    ((v = .undefined ∨ v = .null ∨ v = .str "") →
      validateField B field v = .ok [ field.label ++ " is required"]) ∧
    (¬ (v = .undefined ∨ v = .null ∨ v = .str "") →
      ∀ msgs, validateField B field v = .ok msgs → field.label ++ " is required" ∉ msgs) := by
  constructor
  · intro hv
    rw [validateField_missing B field v ((isMissing_iff v).2 hv), hreq]
    rfl
  · intro hv msgs h
    rw [validateField_present B field v ((isMissing_eq_false_iff v).2 hv)] at h
    exact validateFieldType_no_required B field v msgs h

/-- C1, on the required checkbox `agree` labelled `I agree`: a missing answer
gives the one message built from the label, the answers `false`, `0` and `[]`
give none with that text. -/
theorem validateField_required_witness :
    validateField sampleBuiltins agreeField .undefined = .ok ["I agree is required"] ∧
    (∀ msgs, validateField sampleBuiltins agreeField (.bool false) = .ok msgs →
      "I agree is required" ∉ msgs) ∧
    (∀ msgs, validateField sampleBuiltins agreeField (.num (.fin 0)) = .ok msgs →
      "I agree is required" ∉ msgs) ∧
    (∀ msgs, validateField sampleBuiltins agreeField (.arr []) = .ok msgs →
      "I agree is required" ∉ msgs) :=
  ⟨(validateField_required sampleBuiltins agreeField .undefined rfl).1 (Or.inl rfl),
   (validateField_required sampleBuiltins agreeField (.bool false) rfl).2 (by simp),
   (validateField_required sampleBuiltins agreeField (.num (.fin 0)) rfl).2 (by simp),
   (validateField_required sampleBuiltins agreeField (.arr []) rfl).2 (by simp)⟩

/-! ## The nested cascade -/

/-- C2, as stated, fails: two options share the value `other`, the second
carries the required nested field `details`, the answer is `other` and
`country_details` is missing; the lookup selects the first option, and the
run reports nothing. -/
theorem nested_required_counterexample :
    (∃ opts opt, shadowedCountryField.options = some opts ∧ opt ∈ opts ∧
      Answers.get [("country", .str "other")] shadowedCountryField.name = .str opt.value ∧
      opt.nestedFields = some [detailsField] ∧ detailsField.required = true ∧
      Answers.get [("country", .str "other")] (nestedKey shadowedCountryField detailsField)
        = .undefined) ∧
    (evaluatedKeys (formOf [shadowedCountryField]) [("country", .str "other")]).Nodup ∧
    validateSubmission sampleBuiltins (formOf [shadowedCountryField]) [("country", .str "other")]
      = .ok { isValid := true, errors := [] } := by
  refine ⟨⟨_, { label := "Elsewhere", value := "other", nestedFields := some [detailsField] },
    rfl, List.mem_cons_of_mem _ (List.mem_cons_self _ _), rfl, rfl, rfl, rfl⟩, by decide, by decide⟩

/-- C2, amended. For a radio or select field whose answer is a non-empty
string, when the first option whose value equals the answer carries a required
nested field whose synthesized key is missing, `null` or the empty string in
the answers, and the evaluated keys are pairwise distinct: every result the run
returns has `isValid = false` and maps the synthesized key to the one message
`<nested label> is required`; and the run does return when every answer value
converts to a primitive. -/
theorem nested_required_reported (B : Builtins) (form : Form) (answers : Answers)
    (field : Field) (s : String) (opts : List FieldOption) (opt : FieldOption)
    (nfs : List Field) (nf : Field)
    (hf : field ∈ form.fields)
    (htype : field.type = "radio" ∨ field.type = "select")
    (hans : answers.get field.name = .str s) (hs : s ≠ "")
    (hopts : field.options = some opts)
    (hsel : opts.find? (fun o => o.value == s) = some opt)
    (hnfs : opt.nestedFields = some nfs) (hnf : nf ∈ nfs) (hreq : nf.required = true)
    (hmiss : answers.get (field.name ++ "_" ++ nf.name) = .undefined ∨
      answers.get (field.name ++ "_" ++ nf.name) = .null ∨
      answers.get (field.name ++ "_" ++ nf.name) = .str "")
    (hdistinct : (evaluatedKeys form answers).Nodup) :
    (∀ r, validateSubmission B form answers = .ok r →
      r.isValid = false ∧
      r.errors.get? (field.name ++ "_" ++ nf.name) = some [ nf.label ++ " is required"]) ∧
    ((∀ k, coercible (answers.get k) = true) →
      ∃ r, validateSubmission B form answers = .ok r) := by
  have hmem : (nestedKey field nf, nf) ∈ evaluated answers (sortFields form.fields) := by
    rw [mem_evaluated]
    refine Or.inr ⟨field, (mem_sortFields _ _).2 hf, ?_, rfl⟩
    rw [mem_cascadeFields, hans]
    exact ⟨htype, by simpa [truthy] using hs, opts, opt, nfs, hopts, hsel, hnfs, hnf⟩
  have hv : validateField B nf (answers.get (nestedKey field nf)) =
      .ok [ nf.label ++ " is required"] := by
    rw [validateField_missing B nf (answers.get (nestedKey field nf))
      ((isMissing_iff _).2 hmiss), hreq]
    rfl
  constructor
  · intro r hr
    obtain ⟨st, hst, rfl⟩ := validateSubmission_ok B form answers r hr
    have := runChecks_get?_of_nodup B answers _ _ st hst hdistinct _ nf hmem _ hv
    simp only [List.cons_ne_nil, if_false, not_false_eq_true, forall_const] at this
    exact ⟨by simp [this.2], this.1⟩
  · intro hc
    rw [validateSubmission_ok_iff]
    intro kf _ _ _
    exact hc kf.1

/-- C2, on the select `country` whose option `other` carries the required
nested field `details`: the answers `{country: "other"}` give an invalid result
with the one message under `country_details`. -/
theorem nested_required_reported_witness :
    ∃ r, validateSubmission sampleBuiltins (formOf [countryField]) [("country", .str "other")]
        = .ok r ∧ r.isValid = false ∧
      r.errors.get? "country_details" = some ["Details is required"] := by
  have h := nested_required_reported sampleBuiltins (formOf [countryField])
    [("country", .str "other")] countryField "other"
    [{ label := "United States", value := "us", nestedFields := none },
     { label := "Other", value := "other", nestedFields := some [detailsField] }]
    { label := "Other", value := "other", nestedFields := some [detailsField] }
    [detailsField] detailsField (List.mem_cons_self _ _) (Or.inr rfl) rfl (by decide) rfl rfl rfl
    (List.mem_cons_self _ _) rfl (Or.inl rfl) (by decide)
  obtain ⟨r, hr⟩ := h.2 (by
    intro k
    unfold Answers.get
    simp only [List.lookup]
    split <;> rfl)
  exact ⟨r, hr, h.1 r hr⟩

/-- C7. Every key of the returned error object is the name of a top-level
field, or the synthesized key of a nested field directly under an option of a
radio or select field whose value is the submitted answer. The calls of
`validateField` one run makes are those of `evaluated`: no nested field is
evaluated for a field that is neither radio nor select (a checkbox), for a
missing answer, or through an option whose value is not the answer, and the
nested fields of a nested field's options are never evaluated. -/
theorem error_keys_evaluated (B : Builtins) (form : Form) (answers : Answers) :
    (∀ r, validateSubmission B form answers = .ok r → ∀ k ∈ r.errors.keys,
      (∃ f ∈ form.fields, k = f.name) ∨
      (∃ f ∈ form.fields, (f.type = "radio" ∨ f.type = "select") ∧
        ∃ opts opt nfs nf, f.options = some opts ∧ opt ∈ opts ∧
          answers.get f.name = .str opt.value ∧ opt.nestedFields = some nfs ∧ nf ∈ nfs ∧
          k = f.name ++ "_" ++ nf.name)) ∧
    (validateSubmission B form answers =
      match runChecks B answers (evaluated answers (sortFields form.fields))
          { errors := [], hasErrors := false } with
      | .error e => .error e
      | .ok st => .ok { isValid := !st.hasErrors, errors := st.errors }) ∧
    (∀ k g, (k, g) ∈ evaluated answers (sortFields form.fields) →
      (g ∈ form.fields ∧ k = g.name) ∨
      (∃ f ∈ form.fields, (f.type = "radio" ∨ f.type = "select") ∧
        ∃ opts opt nfs, f.options = some opts ∧ opt ∈ opts ∧
          answers.get f.name = .str opt.value ∧ opt.nestedFields = some nfs ∧ g ∈ nfs ∧
          k = f.name ++ "_" ++ g.name)) ∧
    (∀ f : Field, f.type = "checkbox" → cascadeFields f (answers.get f.name) = []) ∧
    (∀ f : Field, (answers.get f.name = .undefined ∨ answers.get f.name = .null ∨
        answers.get f.name = .str "") → cascadeFields f (answers.get f.name) = []) := by
  have hev : ∀ k g, (k, g) ∈ evaluated answers (sortFields form.fields) →
      (g ∈ form.fields ∧ k = g.name) ∨
      (∃ f ∈ form.fields, (f.type = "radio" ∨ f.type = "select") ∧
        ∃ opts opt nfs, f.options = some opts ∧ opt ∈ opts ∧
          answers.get f.name = .str opt.value ∧ opt.nestedFields = some nfs ∧ g ∈ nfs ∧
          k = f.name ++ "_" ++ g.name) := by
    intro k g hkg
    rcases (mem_evaluated _ _ _ _).1 hkg with ⟨hg, hk⟩ | ⟨f, hf, hg, hk⟩
    · exact Or.inl ⟨(mem_sortFields _ _).1 hg, hk⟩
    · obtain ⟨ht, -, opts, opt, nfs, ho, hs, hn, hmem⟩ := (mem_cascadeFields _ _ _).1 hg
      obtain ⟨h1, h2⟩ := findSelected_some _ _ _ hs
      exact Or.inr ⟨f, (mem_sortFields _ _).1 hf, ht, opts, opt, nfs, ho, h1, h2, hn, hmem, hk⟩
  refine ⟨?_, validateSubmission_eq B form answers, hev, ?_, ?_⟩
  · intro r hr k hk
    obtain ⟨st, hst, rfl⟩ := validateSubmission_ok B form answers r hr
    rcases runChecks_keys B answers _ _ st hst k hk with h | ⟨kf, hkf, hk1, -⟩
    · simp [ErrorMap.keys] at h
    · obtain ⟨k0, g⟩ := kf
      simp only at hk1
      subst hk1
      rcases hev k0 g hkf with ⟨hg, hk⟩ | ⟨f, hf, ht, opts, opt, nfs, h1, h2, h3, h4, h5, h6⟩
      · exact Or.inl ⟨g, hg, hk⟩
      · exact Or.inr ⟨f, hf, ht, opts, opt, nfs, g, h1, h2, h3, h4, h5, h6⟩
  · intro f ht
    exact cascadeFields_of_type f _ (by rw [ht]; decide)
  · intro f hm
    exact cascadeFields_of_missing f _ ((isMissing_iff _).2 hm)

/-- C7, on the select `country` with the options `us` and `other`: under the
answer `us` no nested error appears, whatever `country_details` holds, and
under the answer `other` the one key of the error object is the synthesized
key of the nested field of the selected option. -/
theorem error_keys_evaluated_witness :
    (∀ v, validateSubmission sampleBuiltins (formOf [countryField])
        [("country", .str "us"), ("country_details", v)] = .ok { isValid := true, errors := [] }) ∧
    (∀ k ∈ ErrorMap.keys [("country_details", ["Details is required"])],
      (∃ f ∈ [countryField], k = f.name) ∨
      (∃ f ∈ [countryField], (f.type = "radio" ∨ f.type = "select") ∧
        ∃ opts opt nfs nf, f.options = some opts ∧ opt ∈ opts ∧
          Answers.get [("country", .str "other")] f.name = .str opt.value ∧
          opt.nestedFields = some nfs ∧ nf ∈ nfs ∧ k = f.name ++ "_" ++ nf.name)) :=
  ⟨fun _ => rfl,
   (error_keys_evaluated sampleBuiltins (formOf [countryField]) [("country", .str "other")]).1
     { isValid := false, errors := [("country_details", ["Details is required"])] } (by decide)⟩

/-! ## The shape of the result -/

/-- C9. For every result the run returns: `isValid` is true exactly when the
error object has no key; every list stored in it is non-empty; and when a key
is absent from it, every field validated under that key, top-level or nested,
got the empty list from `validateField`. -/
theorem result_consistent (B : Builtins) (form : Form) (answers : Answers)
    (r : ValidationResult) (h : validateSubmission B form answers = .ok r) :
    (r.isValid = true ↔ r.errors.keys = []) ∧
    (∀ k msgs, (k, msgs) ∈ r.errors → msgs ≠ []) ∧
    (∀ k, k ∉ r.errors.keys →
      (∀ f ∈ form.fields, f.name = k → validateField B f (answers.get k) = .ok []) ∧
      (∀ f ∈ form.fields, ∀ nf ∈ cascadeFields f (answers.get f.name),
        f.name ++ "_" ++ nf.name = k → validateField B nf (answers.get k) = .ok [])) := by
  obtain ⟨st, hst, rfl⟩ := validateSubmission_ok B form answers r h
  have hc : st.Consistent :=
    runChecks_consistent B answers _ _ st hst ⟨by simp, by simp⟩
  have key : ∀ k g, (k, g) ∈ evaluated answers (sortFields form.fields) →
      k ∉ st.errors.keys → validateField B g (answers.get k) = .ok [] := by
    intro k g hkg hk
    obtain ⟨msgs, hm⟩ := (runChecks_ok_iff B answers _ _).1 ⟨st, hst⟩ (k, g) hkg
    simp only at hm
    by_cases hne : msgs = []
    · rw [hm, hne]
    · exact absurd (runChecks_reported B answers _ _ st hst k g hkg msgs hm hne) hk
  refine ⟨?_, fun k msgs hkm => hc.2 (k, msgs) hkm, fun k hk => ⟨?_, ?_⟩⟩
  · have h1 := hc.1
    simp only [ErrorMap.keys, List.map_eq_nil_iff]
    cases hh : st.hasErrors
    · simp only [hh, Bool.false_eq_true, false_iff, ne_eq, not_not] at h1
      simp [h1]
    · simp only [hh, true_iff] at h1
      simp [h1]
  · intro f hf hn
    exact key k f ((mem_evaluated _ _ _ _).2 (Or.inl ⟨(mem_sortFields _ _).2 hf, hn.symm⟩)) hk
  · intro f hf nf hnf hn
    exact key k nf ((mem_evaluated _ _ _ _).2
      (Or.inr ⟨f, (mem_sortFields _ _).2 hf, hnf, hn.symm⟩)) hk

/-- C9, on the form with the fields `age` and `country` and the answers
`{age: 70, country: "us"}`: the result is invalid with the one key `age`, and
`country`, absent from the error object, passed. -/
theorem result_consistent_witness :
    validateSubmission sampleBuiltins (formOf [ageField, countryField])
        [("age", .num (.fin 70)), ("country", .str "us")]
      = .ok { isValid := false, errors := [("age", ["age must be at most 65"])] } ∧
    validateField sampleBuiltins countryField (.str "us") = .ok [] :=
  ⟨by decide,
   ((result_consistent sampleBuiltins (formOf [ageField, countryField])
      [("age", .num (.fin 70)), ("country", .str "us")]
      { isValid := false, errors := [("age", ["age must be at most 65"])] } (by decide)).2.2
      "country" (by decide)).1 countryField (List.mem_cons_of_mem _ (List.mem_cons_self _ _)) rfl⟩

/-! ## Exceptions -/

/-- C10, as stated, fails: on the text field `name` and the answer object
`{name: {"toString": null}}` the call `String(value)` raises a TypeError and the
run returns no result. -/
theorem validateSubmission_throws_counterexample :
    validateSubmission sampleBuiltins (formOf [nameField]) objectAnswers = .error .typeError := by
  decide

/-- C10, amended. `validateSubmission` returns a result exactly when no
evaluated field of type email, number, text, textarea or date, top-level or
nested, has a present answer that fails to convert to a primitive (an object
with an own `toString` property, or an array holding one at some depth), and
raises a TypeError otherwise; so it returns whenever every answer value
converts, whatever the regex patterns of the form are. -/
theorem validateSubmission_returns_iff (B : Builtins) (form : Form) (answers : Answers) :
    ((∃ r, validateSubmission B form answers = .ok r) ↔
      ((∀ f ∈ form.fields, coercesValue f = true → isMissing (answers.get f.name) = false →
          coercible (answers.get f.name) = true) ∧
       (∀ f ∈ form.fields, ∀ nf ∈ cascadeFields f (answers.get f.name),
          coercesValue nf = true → isMissing (answers.get (f.name ++ "_" ++ nf.name)) = false →
          coercible (answers.get (f.name ++ "_" ++ nf.name)) = true))) ∧
    ((¬ ∃ r, validateSubmission B form answers = .ok r) →
      validateSubmission B form answers = .error .typeError) ∧
    ((∀ k, coercible (answers.get k) = true) →
      ∃ r, validateSubmission B form answers = .ok r) := by
  refine ⟨?_, ?_, ?_⟩
  · rw [validateSubmission_ok_iff]
    constructor
    · intro h
      refine ⟨fun f hf => ?_, fun f hf nf hnf => ?_⟩
      · exact h (f.name, f) ((mem_evaluated _ _ _ _).2 (Or.inl ⟨(mem_sortFields _ _).2 hf, rfl⟩))
      · exact h (nestedKey f nf, nf)
          ((mem_evaluated _ _ _ _).2 (Or.inr ⟨f, (mem_sortFields _ _).2 hf, hnf, rfl⟩))
    · rintro ⟨h1, h2⟩ ⟨k, g⟩ hkg
      rcases (mem_evaluated _ _ _ _).1 hkg with ⟨hg, hk⟩ | ⟨f, hf, hg, hk⟩
      · subst hk
        exact h1 g ((mem_sortFields _ _).1 hg)
      · subst hk
        exact h2 f ((mem_sortFields _ _).1 hf) g hg
  · intro h
    rcases except_ok_or_typeError (validateSubmission B form answers) with h1 | h1
    · exact absurd h1 h
    · exact h1
  · intro hc
    rw [validateSubmission_ok_iff]
    intro kf _ _ _
    exact hc kf.1

/-- C10, on the text field `code` whose pattern `(` does not compile: a string
answer gives a result, and the result is valid. -/
theorem validateSubmission_returns_witness :
    (∃ r, validateSubmission sampleBuiltins (formOf [badRegexField]) [("code", .str "x")]
      = .ok r) ∧
    validateSubmission sampleBuiltins (formOf [badRegexField]) [("code", .str "x")]
      = .ok { isValid := true, errors := [] } :=
  ⟨(validateSubmission_returns_iff sampleBuiltins (formOf [badRegexField])
      [("code", .str "x")]).2.2
      (by
        intro k
        unfold Answers.get
        simp only [List.lookup]
        split <;> rfl),
   by decide⟩

/-! ## The version counter -/

/-- C3. On an update that supplies a field list, the saved version is the old
one when the serialization of the supplied list equals that of the stored list
and the old one plus one when it differs; the stored list compared is the one
before the update, which the supplied list then replaces. Whenever the
serialization tells the two lists apart by their fields' types, a supplied list
that differs in a field's type raises the version by exactly one. -/
theorem putForm_version (stringify : List Field → String) (now : ℕ) (form : Form)
    (body : UpdateBody) (supplied : List Field) (hb : body.fields = some supplied) :
    (stringify form.fields ≠ stringify supplied →
      (putForm stringify now form body).version = form.version + 1) ∧
    (stringify form.fields = stringify supplied →
      (putForm stringify now form body).version = form.version) ∧
    (putForm stringify now form body).fields = supplied ∧
    ((stringify form.fields = stringify supplied →
        form.fields.map Field.type = supplied.map Field.type) →
      form.fields.map Field.type ≠ supplied.map Field.type →
      (putForm stringify now form body).version = form.version + 1) := by
  have hver : (putForm stringify now form body).version =
      if stringify form.fields = stringify supplied then form.version else form.version + 1 := by
    unfold putForm
    cases ht : body.title <;> cases hd : body.description <;> cases ha : body.isActive <;>
      by_cases hs : stringify form.fields = stringify supplied <;> simp [hb, hs]
  have hfields : (putForm stringify now form body).fields = supplied := by
    unfold putForm
    cases ht : body.title <;> cases hd : body.description <;> cases ha : body.isActive <;>
      by_cases hs : stringify form.fields = stringify supplied <;> simp [hb, hs]
  refine ⟨fun h => by rw [hver, if_neg h], fun h => by rw [hver, if_pos h], hfields, ?_⟩
  intro hsens hne
  rw [hver, if_neg (fun h => hne (hsens h))]

/-- C3, on a stored form at version 1 with the text field `name`: supplying the
same list keeps version 1, supplying the field retyped as a number gives
version 2. -/
theorem putForm_version_witness :
    (putForm sampleStringify 7 (formOf [nameField])
      { title := none, description := none, fields := some [nameField], isActive := none }).version
      = 1 ∧
    (putForm sampleStringify 7 (formOf [nameField])
      { title := none, description := none, fields := some [nameAsNumberField],
        isActive := none }).version = 2 :=
  ⟨(putForm_version sampleStringify 7 (formOf [nameField])
      { title := none, description := none, fields := some [nameField], isActive := none }
      [nameField] rfl).2.1 rfl,
   (putForm_version sampleStringify 7 (formOf [nameField])
      { title := none, description := none, fields := some [nameAsNumberField], isActive := none }
      [nameAsNumberField] rfl).2.2.2 (fun h => absurd h (by decide)) (by decide)⟩

/-! ## Option-based fields -/

/-- C4, on the code: a checkbox field is given the one message
`<label> must be an array` for every boolean answer, with or without options;
so the required checkbox `agree` without options and the answers
`{agree: true}` give an invalid result. -/
theorem checkbox_boolean_rejected :
    (∀ (B : Builtins) (field : Field) (b : Bool), field.type = "checkbox" →
      validateField B field (.bool b) = .ok [ field.label ++ " must be an array"]) ∧
    validateSubmission sampleBuiltins (formOf [agreeField]) [("agree", .bool true)]
      = .ok { isValid := false, errors := [("agree", ["I agree must be an array"])] } := by
  refine ⟨fun B field b ht => ?_, by decide⟩
  rw [validateField_present B field (.bool b) rfl]
  unfold validateField.validateFieldType
  simp [ht, checkCheckbox]

theorem includesVal_iff (vals : List String) (v : JVal) :
    includesVal vals v = true ↔ ∃ s ∈ vals, v = .str s := by
  unfold includesVal
  rw [List.any_eq_true]
  constructor
  · rintro ⟨s, hs, h⟩
    refine ⟨s, hs, ?_⟩
    cases v <;> simp_all [strictEqStr]
  · rintro ⟨s, hs, rfl⟩
    exact ⟨s, hs, by simp [strictEqStr]⟩

/-- C5. For a radio or select field and a present value: without options
(absent or empty) the result is the one message `<label> has no options
defined`; with options it is empty when the value is the string of some
option's value, and the one message `<label> must be one of the provided
options` when it is not. -/
theorem validateField_choice (B : Builtins) (field : Field) (v : JVal)
    (htype : field.type = "radio" ∨ field.type = "select")
    (hv : ¬ (v = .undefined ∨ v = .null ∨ v = .str "")) :
    ((field.options = none ∨ field.options = some []) →
      validateField B field v = .ok [ field.label ++ " has no options defined"]) ∧
    (∀ opts, field.options = some opts → opts ≠ [] →
      ((∃ opt ∈ opts, v = .str opt.value) → validateField B field v = .ok []) ∧
      ((¬ ∃ opt ∈ opts, v = .str opt.value) →
        validateField B field v = .ok [ field.label ++ " must be one of the provided options"])) := by
  have hsw : validateField B field v = .ok (checkChoice field v) := by
    rw [validateField_present B field v ((isMissing_eq_false_iff v).2 hv)]
    unfold validateField.validateFieldType
    rcases htype with h | h <;> simp [h]
  rw [hsw]
  constructor
  · rintro (h | h) <;> simp [checkChoice, Field.noOptions, h]
  · intro opts ho hne
    have hno : field.noOptions = false := by
      cases opts with
      | nil => exact absurd rfl hne
      | cons a t => simp [Field.noOptions, ho]
    have hinc : includesVal field.validValues v = true ↔ ∃ opt ∈ opts, v = .str opt.value := by
      rw [includesVal_iff]
      simp [Field.validValues, ho]
    constructor
    · intro h
      simp [checkChoice, hno, hinc.2 h]
    · intro h
      have : includesVal field.validValues v = false := by
        cases hi : includesVal field.validValues v
        · rfl
        · exact absurd (hinc.1 hi) h
      simp [checkChoice, hno, this]

/-- C5, on the select `country` with the options `us` and `other`: `us` passes,
`US` and the number 1 do not, and a radio field without options reports that it
has none. -/
theorem validateField_choice_witness :
    validateField sampleBuiltins countryField (.str "us") = .ok [] ∧
    validateField sampleBuiltins countryField (.str "US")
      = .ok ["Country must be one of the provided options"] ∧
    validateField sampleBuiltins countryField (.num (.fin 1))
      = .ok ["Country must be one of the provided options"] ∧
    validateField sampleBuiltins kindField (.str "x") = .ok ["Kind has no options defined"] :=
  ⟨((validateField_choice sampleBuiltins countryField (.str "us") (Or.inr rfl) (by simp)).2
      _ rfl (by simp)).1
      ⟨{ label := "United States", value := "us", nestedFields := none },
        List.mem_cons_self _ _, rfl⟩,
   ((validateField_choice sampleBuiltins countryField (.str "US") (Or.inr rfl) (by simp)).2
      _ rfl (by simp)).2 (by simp),
   ((validateField_choice sampleBuiltins countryField (.num (.fin 1)) (Or.inr rfl) (by simp)).2
      _ rfl (by simp)).2 (by simp),
   (validateField_choice sampleBuiltins kindField (.str "x") (Or.inl rfl) (by simp)).1
      (Or.inl rfl)⟩

/-! ## Number fields -/

theorem JNum.lt_irrefl (m : JNum) : JNum.lt m m = false := by
  cases m <;> simp [JNum.lt]

theorem JNum.isNaN_iff (n : JNum) : n.isNaN = true ↔ n = .nan := by
  cases n <;> simp [JNum.isNaN]

/-- C6. For a number field and a present value whose numeric coercion is `n`:
when `n` is NaN the result is the one message `<label> must be a number`;
otherwise it is the message `<label> must be at least <min>`, present exactly
when `validation.min` is defined and `n < min`, followed by the message
`<label> must be at most <max>`, present exactly when `validation.max` is
defined and `n > max`, and nothing else. A value equal to a bound passes that
bound; on finite numbers `<` is the order of their values. -/
theorem validateField_number (B : Builtins) (field : Field) (v : JVal) (n : JNum)
    (htype : field.type = "number")
    (hv : ¬ (v = .undefined ∨ v = .null ∨ v = .str ""))
    (hn : toNumber B v = .ok n) :
    (n = .nan → validateField B field v = .ok [ field.label ++ " must be a number"]) ∧
    (n ≠ .nan → ∃ lo hi, validateField B field v = .ok (lo ++ hi) ∧
      (field.vmin = none → lo = []) ∧
      (∀ m, field.vmin = some m →
        lo = if n.lt m = true then [ field.label ++ " must be at least " ++ B.numberToString m]
             else []) ∧
      (field.vmax = none → hi = []) ∧
      (∀ m, field.vmax = some m →
        hi = if n.gt m = true then [ field.label ++ " must be at most " ++ B.numberToString m]
             else []) ∧
      (field.vmin = some n → lo = []) ∧ (field.vmax = some n → hi = [])) ∧
    (∀ a b : ℚ, (JNum.lt (.fin a) (.fin b) = true ↔ a < b) ∧
      (JNum.gt (.fin a) (.fin b) = true ↔ a > b)) := by
  have hsw : validateField B field v = checkNumber B field v := by
    rw [validateField_present B field v ((isMissing_eq_false_iff v).2 hv)]
    unfold validateField.validateFieldType
    simp [htype]
  rw [hsw]
  unfold checkNumber
  simp only [hn]
  refine ⟨fun h => by simp [h, JNum.isNaN], fun h => ?_, fun a b => by simp [JNum.lt, JNum.gt]⟩
  have hnan : n.isNaN = false := by
    cases hh : n.isNaN
    · rfl
    · exact absurd ((JNum.isNaN_iff n).1 hh) h
  simp only [hnan, Bool.false_eq_true, if_false]
  refine ⟨_, _, rfl, ?_, ?_, ?_, ?_, ?_, ?_⟩
  · intro h1
    simp [h1]
  · intro m h1
    simp [h1]
  · intro h1
    simp [h1]
  · intro m h1
    simp [h1]
  · intro h1
    simp [h1, JNum.lt_irrefl]
  · intro h1
    simp [h1, JNum.gt, JNum.lt_irrefl]

/-- C6, on the field `age` with `min` 18 and `max` 65: the answer 70 gives the
one message about the upper bound, the answer `abc` the one message `must be a
number`, and the answers 18 and 65 pass. -/
theorem validateField_number_witness :
    validateField sampleBuiltins ageField (.str "abc") = .ok ["age must be a number"] ∧
    (∃ lo hi, validateField sampleBuiltins ageField (.num (.fin 70)) = .ok (lo ++ hi) ∧
      lo = [] ∧ hi = ["age must be at most 65"]) ∧
    validateField sampleBuiltins ageField (.num (.fin 18)) = .ok [] ∧
    validateField sampleBuiltins ageField (.num (.fin 65)) = .ok [] := by
  refine ⟨(validateField_number sampleBuiltins ageField (.str "abc") .nan rfl (by simp)
      (by decide)).1 rfl, ?_, by decide, by decide⟩
  obtain ⟨lo, hi, h, -, h2, -, h4, -, -⟩ :=
    (validateField_number sampleBuiltins ageField (.num (.fin 70)) (.fin 70) rfl (by simp)
      rfl).2.1 (by simp)
  exact ⟨lo, hi, h, by rw [h2 (.fin 18) rfl]; decide, by rw [h4 (.fin 65) rfl]; decide⟩

/-! ## Nested fields with options of their own -/

/-- C8, as stated, fails: the option `other` of the select `country` carries
the nested field `kind` of type radio without options; under the answers
`{country: "other", country_kind: "x"}` the synthesized key `country_kind`
holds the message `Kind has no options defined`; and under a nested select
`size` with the options `small` and `large` the answer `huge` is reported as
not one of the provided options. -/
theorem nested_options_counterexample :
    validateSubmission sampleBuiltins (formOf [countryKindField])
        [("country", .str "other"), ("country_kind", .str "x")]
      = .ok { isValid := false, errors := [("country_kind", ["Kind has no options defined"])] } ∧
    validateSubmission sampleBuiltins (formOf [countrySizeField])
        [("country", .str "other"), ("country_size", .str "huge")]
      = .ok { isValid := false,
              errors := [("country_size", ["Size must be one of the provided options"])] } := by
  decide

/-- C8, amended. A nested field evaluated through a selected option goes
through the same `validateField` as a top-level field, with the rules of its
own type: with pairwise distinct keys, the synthesized key holds exactly the
list `validateField` returns for the nested field and its answer when that list
is not empty, and is absent when it is empty. So a nested radio or select field
with a present answer is checked against its own options: without options the
key holds `<label> has no options defined`, and with options that do not hold
the answer it holds `<label> must be one of the provided options`. -/
theorem nested_validated_as_field (B : Builtins) (form : Form) (answers : Answers)
    (r : ValidationResult) (f nf : Field)
    (h : validateSubmission B form answers = .ok r)
    (hdistinct : (evaluatedKeys form answers).Nodup)
    (hf : f ∈ form.fields) (hnf : nf ∈ cascadeFields f (answers.get f.name)) :
    (∃ errs, validateField B nf (answers.get (f.name ++ "_" ++ nf.name)) = .ok errs ∧
      r.errors.get? (f.name ++ "_" ++ nf.name) = if errs = [] then none else some errs) ∧
    ((nf.type = "radio" ∨ nf.type = "select") →
      isMissing (answers.get (f.name ++ "_" ++ nf.name)) = false →
      (nf.noOptions = true →
        r.errors.get? (f.name ++ "_" ++ nf.name) = some [ nf.label ++ " has no options defined"]) ∧
      (nf.noOptions = false →
        includesVal nf.validValues (answers.get (f.name ++ "_" ++ nf.name)) = false →
        r.errors.get? (f.name ++ "_" ++ nf.name)
          = some [ nf.label ++ " must be one of the provided options"])) := by
  obtain ⟨st, hst, rfl⟩ := validateSubmission_ok B form answers r h
  have hmem : (nestedKey f nf, nf) ∈ evaluated answers (sortFields form.fields) :=
    (mem_evaluated _ _ _ _).2 (Or.inr ⟨f, (mem_sortFields _ _).2 hf, hnf, rfl⟩)
  obtain ⟨errs, he⟩ := (runChecks_ok_iff B answers _ _).1 ⟨st, hst⟩ _ hmem
  simp only at he
  have hget := (runChecks_get?_of_nodup B answers _ _ st hst hdistinct _ nf hmem errs he).1
  have hnone : ErrorMap.get? ([] : ErrorMap) (nestedKey f nf) = none := rfl
  simp only [hnone] at hget
  refine ⟨⟨errs, he, hget⟩, fun ht hm => ?_⟩
  have hsw : validateField B nf (answers.get (nestedKey f nf)) =
      .ok (checkChoice nf (answers.get (nestedKey f nf))) := by
    rw [validateField_present B nf (answers.get (nestedKey f nf)) hm]
    unfold validateField.validateFieldType
    rcases ht with h1 | h1 <;> simp [h1]
  rw [hsw] at he
  cases he
  constructor
  · intro hno
    have hget2 := hget
    simp only [checkChoice, hno, if_true] at hget2
    simpa [nestedKey] using hget2
  · intro hno hinc
    have hget2 := hget
    simp only [nestedKey] at hget2
    simpa [checkChoice, hno, hinc] using hget2

/-- C8, on the select `country` whose option `other` carries the nested radio
field `kind` without options: the key `country_kind` holds the message about
the missing options. -/
theorem nested_validated_as_field_witness :
    ErrorMap.get? [("country_kind", ["Kind has no options defined"])] "country_kind"
      = some ["Kind has no options defined"] :=
  ((nested_validated_as_field sampleBuiltins (formOf [countryKindField])
      [("country", .str "other"), ("country_kind", .str "x")]
      { isValid := false, errors := [("country_kind", ["Kind has no options defined"])] }
      countryKindField kindField (by decide) (by decide) (List.mem_cons_self _ _)
      (List.mem_cons_self _ _)).2 (Or.inl rfl) rfl).1 rfl

/-! ## Updates without a field list -/

/-- C11. An update whose body supplies no `fields` leaves the version and the
field list as stored, whatever it supplies for the title, the description and
the active flag; and each of the four entries that the body does not supply
keeps its stored value, while a supplied title, description or flag is
written. -/
theorem putForm_without_fields (stringify : List Field → String) (now : ℕ) (form : Form)
    (body : UpdateBody) :
    (body.fields = none →
      (putForm stringify now form body).version = form.version ∧
      (putForm stringify now form body).fields = form.fields) ∧
    (body.title = none → (putForm stringify now form body).title = form.title) ∧
    (body.description = none →
      (putForm stringify now form body).description = form.description) ∧
    (body.isActive = none → (putForm stringify now form body).isActive = form.isActive) ∧
    (∀ t, body.title = some t → (putForm stringify now form body).title = t) ∧
    (∀ d, body.description = some d → (putForm stringify now form body).description = d) ∧
    (∀ a, body.isActive = some a → (putForm stringify now form body).isActive = a) := by
  unfold putForm
  refine ⟨?_, ?_, ?_, ?_, ?_, ?_, ?_⟩
  · intro h
    cases ht : body.title <;> cases hd : body.description <;> cases ha : body.isActive <;>
      simp [h]
  · intro h
    cases hf : body.fields <;> cases hd : body.description <;> cases ha : body.isActive <;>
      simp only [h] <;> split_ifs <;> rfl
  · intro h
    cases hf : body.fields <;> cases ht : body.title <;> cases ha : body.isActive <;>
      simp only [h] <;> split_ifs <;> rfl
  · intro h
    cases hf : body.fields <;> cases ht : body.title <;> cases hd : body.description <;>
      simp only [h] <;> split_ifs <;> rfl
  · intro t h
    cases hf : body.fields <;> cases hd : body.description <;> cases ha : body.isActive <;>
      simp only [h] <;> split_ifs <;> rfl
  · intro d h
    cases hf : body.fields <;> cases ht : body.title <;> cases ha : body.isActive <;>
      simp only [h] <;> split_ifs <;> rfl
  · intro a h
    cases hf : body.fields <;> cases ht : body.title <;> cases hd : body.description <;>
      simp only [h] <;> split_ifs <;> rfl

/-- C11, on a stored form at version 1 with the text field `name`: an update
that supplies a new title and the active flag `false` keeps version 1. -/
theorem putForm_without_fields_witness :
    (putForm sampleStringify 7 (formOf [nameField])
      { title := some "Renamed", description := none, fields := none,
        isActive := some false }).version = 1 ∧
    (putForm sampleStringify 7 (formOf [nameField])
      { title := some "Renamed", description := none, fields := none,
        isActive := some false }).description = "" :=
  ⟨((putForm_without_fields sampleStringify 7 (formOf [nameField])
      { title := some "Renamed", description := none, fields := none,
        isActive := some false }).1 rfl).1,
   (putForm_without_fields sampleStringify 7 (formOf [nameField])
      { title := some "Renamed", description := none, fields := none,
        isActive := some false }).2.2.1 rfl⟩

/-! ## Optional fields without an answer -/

/-- C12. For a field with `required = false` whose answer is `undefined`,
`null` or the empty string: `validateField` returns the empty list; the cascade
evaluates no nested field of any of its options; the step of the loop for this
field leaves `errors` and `hasErrors` as they were; and, the evaluated keys
being pairwise distinct, the returned error object has no entry under the
field's name. -/
theorem optional_missing_passes (B : Builtins) (field : Field) (answers : Answers)
    (hreq : field.required = false)
    (hmiss : answers.get field.name = .undefined ∨ answers.get field.name = .null ∨
      answers.get field.name = .str "") :
    validateField B field (answers.get field.name) = .ok [] ∧
    cascadeFields field (answers.get field.name) = [] ∧
    (∀ st, validateOne B answers field st = .ok st) ∧
    (∀ form r, field ∈ form.fields → (evaluatedKeys form answers).Nodup →
      validateSubmission B form answers = .ok r → r.errors.get? field.name = none) := by
  have hm := (isMissing_iff _).2 hmiss
  have hv : validateField B field (answers.get field.name) = .ok [] := by
    rw [validateField_missing B field _ hm, hreq]
    rfl
  have hc := cascadeFields_of_missing field _ hm
  refine ⟨hv, hc, fun st => ?_, fun form r hf hnd hr => ?_⟩
  · simp [validateOne, hv, hc, validateNested, record]
  · obtain ⟨st, hst, rfl⟩ := validateSubmission_ok B form answers r hr
    have hmem : (field.name, field) ∈ evaluated answers (sortFields form.fields) :=
      (mem_evaluated _ _ _ _).2 (Or.inl ⟨(mem_sortFields _ _).2 hf, rfl⟩)
    have := (runChecks_get?_of_nodup B answers _ _ st hst hnd _ field hmem [] hv).1
    simpa [ErrorMap.get?] using this

/-- C12, on the optional select `country` whose option `other` carries the
required nested field `details`: with an empty answer object, and with the
answer `""`, the run reports nothing, under `country` or under
`country_details`. -/
theorem optional_missing_passes_witness :
    validateField sampleBuiltins countryField (Answers.get [] countryField.name) = .ok [] ∧
    validateSubmission sampleBuiltins (formOf [countryField]) []
      = .ok { isValid := true, errors := [] } ∧
    validateSubmission sampleBuiltins (formOf [countryField]) [("country", .str "")]
      = .ok { isValid := true, errors := [] } :=
  ⟨(optional_missing_passes sampleBuiltins countryField [] rfl (Or.inl rfl)).1,
   by decide, by decide⟩

/-! ## Checkbox fields with options -/

/-- C13. For a checkbox field with at least one option and a present value: an
array gives the empty list when each element is the string of some option's
value, and the one message `<label> contains invalid options` when some
element is not, however many such elements there are; a value that is not an
array gives the one message `<label> must be an array`. -/
theorem validateField_checkbox_options (B : Builtins) (field : Field) (v : JVal)
    (opts : List FieldOption)
    (htype : field.type = "checkbox") (ho : field.options = some opts) (hne : opts ≠ [])
    (hv : ¬ (v = .undefined ∨ v = .null ∨ v = .str "")) :
    (∀ xs, v = .arr xs →
      ((∀ x ∈ xs, ∃ opt ∈ opts, x = .str opt.value) → validateField B field v = .ok []) ∧
      ((∃ x ∈ xs, ¬ ∃ opt ∈ opts, x = .str opt.value) →
        validateField B field v = .ok [ field.label ++ " contains invalid options"])) ∧
    ((∀ xs, v ≠ .arr xs) → validateField B field v = .ok [ field.label ++ " must be an array"]) := by
  have hsw : validateField B field v = .ok (checkCheckbox field v) := by
    rw [validateField_present B field v ((isMissing_eq_false_iff v).2 hv)]
    unfold validateField.validateFieldType
    simp [htype]
  have hno : field.noOptions = false := by
    cases opts with
    | nil => exact absurd rfl hne
    | cons a t => simp [Field.noOptions, ho]
  have hinc : ∀ x, includesVal field.validValues x = true ↔ ∃ opt ∈ opts, x = .str opt.value := by
    intro x
    rw [includesVal_iff]
    simp [Field.validValues, ho]
  rw [hsw]
  constructor
  · rintro xs rfl
    constructor
    · intro hall
      have : xs.filter (fun x => !includesVal field.validValues x) = [] := by
        rw [List.filter_eq_nil_iff]
        intro x hx
        simp [(hinc x).2 (hall x hx)]
      simp [checkCheckbox, hno, this]
    · rintro ⟨x, hx, hnot⟩
      have hxf : x ∈ xs.filter (fun x => !includesVal field.validValues x) := by
        rw [List.mem_filter]
        refine ⟨hx, ?_⟩
        cases hi : includesVal field.validValues x
        · rfl
        · exact absurd ((hinc x).1 hi) hnot
      have hpos : 0 < (xs.filter (fun x => !includesVal field.validValues x)).length :=
        List.length_pos_of_mem hxf
      simp [checkCheckbox, hno, hpos]
  · intro hna
    cases v with
    | arr xs => exact absurd rfl (hna xs)
    | _ => simp [checkCheckbox]

/-- C13, on the checkbox `colors` with the options `red` and `blue`: `[red]`
and `[]` pass, `[red, green, pink]` gives one message, and the string `red`
is not an array. -/
theorem validateField_checkbox_options_witness :
    validateField sampleBuiltins colorsField (.arr [.str "red"]) = .ok [] ∧
    validateField sampleBuiltins colorsField (.arr []) = .ok [] ∧
    validateField sampleBuiltins colorsField (.arr [.str "red", .str "green", .str "pink"])
      = .ok ["Colors contains invalid options"] ∧
    validateField sampleBuiltins colorsField (.str "red") = .ok ["Colors must be an array"] :=
  ⟨((validateField_checkbox_options sampleBuiltins colorsField (.arr [.str "red"]) _ rfl rfl
      (by simp) (by simp)).1 _ rfl).1
      (by
        intro x hx
        refine ⟨{ label := "Red", value := "red", nestedFields := none },
          List.mem_cons_self _ _, ?_⟩
        simpa using hx),
   by decide,
   ((validateField_checkbox_options sampleBuiltins colorsField
      (.arr [.str "red", .str "green", .str "pink"]) _ rfl rfl (by simp) (by simp)).1 _ rfl).2
      ⟨.str "green", by simp, by simp⟩,
   (validateField_checkbox_options sampleBuiltins colorsField (.str "red") _ rfl rfl
      (by simp) (by simp)).2 (by simp)⟩

/-! ## Text fields -/

/-- Two messages that continue the same label with texts that differ within
their first `k` characters are different. -/
theorem msg_ne_of_take (l r1 t1 r2 t2 : String) (k : ℕ)
    (h : r1.data.take k ≠ r2.data.take k)
    (h1 : k ≤ r1.data.length) (h2 : k ≤ r2.data.length) :
    l ++ r1 ++ t1 ≠ l ++ r2 ++ t2 := by
  intro heq
  rw [String.append_assoc, String.append_assoc] at heq
  have h3 := congrArg (fun s => s.data.take k) (str_append_left_cancel heq)
  simp only [String.data_append] at h3
  rw [List.take_append_of_le_length h1, List.take_append_of_le_length h2] at h3
  exact h h3

theorem msg_ne_of_take0 (l r1 t1 r2 : String) (k : ℕ)
    (h : r1.data.take k ≠ r2.data.take k)
    (h1 : k ≤ r1.data.length) (h2 : k ≤ r2.data.length) :
    l ++ r1 ++ t1 ≠ l ++ r2 := by
  have := msg_ne_of_take l r1 t1 r2 "" k h h1 h2
  simpa using this

/-- On a present value whose `String(value)` is `s`, a text or textarea field
gets the three rules of `checkText` in order. -/
theorem validateField_text (B : Builtins) (field : Field) (v : JVal) (s : String)
    (htype : field.type = "text" ∨ field.type = "textarea")
    (hv : ¬ (v = .undefined ∨ v = .null ∨ v = .str ""))
    (hs : toStr B v = .ok s) :
    validateField B field v = .ok (
      (match field.vminLength with
        | some m =>
          if (JNum.fin (jsLength s)).lt m then
            [ field.label ++ " must be at least " ++ B.numberToString m ++ " characters"]
          else []
        | none => []) ++
      (match field.vmaxLength with
        | some m =>
          if (JNum.fin (jsLength s)).gt m then
            [ field.label ++ " must be at most " ++ B.numberToString m ++ " characters"]
          else []
        | none => []) ++
      checkRegex B field s) := by
  rw [validateField_present B field v ((isMissing_eq_false_iff v).2 hv)]
  unfold validateField.validateFieldType
  have h1 : field.type ≠ "email" := by rcases htype with h | h <;> rw [h] <;> decide
  have h2 : field.type ≠ "number" := by rcases htype with h | h <;> rw [h] <;> decide
  simp only [h1, h2, htype, if_false, if_true]
  unfold checkText
  simp only [hs]

/-- The length messages are not the message `<label> format is invalid`. -/
theorem format_not_mem_lengths (B : Builtins) (field : Field) (s : String) :
    field.label ++ " format is invalid" ∉
      (match field.vminLength with
        | some m =>
          if (JNum.fin (jsLength s)).lt m then
            [ field.label ++ " must be at least " ++ B.numberToString m ++ " characters"]
          else []
        | none => []) ++
      (match field.vmaxLength with
        | some m =>
          if (JNum.fin (jsLength s)).gt m then
            [ field.label ++ " must be at most " ++ B.numberToString m ++ " characters"]
          else []
        | none => []) := by
  have key : ∀ (r t : String), r.data.take 2 ≠ " format is invalid".data.take 2 →
      2 ≤ r.data.length → field.label ++ " format is invalid" ≠ field.label ++ r ++ t := by
    intro r t h h2 heq
    have := msg_ne_of_take0 field.label r t " format is invalid" 2 h h2 (by decide)
    exact this heq.symm
  simp only [List.mem_append, not_or]
  constructor
  · split
    · split_ifs
      · simp only [List.mem_singleton]
        intro heq
        rw [String.append_assoc (field.label ++ " must be at least ")] at heq
        exact key " must be at least " _ (by decide) (by decide) heq
      · simp
    · simp
  · split
    · split_ifs
      · simp only [List.mem_singleton]
        intro heq
        rw [String.append_assoc (field.label ++ " must be at most ")] at heq
        exact key " must be at most " _ (by decide) (by decide) heq
      · simp
    · simp

/-- C14, as stated, fails: under the pattern `a` the value `bab`, of which only
the middle letter matches, gets no message; `RegExp.prototype.test` searches
the string. The value `bcb`, in which the pattern occurs nowhere, is reported. -/
theorem regex_whole_match_counterexample :
    letterField.vregex = some "a" ∧
    validateField sampleBuiltins letterField (.str "bab") = .ok [] ∧
    validateField sampleBuiltins letterField (.str "bcb") = .ok ["Letter format is invalid"] := by
  decide

/-- C14, amended. For a text or textarea field whose non-empty
`validation.regex` compiles and a present value whose `String(value)` is `s`,
`validateField` returns a list that holds `<label> format is invalid` exactly
when `new RegExp(regex).test(s)` is false: the pattern is searched in `s`, and
nothing anchors it to the whole of `s`. -/
theorem validateField_regex_test (B : Builtins) (field : Field) (v : JVal) (s pat : String)
    (test : String → Bool)
    (htype : field.type = "text" ∨ field.type = "textarea")
    (hv : ¬ (v = .undefined ∨ v = .null ∨ v = .str ""))
    (hs : toStr B v = .ok s)
    (hpat : field.vregex = some pat) (hne : pat ≠ "") (hc : B.regExp pat = some test) :
    ∃ msgs, validateField B field v = .ok msgs ∧
      (field.label ++ " format is invalid" ∈ msgs ↔ test s = false) := by
  refine ⟨_, validateField_text B field v s htype hv hs, ?_⟩
  have hr : checkRegex B field s = if test s = false then [ field.label ++ " format is invalid"]
      else [] := by
    unfold checkRegex
    simp [hpat, hne, hc]
  rw [List.mem_append, hr]
  constructor
  · rintro (h | h)
    · exact absurd h (format_not_mem_lengths B field s)
    · by_contra hcon
      simp [hcon] at h
  · intro h
    exact Or.inr (by simp [h])

/-- C14, on the text field `letter` with the pattern `a`: the value `bab`
passes, since the pattern occurs in it, and `bcb` does not. -/
theorem validateField_regex_test_witness :
    (∃ msgs, validateField sampleBuiltins letterField (.str "bab") = .ok msgs ∧
      "Letter format is invalid" ∉ msgs) ∧
    (∃ msgs, validateField sampleBuiltins letterField (.str "bcb") = .ok msgs ∧
      "Letter format is invalid" ∈ msgs) := by
  obtain ⟨m1, h1, h1'⟩ := validateField_regex_test sampleBuiltins letterField (.str "bab") "bab"
    "a" (fun s => s.data.tails.any fun t => "a".data.isPrefixOf t) (Or.inl rfl) (by simp) rfl rfl
    (by decide) rfl
  obtain ⟨m2, h2, h2'⟩ := validateField_regex_test sampleBuiltins letterField (.str "bcb") "bcb"
    "a" (fun s => s.data.tails.any fun t => "a".data.isPrefixOf t) (Or.inl rfl) (by simp) rfl rfl
    (by decide) rfl
  exact ⟨⟨m1, h1, fun h => absurd (h1'.1 h) (by decide)⟩, ⟨m2, h2, h2'.2 (by decide)⟩⟩

/-! ## Patterns that do not compile -/

/-- Two fields that agree on everything `validateField` reads get the same
outcome on every value. -/
theorem validateField_congr (B : Builtins) (f g : Field) (v : JVal)
    (hl : f.label = g.label) (ht : f.type = g.type) (hr : f.required = g.required)
    (h1 : f.vmin = g.vmin) (h2 : f.vmax = g.vmax)
    (h3 : f.vminLength = g.vminLength) (h4 : f.vmaxLength = g.vmaxLength)
    (h5 : f.noOptions = g.noOptions) (h6 : f.validValues = g.validValues)
    (h7 : ∀ s, checkRegex B f s = checkRegex B g s) :
    validateField B f v = validateField B g v := by
  unfold validateField validateField.validateFieldType checkEmail checkNumber checkText checkDate
    checkChoice checkCheckbox
  simp only [hl, ht, hr, h1, h2, h3, h4, h5, h6, h7]

theorem checkRegex_withoutRegex (B : Builtins) (f : Field) (s : String) :
    checkRegex B f.withoutRegex s = [] := by
  unfold checkRegex Field.vregex Field.withoutRegex
  cases f.validation <;> rfl

theorem checkRegex_of_badRegex (B : Builtins) (f : Field) (s : String)
    (h : f.badRegex B = true) : checkRegex B f s = [] := by
  unfold Field.badRegex at h
  unfold checkRegex
  cases hp : f.vregex with
  | none => rfl
  | some pat =>
    simp only [hp, Option.isNone_iff_eq_none] at h
    simp [h]

/-- Removing a regex rule that contributes nothing leaves every outcome of
`validateField` as it was. -/
theorem validateField_withoutRegex (B : Builtins) (f : Field) (v : JVal)
    (h : ∀ s, checkRegex B f s = []) :
    validateField B f.withoutRegex v = validateField B f v := by
  apply validateField_congr
  · rfl
  · rfl
  · rfl
  · unfold Field.vmin Field.withoutRegex
    cases f.validation <;> rfl
  · unfold Field.vmax Field.withoutRegex
    cases f.validation <;> rfl
  · unfold Field.vminLength Field.withoutRegex
    cases f.validation <;> rfl
  · unfold Field.vmaxLength Field.withoutRegex
    cases f.validation <;> rfl
  · rfl
  · rfl
  · intro s
    rw [checkRegex_withoutRegex, h]

theorem validateField_dropBadRegex (B : Builtins) (f : Field) (v : JVal) :
    validateField B (f.dropBadRegex B) v = validateField B f v := by
  unfold Field.dropBadRegex
  split_ifs with h
  · exact validateField_withoutRegex B f v (fun s => checkRegex_of_badRegex B f s h)
  · rfl

theorem dropBadRegex_name (B : Builtins) (f : Field) : (f.dropBadRegex B).name = f.name := by
  unfold Field.dropBadRegex
  split_ifs <;> rfl

theorem dropBadRegex_type (B : Builtins) (f : Field) : (f.dropBadRegex B).type = f.type := by
  unfold Field.dropBadRegex
  split_ifs <;> rfl

theorem dropBadRegex_order (B : Builtins) (f : Field) : (f.dropBadRegex B).order = f.order := by
  unfold Field.dropBadRegex
  split_ifs <;> rfl

theorem validateField_dropBadRegexAll (B : Builtins) (f : Field) (v : JVal) :
    validateField B (f.dropBadRegexAll B) v = validateField B f v := by
  rw [← validateField_dropBadRegex B f v]
  apply validateField_congr
  · rfl
  · rfl
  · rfl
  · rfl
  · rfl
  · rfl
  · rfl
  · have : (f.dropBadRegex B).options = f.options := by
      unfold Field.dropBadRegex
      split_ifs <;> rfl
    unfold Field.noOptions Field.dropBadRegexAll
    rw [this]
    cases f.options <;> simp
  · have : (f.dropBadRegex B).options = f.options := by
      unfold Field.dropBadRegex
      split_ifs <;> rfl
    unfold Field.validValues Field.dropBadRegexAll
    rw [this]
    cases f.options <;> simp [dropBadRegexNested, Function.comp_def]
  · intro s
    rfl

theorem cascadeFields_dropBadRegexAll (B : Builtins) (f : Field) (v : JVal) :
    cascadeFields (f.dropBadRegexAll B) v = (cascadeFields f v).map (Field.dropBadRegex B) := by
  have ht : (f.dropBadRegexAll B).type = f.type := dropBadRegex_type B f
  have ho : (f.dropBadRegexAll B).options = f.options.map (List.map (dropBadRegexNested B)) := rfl
  unfold cascadeFields
  rw [ht, ho]
  split_ifs with hc
  · cases hopt : f.options with
    | none => rfl
    | some opts =>
      have hfind : findSelected (opts.map (dropBadRegexNested B)) v =
          (findSelected opts v).map (dropBadRegexNested B) := by
        unfold findSelected
        rw [List.find?_map]
        rfl
      simp only [Option.map_some', hfind]
      cases hs : findSelected opts v with
      | none => rfl
      | some opt =>
        simp only [Option.map_some', dropBadRegexNested]
        cases opt.nestedFields <;> rfl
  · rfl

/-- A sequence of checks depends on its fields only through their keys and
their outcomes under `validateField`. -/
theorem runChecks_congr (B : Builtins) (answers : Answers) (l1 l2 : List (String × Field))
    (h : List.Forall₂ (fun p q => p.1 = q.1 ∧ ∀ v, validateField B p.2 v = validateField B q.2 v)
      l1 l2) (st : VState) :
    runChecks B answers l1 st = runChecks B answers l2 st := by
  induction l1 generalizing l2 st with
  | nil =>
    cases h
    rfl
  | cons p t1 ih =>
    cases h with
    | cons hpq ht =>
      rename_i q t2
      obtain ⟨k1, f1⟩ := p
      obtain ⟨k2, f2⟩ := q
      obtain ⟨hk, hv⟩ := hpq
      simp only at hk hv
      subst hk
      simp only [runChecks, hv]
      cases validateField B f2 (answers.get k1) with
      | error e => rfl
      | ok errs => exact ih _ ht _

theorem forall₂_append_of {α β : Type} {R : α → β → Prop} {a1 a2 : List α} {b1 b2 : List β}
    (h1 : List.Forall₂ R a1 b1) (h2 : List.Forall₂ R a2 b2) :
    List.Forall₂ R (a1 ++ a2) (b1 ++ b2) := by
  induction h1 with
  | nil => exact h2
  | cons h _ ih => exact List.Forall₂.cons h ih

theorem evaluated_dropBadRegex (B : Builtins) (answers : Answers) (fields : List Field) :
    List.Forall₂ (fun p q => p.1 = q.1 ∧ ∀ v, validateField B p.2 v = validateField B q.2 v)
      (evaluated answers (fields.map (Field.dropBadRegexAll B))) (evaluated answers fields) := by
  induction fields with
  | nil => exact List.Forall₂.nil
  | cons f rest ih =>
    have hn : (f.dropBadRegexAll B).name = f.name := dropBadRegex_name B f
    have e1 : evaluated answers ((f :: rest).map (Field.dropBadRegexAll B)) =
        ((f.name, f.dropBadRegexAll B) ::
          (cascadeFields f (answers.get f.name)).map
            fun nf => (nestedKey f nf, nf.dropBadRegex B)) ++
        evaluated answers (rest.map (Field.dropBadRegexAll B)) := by
      simp only [evaluated, List.map_cons, List.flatMap_cons, hn,
        cascadeFields_dropBadRegexAll, List.map_map, List.cons_append, List.cons.injEq, true_and]
      congr 1
      apply List.map_congr_left
      intro nf _
      simp [nestedKey, hn, dropBadRegex_name]
    have e2 : evaluated answers (f :: rest) =
        ((f.name, f) :: (cascadeFields f (answers.get f.name)).map
            fun nf => (nestedKey f nf, nf)) ++ evaluated answers rest := by
      simp [evaluated]
    rw [e1, e2]
    refine forall₂_append_of (List.Forall₂.cons ⟨rfl, validateField_dropBadRegexAll B f⟩ ?_) ih
    generalize cascadeFields f (answers.get f.name) = nfs
    induction nfs with
    | nil => exact List.Forall₂.nil
    | cons nf t iht =>
      exact List.Forall₂.cons ⟨rfl, validateField_dropBadRegex B nf⟩ iht

theorem sortFields_map_dropBadRegexAll (B : Builtins) (fields : List Field) :
    sortFields (fields.map (Field.dropBadRegexAll B)) =
      (sortFields fields).map (Field.dropBadRegexAll B) := by
  unfold sortFields
  symm
  apply List.map_insertionSort
  intro a _ b _
  have ha : (a.dropBadRegexAll B).order = a.order := dropBadRegex_order B a
  have hb : (b.dropBadRegexAll B).order = b.order := dropBadRegex_order B b
  rw [ha, hb]

/-- Removing every regex rule whose pattern does not compile leaves the
outcome of `validateSubmission` as it was. -/
theorem validateSubmission_dropBadRegex (B : Builtins) (form : Form) (answers : Answers) :
    validateSubmission B (form.dropBadRegex B) answers = validateSubmission B form answers := by
  rw [validateSubmission_eq, validateSubmission_eq]
  have : (form.dropBadRegex B).fields = form.fields.map (Field.dropBadRegexAll B) := rfl
  rw [this, sortFields_map_dropBadRegexAll,
    runChecks_congr B answers _ _ (evaluated_dropBadRegex B answers (sortFields form.fields))]

/-- C15, as stated, fails: on the text field `code`, whose pattern `(` does not
compile, the present value `{"toString": null}` makes `String(value)` raise a
TypeError before the regex rule is reached. -/
theorem bad_regex_throws_counterexample :
    badRegexField.vregex = some "(" ∧ (sampleBuiltins.regExp "(").isNone = true ∧
    validateField sampleBuiltins badRegexField (.obj [("toString", .null)])
      = .error .typeError := by
  decide

/-- C15, amended. For a text or textarea field whose `validation.regex` does
not compile, the outcome of `validateField` on every value is the outcome for
the same field with the regex rule removed, so that only the length rules
apply; it is a list of messages, without `<label> format is invalid`, whenever
the value converts to a primitive; and removing the non-compiling regex rules
of a form changes the result of `validateSubmission` on no answer object. -/
theorem validateField_bad_regex (B : Builtins) (field : Field) (v : JVal) (pat : String)
    (htype : field.type = "text" ∨ field.type = "textarea")
    (hpat : field.vregex = some pat) (hc : B.regExp pat = none) :
    validateField B field v = validateField B field.withoutRegex v ∧
    (coercible v = true → ∃ msgs, validateField B field v = .ok msgs) ∧
    (∀ msgs, validateField B field v = .ok msgs → field.label ++ " format is invalid" ∉ msgs) ∧
    (∀ form answers,
      validateSubmission B (Form.dropBadRegex B form) answers
        = validateSubmission B form answers) := by
  have hbad : field.badRegex B = true := by
    unfold Field.badRegex
    simp [hpat, hc]
  have hre : ∀ s, checkRegex B field s = [] := fun s => checkRegex_of_badRegex B field s hbad
  refine ⟨(validateField_withoutRegex B field v hre).symm, ?_, ?_,
    fun form answers => validateSubmission_dropBadRegex B form answers⟩
  · intro hco
    exact (validateField_ok_iff B field v).2 (fun _ _ => hco)
  · intro msgs hm
    cases hmv : isMissing v
    · have hv := (isMissing_eq_false_iff v).1 hmv
      rcases (toStr_ok_iff B v).2 ((validateField_ok_iff B field v).1 ⟨msgs, hm⟩
        (by unfold coercesValue; rcases htype with h | h <;> simp [h]) hmv) with ⟨s, hs⟩
      rw [validateField_text B field v s htype hv hs, hre s, List.append_nil] at hm
      cases hm
      exact format_not_mem_lengths B field s
    · rw [validateField_missing B field v hmv] at hm
      cases hm
      split_ifs
      · simp only [List.mem_singleton]
        have := msg_ne_of_take0 field.label " format is invalid" "" " is required" 2
          (by decide) (by decide) (by decide)
        simpa using this
      · simp

/-- C15, on the text field `code` whose pattern `(` does not compile: a string
answer gets the empty list, as for the field without the regex rule, and the
submission is valid. -/
theorem validateField_bad_regex_witness :
    validateField sampleBuiltins badRegexField (.str "x")
      = validateField sampleBuiltins badRegexField.withoutRegex (.str "x") ∧
    validateField sampleBuiltins badRegexField.withoutRegex (.str "x") = .ok [] ∧
    validateSubmission sampleBuiltins (formOf [badRegexField]) [("code", .str "x")]
      = .ok { isValid := true, errors := [] } :=
  ⟨(validateField_bad_regex sampleBuiltins badRegexField (.str "x") "(" (Or.inl rfl) rfl rfl).1,
   by decide, by decide⟩

/-! ## Length rules -/

theorem JNum.lt_fin_natCast (a b : ℕ) :
    JNum.lt (.fin (a : ℚ)) (.fin (b : ℚ)) = true ↔ a < b := by
  simp [JNum.lt]

/-- C16. For a text or textarea field without a regex rule and a present value
whose `String(value)` is `s`, the result is the message `<label> must be at
least <minLength> characters`, present exactly when `validation.minLength` is
defined and the length of `s` is below it, followed by the message `<label>
must be at most <maxLength> characters`, present exactly when
`validation.maxLength` is defined and the length of `s` is above it, and
nothing else. A length equal to a bound passes that bound. -/
theorem validateField_lengths (B : Builtins) (field : Field) (v : JVal) (s : String)
    (htype : field.type = "text" ∨ field.type = "textarea")
    (hv : ¬ (v = .undefined ∨ v = .null ∨ v = .str ""))
    (hs : toStr B v = .ok s)
    (hre : field.vregex = none ∨ field.vregex = some "") :
    (∃ lo hi, validateField B field v = .ok (lo ++ hi) ∧
      (field.vminLength = none → lo = []) ∧
      (∀ m, field.vminLength = some m →
        lo = if (JNum.fin (jsLength s)).lt m = true then
               [ field.label ++ " must be at least " ++ B.numberToString m ++ " characters"]
             else []) ∧
      (field.vmaxLength = none → hi = []) ∧
      (∀ m, field.vmaxLength = some m →
        hi = if (JNum.fin (jsLength s)).gt m = true then
               [ field.label ++ " must be at most " ++ B.numberToString m ++ " characters"]
             else []) ∧
      (field.vminLength = some (.fin (jsLength s)) → lo = []) ∧
      (field.vmaxLength = some (.fin (jsLength s)) → hi = [])) ∧
    (∀ n : ℕ, (JNum.lt (.fin (jsLength s)) (.fin n) = true ↔ jsLength s < n) ∧
      (JNum.gt (.fin (jsLength s)) (.fin n) = true ↔ jsLength s > n)) := by
  have hr : checkRegex B field s = [] := by
    unfold checkRegex
    rcases hre with h | h <;> simp [h]
  refine ⟨⟨(match field.vminLength with
        | some m =>
          if (JNum.fin (jsLength s)).lt m then
            [ field.label ++ " must be at least " ++ B.numberToString m ++ " characters"]
          else []
        | none => []),
      (match field.vmaxLength with
        | some m =>
          if (JNum.fin (jsLength s)).gt m then
            [ field.label ++ " must be at most " ++ B.numberToString m ++ " characters"]
          else []
        | none => []), ?_, ?_, ?_, ?_, ?_, ?_, ?_⟩,
    fun n => ⟨JNum.lt_fin_natCast _ _, ?_⟩⟩
  · rw [validateField_text B field v s htype hv hs, hr, List.append_nil]
  · intro h
    simp [h]
  · intro m h
    simp [h]
  · intro h
    simp [h]
  · intro m h
    simp [h]
  · intro h
    simp [h, JNum.lt_irrefl]
  · intro h
    simp [h, JNum.gt, JNum.lt_irrefl]
  · unfold JNum.gt
    exact JNum.lt_fin_natCast _ _

/-- C16, on the text field `nick` with `minLength` 3 and `maxLength` 5: `ab` is
too short, `abcdef` too long, and `abc` and `abcde` pass. -/
theorem validateField_lengths_witness :
    (∃ lo hi, validateField sampleBuiltins nickField (.str "ab") = .ok (lo ++ hi) ∧
      lo = ["Nick must be at least 3 characters"] ∧ hi = []) ∧
    validateField sampleBuiltins nickField (.str "abcdef")
      = .ok ["Nick must be at most 5 characters"] ∧
    validateField sampleBuiltins nickField (.str "abc") = .ok [] ∧
    validateField sampleBuiltins nickField (.str "abcde") = .ok [] := by
  refine ⟨?_, by decide, by decide, by decide⟩
  obtain ⟨lo, hi, h, -, h2, -, h4, -, -⟩ :=
    (validateField_lengths sampleBuiltins nickField (.str "ab") "ab" (Or.inl rfl) (by simp) rfl
      (Or.inl rfl)).1
  exact ⟨lo, hi, h, by rw [h2 (.fin 3) rfl]; decide, by rw [h4 (.fin 5) rfl]; decide⟩

/-! ## Number fields: infinities and the lower bound -/

/-- On a present value whose `Number(value)` is `n`, a number field gets the
NaN test and then the two bound rules. -/
theorem validateField_number_eq (B : Builtins) (field : Field) (v : JVal) (n : JNum)
    (htype : field.type = "number")
    (hv : ¬ (v = .undefined ∨ v = .null ∨ v = .str ""))
    (hn : toNumber B v = .ok n) :
    validateField B field v = .ok (
      if n.isNaN = true then [ field.label ++ " must be a number"]
      else
        (match field.vmin with
          | some m =>
            if n.lt m then [ field.label ++ " must be at least " ++ B.numberToString m] else []
          | none => []) ++
        (match field.vmax with
          | some m =>
            if n.gt m then [ field.label ++ " must be at most " ++ B.numberToString m] else []
          | none => [])) := by
  rw [validateField_present B field v ((isMissing_eq_false_iff v).2 hv)]
  unfold validateField.validateFieldType
  simp only [htype, String.reduceEq, if_false, if_true]
  unfold checkNumber
  simp only [hn]
  split_ifs <;> rfl

/-- The bound messages are not the message `<label> must be a number`. -/
theorem number_not_mem_bounds (B : Builtins) (field : Field) (n : JNum) :
    field.label ++ " must be a number" ∉
      (match field.vmin with
        | some m =>
          if n.lt m then [ field.label ++ " must be at least " ++ B.numberToString m] else []
        | none => []) ++
      (match field.vmax with
        | some m =>
          if n.gt m then [ field.label ++ " must be at most " ++ B.numberToString m] else []
        | none => []) := by
  simp only [List.mem_append, not_or]
  constructor
  · split
    · split_ifs
      · simp only [List.mem_singleton]
        exact (msg_ne_of_take0 field.label " must be at least " _ " must be a number" 11
          (by decide) (by decide) (by decide)).symm
      · simp
    · simp
  · split
    · split_ifs
      · simp only [List.mem_singleton]
        exact (msg_ne_of_take0 field.label " must be at most " _ " must be a number" 11
          (by decide) (by decide) (by decide)).symm
      · simp
    · simp

/-- C17, as stated, fails: the string `Infinity` and the numbers `Infinity` and
`-Infinity` (the JSON literals `1e999` and `-1e999`) coerce to no finite
number, `isNaN` is false on them, and the number field `score` reports
nothing. -/
theorem infinite_number_counterexample :
    toNumber sampleBuiltins (.str "Infinity") = .ok .posInf ∧
    validateField sampleBuiltins scoreField (.str "Infinity") = .ok [] ∧
    validateField sampleBuiltins scoreField (.num .posInf) = .ok [] ∧
    validateField sampleBuiltins scoreField (.num .negInf) = .ok [] := by
  decide

/-- C17, amended. For a number field and a present value whose `Number(value)`
is `n`, the result holds `<label> must be a number` exactly when `n` is NaN; a
value that coerces to an infinity passes this test and goes on to the bound
rules. -/
theorem validateField_number_nan (B : Builtins) (field : Field) (v : JVal) (n : JNum)
    (htype : field.type = "number")
    (hv : ¬ (v = .undefined ∨ v = .null ∨ v = .str ""))
    (hn : toNumber B v = .ok n) :
    ∃ msgs, validateField B field v = .ok msgs ∧
      (field.label ++ " must be a number" ∈ msgs ↔ n = .nan) ∧
      (n = .nan → msgs = [ field.label ++ " must be a number"]) := by
  refine ⟨_, validateField_number_eq B field v n htype hv hn, ?_, ?_⟩
  · constructor
    · intro h
      by_contra hne
      have hnan : n.isNaN = false := by
        cases hh : n.isNaN
        · rfl
        · exact absurd ((JNum.isNaN_iff n).1 hh) hne
      simp only [hnan, Bool.false_eq_true, if_false] at h
      exact number_not_mem_bounds B field n h
    · intro h
      simp [h, JNum.isNaN]
  · intro h
    simp [h, JNum.isNaN]

/-- C17, on the number field `score`: the answer `abc` is reported as not a
number, the answer `Infinity` is not. -/
theorem validateField_number_nan_witness :
    (∃ msgs, validateField sampleBuiltins scoreField (.str "abc") = .ok msgs ∧
      "Score must be a number" ∈ msgs) ∧
    (∃ msgs, validateField sampleBuiltins scoreField (.num .posInf) = .ok msgs ∧
      "Score must be a number" ∉ msgs) := by
  obtain ⟨m1, h1, h1', -⟩ := validateField_number_nan sampleBuiltins scoreField (.str "abc") .nan
    rfl (by simp) (by decide)
  obtain ⟨m2, h2, h2', -⟩ := validateField_number_nan sampleBuiltins scoreField (.num .posInf)
    .posInf rfl (by simp) rfl
  exact ⟨⟨m1, h1, h1'.2 rfl⟩, ⟨m2, h2, fun h => absurd (h2'.1 h) (by decide)⟩⟩

/-- C18, as stated, fails: with `min` 5 and `max` 2 the value 3 gets the
message about the lower bound and, alongside it, the message about the upper
bound. -/
theorem min_bound_counterexample :
    crossedLevelField.vmin = some (.fin 5) ∧
    validateField sampleBuiltins crossedLevelField (.num (.fin 3))
      = .ok ["Level must be at least 5", "Level must be at most 2"] := by
  decide

/-- C18, amended. For a number field whose `validation.min` is 5: a present
value whose `Number(value)` is not less than 5 gets no message `<label> must be
at least ...`; a present value whose `Number(value)` is 3 gets the message
`<label> must be at least 5` first, followed by the message about the upper
bound exactly when `validation.max` is defined and below 3; so it gets that one
message alone when `validation.max` is undefined or not below 3. -/
theorem validateField_min_five (B : Builtins) (field : Field) (v : JVal) (n : JNum)
    (htype : field.type = "number") (hmin : field.vmin = some (.fin 5))
    (hv : ¬ (v = .undefined ∨ v = .null ∨ v = .str ""))
    (hn : toNumber B v = .ok n) :
    (n.lt (.fin 5) = false →
      ∃ msgs, validateField B field v = .ok msgs ∧
        ∀ t, field.label ++ " must be at least " ++ t ∉ msgs) ∧
    (n = .fin 3 →
      (field.vmax = none →
        validateField B field v
          = .ok [ field.label ++ " must be at least " ++ B.numberToString (.fin 5)]) ∧
      (∀ m, field.vmax = some m → (JNum.fin 3).gt m = false →
        validateField B field v
          = .ok [ field.label ++ " must be at least " ++ B.numberToString (.fin 5)]) ∧
      (∀ m, field.vmax = some m → (JNum.fin 3).gt m = true →
        validateField B field v
          = .ok [ field.label ++ " must be at least " ++ B.numberToString (.fin 5),
                  field.label ++ " must be at most " ++ B.numberToString m])) := by
  have heq := validateField_number_eq B field v n htype hv hn
  constructor
  · intro hlt
    refine ⟨_, heq, fun t => ?_⟩
    split_ifs
    · simp only [List.mem_singleton]
      exact msg_ne_of_take0 field.label " must be at least " t " must be a number" 11
        (by decide) (by decide) (by decide)
    · simp only [hmin, hlt, Bool.false_eq_true, if_false, List.nil_append]
      split
      · split_ifs
        · simp only [List.mem_singleton]
          exact msg_ne_of_take field.label " must be at least " t " must be at most " _ 13
            (by decide) (by decide) (by decide)
        · simp
      · simp
  · intro h3
    subst h3
    have hl : (JNum.fin 3).lt (.fin 5) = true := by
      simp only [JNum.lt, decide_eq_true_eq]
      norm_num
    have hnan : (JNum.fin 3).isNaN = false := rfl
    refine ⟨fun hmax => ?_, fun m hmax hgt => ?_, fun m hmax hgt => ?_⟩
    · rw [heq]
      simp [hnan, hmin, hl, hmax]
    · rw [heq]
      simp [hnan, hmin, hl, hmax, hgt]
    · rw [heq]
      simp [hnan, hmin, hl, hmax, hgt]

/-- C18, on the number field `level` with `min` 5: the answers 5 and 7 get no
message and the answer 3 gets the one message about the lower bound. -/
theorem validateField_min_five_witness :
    validateField sampleBuiltins levelField (.num (.fin 5)) = .ok [] ∧
    validateField sampleBuiltins levelField (.num (.fin 7)) = .ok [] ∧
    validateField sampleBuiltins levelField (.num (.fin 3)) = .ok ["Level must be at least 5"] :=
  ⟨by decide, by decide,
   ((validateField_min_five sampleBuiltins levelField (.num (.fin 3)) (.fin 3) rfl rfl (by simp)
      rfl).2 rfl).1 rfl⟩

/-! ## The order of evaluation -/

theorem filter_orderedInsert_order (q : ℚ) (a : Field) (l : List Field) :
    (List.orderedInsert (fun a b : Field => a.order ≤ b.order) a l).filter
        (fun f => decide (f.order = q)) =
      (a :: l).filter (fun f => decide (f.order = q)) := by
  induction l with
  | nil => rfl
  | cons b t ih =>
    simp only [List.orderedInsert]
    split_ifs with hab
    · rfl
    · have hlt : b.order < a.order := lt_of_not_le hab
      rw [List.filter_cons, ih]
      by_cases hb : b.order = q
      · have ha : a.order ≠ q := fun h => absurd (h ▸ hb ▸ hlt) (lt_irrefl _)
        simp [List.filter_cons, hb, ha]
      · simp [List.filter_cons, hb]

theorem filter_sortFields_order (q : ℚ) (fields : List Field) :
    (sortFields fields).filter (fun f => decide (f.order = q)) =
      fields.filter (fun f => decide (f.order = q)) := by
  induction fields with
  | nil => rfl
  | cons a t ih =>
    have : sortFields (a :: t) =
        List.orderedInsert (fun a b : Field => a.order ≤ b.order) a (sortFields t) := rfl
    rw [this, filter_orderedInsert_order, List.filter_cons, List.filter_cons, ih]

theorem sortFields_sorted (fields : List Field) :
    (sortFields fields).Pairwise (fun a b => a.order ≤ b.order) := by
  haveI : IsTotal Field (fun a b => a.order ≤ b.order) := ⟨fun a b => le_total a.order b.order⟩
  haveI : IsTrans Field (fun a b => a.order ≤ b.order) := ⟨fun _ _ _ h1 h2 => le_trans h1 h2⟩
  exact List.sorted_insertionSort (fun a b : Field => a.order ≤ b.order) fields

theorem sortFields_of_sorted (fields : List Field)
    (h : fields.Pairwise (fun a b => a.order ≤ b.order)) : sortFields fields = fields :=
  List.Sorted.insertionSort_eq h

/-- C19. The sorted copy of a field list is a permutation of the list,
ascending by `order`; for each value of `order` the fields that carry it come
in the sorted copy in the same sequence as in the list (stability); sorting a
list that is already ascending returns it, and sorting twice is sorting once.
`validateSubmission` runs its loop over this copy and the public read returns
it as `fields`; both read the stored list and leave it as it is. -/
theorem sortFields_stable (fields : List Field) :
    (sortFields fields).Perm fields ∧
    (sortFields fields).Pairwise (fun a b => a.order ≤ b.order) ∧
    (∀ q : ℚ, (sortFields fields).filter (fun f => decide (f.order = q)) =
      fields.filter (fun f => decide (f.order = q))) ∧
    (fields.Pairwise (fun a b => a.order ≤ b.order) → sortFields fields = fields) ∧
    sortFields (sortFields fields) = sortFields fields ∧
    (∀ (B : Builtins) (form : Form) (answers : Answers), form.fields = fields →
      validateSubmission B form answers =
        match validateFields B answers (sortFields fields) { errors := [], hasErrors := false } with
        | .error e => .error e
        | .ok st => .ok { isValid := !st.hasErrors, errors := st.errors }) ∧
    (∀ (M : Mongoose) (db : Store) (id : String) (form : Form),
      db.findById M id = .ok (some form) → form.isActive = true → form.fields = fields →
      (getPublicForm M db id).form = some { form with fields := sortFields fields }) := by
  refine ⟨List.perm_insertionSort _ fields, sortFields_sorted fields,
    fun q => filter_sortFields_order q fields, sortFields_of_sorted fields,
    sortFields_of_sorted _ (sortFields_sorted fields), ?_, ?_⟩
  · intro B form answers hf
    rw [← hf]
    rfl
  · intro M db id form hfind hact hf
    unfold getPublicForm
    simp [hfind, hact, hf]

/-- C19, on three fields with the orders 2, 1 and 1: the sorted copy puts the
two fields of order 1 first, in their stored sequence, and sorting it again
changes nothing. -/
theorem sortFields_stable_witness :
    (sortFields [thirdField, firstField, secondField]).map Field.name = ["b", "c", "a"] ∧
    sortFields (sortFields [thirdField, firstField, secondField])
      = sortFields [thirdField, firstField, secondField] ∧
    (sortFields [thirdField, firstField, secondField]).filter (fun f => decide (f.order = 1))
      = [firstField, secondField] :=
  ⟨by decide, (sortFields_stable [thirdField, firstField, secondField]).2.2.2.2.1,
   ((sortFields_stable [thirdField, firstField, secondField]).2.2.1 1).trans (by
      simp [thirdField, firstField, secondField, plainField])⟩

/-! ## What the validator reads and what is stored -/

theorem mem_formKeys_name (form : Form) (f : Field) (hf : f ∈ form.fields) :
    f.name ∈ formKeys form := by
  unfold formKeys
  rw [List.mem_flatMap]
  exact ⟨f, hf, List.mem_cons_self _ _⟩

theorem mem_formKeys_nested (form : Form) (f : Field) (opts : List FieldOption)
    (opt : FieldOption) (nfs : List Field) (nf : Field) (hf : f ∈ form.fields)
    (ho : f.options = some opts) (hopt : opt ∈ opts) (hn : opt.nestedFields = some nfs)
    (hnf : nf ∈ nfs) : nestedKey f nf ∈ formKeys form := by
  unfold formKeys
  rw [List.mem_flatMap]
  refine ⟨f, hf, List.mem_cons_of_mem _ ?_⟩
  rw [ho]
  simp only [List.mem_flatMap]
  refine ⟨opt, hopt, ?_⟩
  rw [hn]
  exact List.mem_map_of_mem _ hnf

theorem evaluated_congr (a1 a2 : Answers) (fields : List Field)
    (h : ∀ f ∈ fields, a1.get f.name = a2.get f.name) :
    evaluated a1 fields = evaluated a2 fields := by
  induction fields with
  | nil => rfl
  | cons f t ih =>
    have h1 := h f (List.mem_cons_self _ _)
    have h2 := ih (fun g hg => h g (List.mem_cons_of_mem _ hg))
    simp only [evaluated, List.flatMap_cons] at h2 ⊢
    rw [h1, h2]

theorem runChecks_congr_answers (B : Builtins) (a1 a2 : Answers) (l : List (String × Field))
    (st : VState) (h : ∀ kf ∈ l, a1.get kf.1 = a2.get kf.1) :
    runChecks B a1 l st = runChecks B a2 l st := by
  induction l generalizing st with
  | nil => rfl
  | cons hd t ih =>
    obtain ⟨k, f⟩ := hd
    have h1 : a1.get k = a2.get k := h (k, f) (List.mem_cons_self _ _)
    simp only [runChecks, h1]
    cases validateField B f (a2.get k) with
    | error e => rfl
    | ok errs => exact ih _ (fun kf hkf => h kf (List.mem_cons_of_mem _ hkf))

/-- The validator reads the answer object at the keys of the form only: two
answer objects that agree on them get the same outcome. -/
theorem validateSubmission_congr_answers (B : Builtins) (form : Form) (a1 a2 : Answers)
    (h : ∀ k ∈ formKeys form, a1.get k = a2.get k) :
    validateSubmission B form a1 = validateSubmission B form a2 := by
  rw [validateSubmission_eq, validateSubmission_eq]
  have he : evaluated a1 (sortFields form.fields) = evaluated a2 (sortFields form.fields) :=
    evaluated_congr a1 a2 _
      (fun f hf => h _ (mem_formKeys_name form f ((mem_sortFields _ _).1 hf)))
  rw [he, runChecks_congr_answers B a1 a2]
  intro kf hkf
  obtain ⟨k, g⟩ := kf
  rcases (mem_evaluated _ _ _ _).1 hkf with ⟨hg, hk⟩ | ⟨f, hf, hg, hk⟩
  · subst hk
    exact h _ (mem_formKeys_name form g ((mem_sortFields _ _).1 hg))
  · obtain ⟨-, -, opts, opt, nfs, ho, hs, hn, hmem⟩ := (mem_cascadeFields _ _ _).1 hg
    subst hk
    exact h _ (mem_formKeys_nested form f opts opt nfs g ((mem_sortFields _ _).1 hf) ho
      (findSelected_some _ _ _ hs).1 hn hmem)

/-- The handler stores a submission exactly when it answers 201, and then the
stored document carries the submitted answer object. -/
theorem postSubmission_created (B : Builtins) (M : Mongoose) (env : SubmitEnv) (db : Store)
    (body : SubmitBody) (h : (postSubmission B M env db body).1.status = 201) :
    ∃ formId answers form, body.formId = some formId ∧ body.answers = some answers ∧
      db.findById M formId = .ok (some form) ∧ form.isActive = true ∧
      (∃ r, validateSubmission B form answers = .ok r ∧ r.isValid = true) ∧
      (postSubmission B M env db body).2 =
        { db with submissions := db.submissions ++
            [{ _id := env.newId, formId := form._id, formVersion := form.version,
               answers := answers, ip := env.ip, submittedAt := env.now }] } := by
  unfold postSubmission at h ⊢
  cases hf : body.formId with
  | none => simp [hf] at h
  | some formId =>
    cases ha : body.answers with
    | none => simp [hf, ha] at h
    | some answers =>
      simp only [hf, ha] at h ⊢
      by_cases he : formId = ""
      · simp [he] at h
      · simp only [he, if_false] at h ⊢
        cases hfind : db.findById M formId with
        | error msg => simp [hfind] at h
        | ok found =>
          cases found with
          | none => simp [hfind] at h
          | some form =>
            simp only [hfind] at h ⊢
            cases hact : form.isActive
            · simp [hact] at h
            · simp only [hact, Bool.not_true, Bool.false_eq_true, if_false] at h ⊢
              cases hval : validateSubmission B form answers with
              | error e => simp [hval] at h
              | ok r =>
                simp only [hval] at h ⊢
                cases hvalid : r.isValid
                · simp [hvalid] at h
                · simp only [hvalid, Bool.not_true, Bool.false_eq_true, if_false] at h ⊢
                  cases hsave : M.submissionError (newSubmission env form answers) with
                  | some msg => simp [hsave] at h
                  | none =>
                    refine ⟨formId, answers, form, rfl, rfl, hfind, hact, ⟨r, hval, hvalid⟩, ?_⟩
                    simp [hsave, newSubmission]

theorem postSubmission_not_created (B : Builtins) (M : Mongoose) (env : SubmitEnv) (db : Store)
    (body : SubmitBody) (h : (postSubmission B M env db body).1.status ≠ 201) :
    (postSubmission B M env db body).2 = db := by
  unfold postSubmission at h ⊢
  cases hf : body.formId with
  | none => simp
  | some formId =>
    cases ha : body.answers with
    | none => simp
    | some answers =>
      simp only [hf, ha] at h ⊢
      by_cases he : formId = ""
      · simp [he]
      · simp only [he, if_false] at h ⊢
        cases hfind : db.findById M formId with
        | error msg => simp
        | ok found =>
          cases found with
          | none => simp
          | some form =>
            simp only [hfind] at h ⊢
            cases hact : form.isActive
            · simp
            · simp only [hact, Bool.not_true, Bool.false_eq_true, if_false] at h ⊢
              cases hval : validateSubmission B form answers with
              | error e => simp
              | ok r =>
                simp only [hval] at h ⊢
                cases hvalid : r.isValid
                · simp
                · simp only [hvalid, Bool.not_true, Bool.false_eq_true, if_false] at h ⊢
                  cases hsave : M.submissionError (newSubmission env form answers) with
                  | some msg => simp
                  | none => simp [hsave] at h

/-- C20, as stated, fails: the answers `{name: "Ada", extra: "x"}` are accepted
for the form whose one field is `name`, and the stored submission carries the
key `extra`, which is the key of no field of the form. -/
theorem stored_keys_counterexample :
    (postSubmission sampleBuiltins sampleMongoose sampleEnv nameStore extraKeyBody).1.status
      = 201 ∧
    (postSubmission sampleBuiltins sampleMongoose sampleEnv nameStore
      extraKeyBody).2.submissions.map
        (fun sub => sub.answers.map Prod.fst) = [["name", "extra"]] ∧
    formKeys (formOf [nameField]) = ["name"] := by
  decide

/-- C20, amended. When `POST /submissions` answers 201, the stored submission
carries the submitted answer object entry for entry, so its keys are the keys
that were submitted, checked or not; with any other status nothing is stored.
The validator reads the answer object only at the names of the form's fields
and at the synthesized keys of their options' nested fields: answer objects
that agree on these keys get the same outcome, whatever other keys they
carry. -/
theorem postSubmission_stores_answers (B : Builtins) (M : Mongoose) (env : SubmitEnv)
    (db : Store) (body : SubmitBody) :
    ((postSubmission B M env db body).1.status = 201 →
      ∃ formId answers form, body.formId = some formId ∧ body.answers = some answers ∧
        db.findById M formId = .ok (some form) ∧ form.isActive = true ∧
        (∃ r, validateSubmission B form answers = .ok r ∧ r.isValid = true) ∧
        (postSubmission B M env db body).2.forms = db.forms ∧
        (postSubmission B M env db body).2.submissions = db.submissions ++
          [{ _id := env.newId, formId := form._id, formVersion := form.version,
             answers := answers, ip := env.ip, submittedAt := env.now }]) ∧
    ((postSubmission B M env db body).1.status ≠ 201 →
      (postSubmission B M env db body).2 = db) ∧
    (∀ (form : Form) (a1 a2 : Answers), (∀ k ∈ formKeys form, a1.get k = a2.get k) →
      validateSubmission B form a1 = validateSubmission B form a2) := by
  refine ⟨fun h => ?_, postSubmission_not_created B M env db body,
    fun form a1 a2 => validateSubmission_congr_answers B form a1 a2⟩
  obtain ⟨formId, answers, form, h1, h2, h3, h4, h5, h6⟩ :=
    postSubmission_created B M env db body h
  exact ⟨formId, answers, form, h1, h2, h3, h4, h5, by rw [h6], by rw [h6]⟩

/-- C20, on the database with the one form whose field is `name`: the answers
`{name: "Ada", extra: "x"}` are stored with both keys. -/
theorem postSubmission_stores_answers_witness :
    ∃ sub, (postSubmission sampleBuiltins sampleMongoose sampleEnv nameStore
        extraKeyBody).2.submissions = [sub] ∧
      sub.answers = [("name", .str "Ada"), ("extra", .str "x")] ∧ sub.formVersion = 1 := by
  obtain ⟨formId, answers, form, h1, h2, h3, -, -, -, h7⟩ :=
    (postSubmission_stores_answers sampleBuiltins sampleMongoose sampleEnv nameStore
      extraKeyBody).1 (by decide)
  cases h1
  cases h2
  have hform : form.version = 1 := by
    have : nameStore.findById sampleMongoose "650000000000000000000001" =
        .ok (some (formOf [nameField])) := rfl
    rw [this] at h3
    cases h3
    rfl
  exact ⟨_, h7, rfl, hform⟩

/-! ## The submission handler -/

/-- C21, as stated, fails: for the stored active form whose one field is `name`
the answers `{name: "Ada", "a.b": "x"}` are valid, but the `Map` of the
submission document refuses the key `a.b`, so the response is 500 and no
submission is stored. -/
theorem valid_submission_refused_counterexample :
    (nameStore.findById sampleMongoose "650000000000000000000001").map
        (Option.map fun f => (f.isActive, f.fields.map Field.name)) =
      .ok (some (true, ["name"])) ∧
    validateSubmission sampleBuiltins (formOf [nameField])
        [("name", .str "Ada"), ("a.b", .str "x")] = .ok { isValid := true, errors := [] } ∧
    (postSubmission sampleBuiltins sampleMongoose sampleEnv nameStore dottedKeyBody).1.status
      = 500 ∧
    (postSubmission sampleBuiltins sampleMongoose sampleEnv nameStore
      dottedKeyBody).2.submissions.length = 0 := by
  decide

/-- C21, amended. For `POST /submissions` against an existing active form on
which the validator returns a result: when `isValid` is false the response is
400 with the validator's error object and the database is unchanged; when it is
true and Mongoose accepts the submission document, exactly one submission is
appended, with the form's `_id`, the form's version and the submitted answer
object, and the response is 201 with the identifier of that submission; when it
is true and Mongoose refuses the document, the response is 500 with the message
of the error and the database is unchanged. -/
theorem postSubmission_validated (B : Builtins) (M : Mongoose) (env : SubmitEnv) (db : Store)
    (body : SubmitBody) (formId : String) (answers : Answers) (form : Form)
    (r : ValidationResult)
    (hid : body.formId = some formId) (hne : formId ≠ "") (hans : body.answers = some answers)
    (hfind : db.findById M formId = .ok (some form)) (hact : form.isActive = true)
    (hval : validateSubmission B form answers = .ok r) :
    (r.isValid = false →
      (postSubmission B M env db body).1 =
        { status := 400, error := some "Validation failed", errors := some r.errors,
          message := none, submissionId := none } ∧
      (postSubmission B M env db body).2 = db) ∧
    (r.isValid = true → M.submissionError (newSubmission env form answers) = none →
      (postSubmission B M env db body).1 =
        { status := 201, error := none, errors := none,
          message := some "Submission successful", submissionId := some env.newId } ∧
      (postSubmission B M env db body).2.forms = db.forms ∧
      (postSubmission B M env db body).2.submissions = db.submissions ++
        [{ _id := env.newId, formId := form._id, formVersion := form.version,
           answers := answers, ip := env.ip, submittedAt := env.now }]) ∧
    (r.isValid = true → ∀ msg, M.submissionError (newSubmission env form answers) = some msg →
      (postSubmission B M env db body).1 =
        { status := 500, error := some msg, errors := none, message := none,
          submissionId := none } ∧
      (postSubmission B M env db body).2 = db) := by
  unfold postSubmission
  simp only [hid, hans, hne, if_false, hfind, hact, Bool.not_true, Bool.false_eq_true, hval]
  refine ⟨fun h => ?_, fun h hs => ?_, fun h msg hs => ?_⟩
  · simp [h]
  · simp only [h, Bool.not_true, Bool.false_eq_true, if_false, hs]
    simp [newSubmission]
  · simp only [h, Bool.not_true, Bool.false_eq_true, if_false, hs]
    simp

/-- C21, on the database with the one form whose field is `name`: the answers
`{name: "Ada"}` are stored as one submission with form version 1 and the
response is 201 with its identifier. -/
theorem postSubmission_validated_witness :
    (postSubmission sampleBuiltins sampleMongoose sampleEnv nameStore
      { formId := some "650000000000000000000001", answers := some [("name", .str "Ada")] }).1 =
      { status := 201, error := none, errors := none, message := some "Submission successful",
        submissionId := some "660000000000000000000001" } ∧
    (postSubmission sampleBuiltins sampleMongoose sampleEnv nameStore
      { formId := some "650000000000000000000001",
        answers := some [("name", .str "Ada")] }).2.submissions.length = 1 := by
  have h := (postSubmission_validated sampleBuiltins sampleMongoose sampleEnv nameStore
    { formId := some "650000000000000000000001", answers := some [("name", .str "Ada")] }
    "650000000000000000000001" [("name", .str "Ada")] (formOf [nameField])
    { isValid := true, errors := [] }
    rfl (by decide) rfl rfl rfl (by decide)).2.1 rfl rfl
  exact ⟨h.1, by rw [h.2.2]; rfl⟩

/-! ## Forms with duplicate names -/

/-- C22, as stated, fails: a create request whose two top-level fields are both
named `name` is answered with 201 and stored as supplied; an update that
supplies the duplicate list is answered with 200, stored, and raises the
version. -/
theorem duplicate_names_counterexample :
    (postForm sampleMongoose sampleCreateEnv emptyStore
      { title := some "T", description := none, fields := some [nameField, nameTwinField] }).1.status
      = 201 ∧
    (postForm sampleMongoose sampleCreateEnv emptyStore
      { title := some "T", description := none,
        fields := some [nameField, nameTwinField] }).2.forms.map
        (fun f => f.fields.map Field.name) = [["name", "name"]] ∧
    (putFormHandler sampleMongoose sampleStringify 7 nameStore "650000000000000000000001"
      { title := none, description := none, fields := some [nameField, nameTwinField],
        isActive := none }).1.status = 200 ∧
    (putFormHandler sampleMongoose sampleStringify 7 nameStore "650000000000000000000001"
      { title := none, description := none, fields := some [nameField, nameTwinField],
        isActive := none }).2.forms.map
        (fun f => (f.fields.map Field.name, f.version)) = [(["name", "name"], 2)] := by
  decide

/-- C22, amended. Neither handler inspects the names of the supplied fields;
what it does with a supplied list depends on the list only through the save.
For a create request with a non-empty title the new document holds the
supplied list: when Mongoose accepts it the response is 201 and the document is
stored, when Mongoose refuses it the response is 500 and the database is
unchanged. For an update of an existing form the updated document holds the
supplied list, at the old version when the serializations of the stored and the
supplied list agree and at the old version plus one otherwise: when Mongoose
accepts it the response is 200 and it replaces the stored form, when Mongoose
refuses it the response is 500 and the database is unchanged. -/
theorem mutations_store_any_names (M : Mongoose) (env : CreateEnv)
    (stringify : List Field → String) (now : ℕ) (db : Store) (fields : List Field) :
    (∀ (body : CreateBody) (title : String), body.title = some title → title ≠ "" →
      body.fields = some fields →
      (newForm env title body).fields = fields ∧
      (M.formError (newForm env title body) = none →
        postForm M env db body =
          ({ status := 201, error := none, form := some (newForm env title body) },
           { db with forms := db.forms ++ [newForm env title body] })) ∧
      (∀ msg, M.formError (newForm env title body) = some msg →
        postForm M env db body = ({ status := 500, error := some msg, form := none }, db))) ∧
    (∀ (id : String) (body : UpdateBody) (form : Form), db.findById M id = .ok (some form) →
      body.fields = some fields →
      (putForm stringify now form body).fields = fields ∧
      (putForm stringify now form body).version =
        (if stringify form.fields = stringify fields then form.version
         else form.version + 1) ∧
      (M.formError (putForm stringify now form body) = none →
        putFormHandler M stringify now db id body =
          ({ status := 200, error := none, form := some (putForm stringify now form body) },
           db.saveForm (putForm stringify now form body))) ∧
      (∀ msg, M.formError (putForm stringify now form body) = some msg →
        putFormHandler M stringify now db id body =
          ({ status := 500, error := some msg, form := none }, db))) := by
  constructor
  · intro body title ht hne hf
    refine ⟨by simp [newForm, hf], fun hs => ?_, fun msg hs => ?_⟩
    · unfold postForm
      simp only [ht, hne, if_false, hs]
    · unfold postForm
      simp only [ht, hne, if_false, hs]
  · intro id body form hfind hf
    refine ⟨?_, ?_, fun hs => ?_, fun msg hs => ?_⟩
    · unfold putForm
      cases ht : body.title <;> cases hd : body.description <;> cases ha : body.isActive <;>
        by_cases hsame : stringify form.fields = stringify fields <;> simp [hf, hsame]
    · unfold putForm
      cases ht : body.title <;> cases hd : body.description <;> cases ha : body.isActive <;>
        by_cases hsame : stringify form.fields = stringify fields <;> simp [hf, hsame]
    · unfold putFormHandler
      simp only [hfind, hs]
    · unfold putFormHandler
      simp only [hfind, hs]

/-- C22, on an empty database: the create request with two fields named `name`
is stored with both, while the request whose field `country` carries a nested
field object is refused with 500 and stores nothing. -/
theorem mutations_store_any_names_witness :
    (postForm sampleMongoose sampleCreateEnv emptyStore
      { title := some "T", description := none,
        fields := some [nameField, nameTwinField] }).2.forms.map
        (fun f => f.fields.map Field.name) = [["name", "name"]] ∧
    (postForm sampleMongoose sampleCreateEnv emptyStore
      { title := some "T", description := none, fields := some [countryField] }).1.status = 500 ∧
    (postForm sampleMongoose sampleCreateEnv emptyStore
      { title := some "T", description := none,
        fields := some [countryField] }).2.forms.length = 0 := by
  have h1 := ((mutations_store_any_names sampleMongoose sampleCreateEnv sampleStringify 0
    emptyStore [nameField, nameTwinField]).1
    { title := some "T", description := none, fields := some [nameField, nameTwinField] } "T"
    rfl (by decide) rfl).2.1 (by decide)
  have h2 := ((mutations_store_any_names sampleMongoose sampleCreateEnv sampleStringify 0
    emptyStore [countryField]).1
    { title := some "T", description := none, fields := some [countryField] } "T"
    rfl (by decide) rfl).2.2 "Form validation failed" (by decide)
  exact ⟨by rw [h1]; rfl, by rw [h2], by rw [h2]; rfl⟩

/-! ## Inactive and unknown forms -/

/-- C23, as stated, fails: for the database whose one form is inactive, the
public read of that form is answered with 404, while the read of the id `abc`,
which is the id of no form, is answered with 500; `POST /submissions` answers
404 and 500 likewise. -/
theorem malformed_id_counterexample :
    inactiveStore.forms.map Form._id = ["650000000000000000000001"] ∧
    (getPublicForm sampleMongoose inactiveStore "650000000000000000000001").status = 404 ∧
    (getPublicForm sampleMongoose inactiveStore "abc").status = 500 ∧
    (postSubmission sampleBuiltins sampleMongoose sampleEnv inactiveStore
      { formId := some "650000000000000000000001", answers := some [] }).1.status = 404 ∧
    (postSubmission sampleBuiltins sampleMongoose sampleEnv inactiveStore
      { formId := some "abc", answers := some [] }).1.status = 500 := by
  decide

/-- C23, amended. For an existing inactive form and for an id that casts to an
`ObjectId` and matches no form, the public read gives the same response, status
404 with the text `Form not found`, and `POST /submissions` gives the same
response, status 404 with the text `Form not found or inactive`, and stores
nothing. An id that does not cast is answered with 500 and the message of the
cast error by both handlers, whatever the database holds, and nothing is
stored. The public read answers with 200, 404 or 500 only, and neither handler
ever answers with status 403 or 401. -/
theorem inactive_as_unknown (B : Builtins) (M : Mongoose) (env : SubmitEnv) (db1 db2 : Store)
    (id1 id2 : String) (form : Form) (answers1 answers2 : Answers)
    (h1 : db1.findById M id1 = .ok (some form)) (hin : form.isActive = false)
    (h2 : db2.findById M id2 = .ok none) (hne1 : id1 ≠ "") (hne2 : id2 ≠ "") :
    getPublicForm M db1 id1 = getPublicForm M db2 id2 ∧
    getPublicForm M db1 id1 = { status := 404, error := some "Form not found", form := none } ∧
    (postSubmission B M env db1 { formId := some id1, answers := some answers1 }).1 =
      (postSubmission B M env db2 { formId := some id2, answers := some answers2 }).1 ∧
    (postSubmission B M env db1 { formId := some id1, answers := some answers1 }).1 =
      { status := 404, error := some "Form not found or inactive", errors := none,
        message := none, submissionId := none } ∧
    (postSubmission B M env db1 { formId := some id1, answers := some answers1 }).2 = db1 ∧
    (postSubmission B M env db2 { formId := some id2, answers := some answers2 }).2 = db2 ∧
    (∀ (db : Store) (id msg : String), M.idError id = some msg →
      getPublicForm M db id = { status := 500, error := some msg, form := none } ∧
      (id ≠ "" → ∀ answers,
        postSubmission B M env db { formId := some id, answers := some answers } =
          ({ status := 500, error := some msg, errors := none, message := none,
             submissionId := none }, db))) ∧
    (∀ (db : Store) (id : String),
      (getPublicForm M db id).status = 200 ∨ (getPublicForm M db id).status = 404 ∨
        (getPublicForm M db id).status = 500) ∧
    (∀ (db : Store) (body : SubmitBody),
      (postSubmission B M env db body).1.status ≠ 403 ∧
      (postSubmission B M env db body).1.status ≠ 401) := by
  have g1 : getPublicForm M db1 id1 =
      { status := 404, error := some "Form not found", form := none } := by
    unfold getPublicForm
    simp [h1, hin]
  have g2 : getPublicForm M db2 id2 =
      { status := 404, error := some "Form not found", form := none } := by
    unfold getPublicForm
    simp [h2]
  have p1 : postSubmission B M env db1 { formId := some id1, answers := some answers1 } =
      ({ status := 404, error := some "Form not found or inactive", errors := none,
         message := none, submissionId := none }, db1) := by
    unfold postSubmission
    simp [h1, hin, hne1]
  have p2 : postSubmission B M env db2 { formId := some id2, answers := some answers2 } =
      ({ status := 404, error := some "Form not found or inactive", errors := none,
         message := none, submissionId := none }, db2) := by
    unfold postSubmission
    simp [h2, hne2]
  refine ⟨by rw [g1, g2], g1, by rw [p1, p2], by rw [p1], by rw [p1], by rw [p2], ?_, ?_, ?_⟩
  · intro db id msg hmsg
    have hfind : db.findById M id = .error msg := by
      unfold Store.findById
      simp [hmsg]
    refine ⟨?_, fun hne answers => ?_⟩
    · unfold getPublicForm
      simp [hfind]
    · unfold postSubmission
      simp [hfind, hne]
  · intro db id
    unfold getPublicForm
    cases db.findById M id with
    | error msg => exact Or.inr (Or.inr rfl)
    | ok found =>
      cases found with
      | none => exact Or.inr (Or.inl rfl)
      | some f =>
        cases hf : f.isActive
        · exact Or.inr (Or.inl (by simp [hf]))
        · exact Or.inl (by simp [hf])
  · intro db body
    unfold postSubmission
    cases body.formId with
    | none => exact ⟨by simp, by simp⟩
    | some fid =>
      cases body.answers with
      | none => exact ⟨by simp, by simp⟩
      | some ans =>
        simp only
        split_ifs
        · exact ⟨by simp, by simp⟩
        · cases db.findById M fid with
          | error msg => exact ⟨by simp, by simp⟩
          | ok found =>
            cases found with
            | none => exact ⟨by simp, by simp⟩
            | some f =>
              simp only
              split_ifs
              · exact ⟨by simp, by simp⟩
              · cases validateSubmission B f ans with
                | error e => exact ⟨by simp, by simp⟩
                | ok r =>
                  simp only
                  split_ifs
                  · exact ⟨by simp, by simp⟩
                  · cases M.submissionError (newSubmission env f ans) with
                    | none => exact ⟨by simp, by simp⟩
                    | some msg => exact ⟨by simp, by simp⟩

/-- C23, on the database with one inactive form and on the empty database: both
reads answer 404 `Form not found`, both submissions answer 404 and the
inactive form's database keeps no submission. -/
theorem inactive_as_unknown_witness :
    (getPublicForm sampleMongoose inactiveStore "650000000000000000000001").status = 404 ∧
    (getPublicForm sampleMongoose inactiveStore "650000000000000000000001").error =
      (getPublicForm sampleMongoose emptyStore "650000000000000000000009").error ∧
    (postSubmission sampleBuiltins sampleMongoose sampleEnv inactiveStore
      { formId := some "650000000000000000000001", answers := some [("name", .str "Ada")] }).1 =
    (postSubmission sampleBuiltins sampleMongoose sampleEnv emptyStore
      { formId := some "650000000000000000000009", answers := some [] }).1 ∧
    (postSubmission sampleBuiltins sampleMongoose sampleEnv inactiveStore
      { formId := some "650000000000000000000001",
        answers := some [("name", .str "Ada")] }).2.submissions = [] := by
  have h := inactive_as_unknown sampleBuiltins sampleMongoose sampleEnv inactiveStore emptyStore
    "650000000000000000000001" "650000000000000000000009"
    { formOf [nameField] with isActive := false } [("name", .str "Ada")] []
    rfl rfl rfl (by decide) (by decide)
  refine ⟨by rw [h.2.1], by rw [← h.1, h.2.1], h.2.2.1, by rw [h.2.2.2.2.1]; rfl⟩

/-! ## Creating a form -/

/-- C24, as stated, fails: the create request with the title of two blanks has
a non-empty title, but its document fails the `required` validator of `title`
after trimming, so the response is 500 and no form is stored. -/
theorem blank_title_counterexample :
    (postForm sampleMongoose sampleCreateEnv emptyStore
      { title := some "  ", description := none, fields := none }).1.status = 500 ∧
    (postForm sampleMongoose sampleCreateEnv emptyStore
      { title := some "  ", description := none, fields := none }).2.forms.length = 0 := by
  decide

/-- C24, amended. For a create request with a non-empty title the new document
has `version = 1` and `isActive = true`, the empty description when none is
supplied, and the empty field list when none is supplied and the supplied list
otherwise; when Mongoose accepts the document the response is 201 with it and
it is added to the stored forms; when Mongoose refuses it (as for a title that
is blank after trimming) the response is 500 with the message of the error and
the database is unchanged. A request whose title is missing or empty is
answered with 400 `Title is required` and leaves the database as it was. -/
theorem postForm_creates (M : Mongoose) (env : CreateEnv) (db : Store) (body : CreateBody) :
    (∀ title, body.title = some title → title ≠ "" →
      (newForm env title body).version = 1 ∧ (newForm env title body).isActive = true ∧
      (body.description = none → (newForm env title body).description = "") ∧
      (∀ d, body.description = some d → (newForm env title body).description = d) ∧
      (body.fields = none → (newForm env title body).fields = []) ∧
      (∀ fs, body.fields = some fs → (newForm env title body).fields = fs) ∧
      (M.formError (newForm env title body) = none →
        (postForm M env db body).1 =
          { status := 201, error := none, form := some (newForm env title body) } ∧
        (postForm M env db body).2.forms = db.forms ++ [newForm env title body] ∧
        (postForm M env db body).2.submissions = db.submissions) ∧
      (∀ msg, M.formError (newForm env title body) = some msg →
        (postForm M env db body).1 = { status := 500, error := some msg, form := none } ∧
        (postForm M env db body).2 = db)) ∧
    ((body.title = none ∨ body.title = some "") →
      (postForm M env db body).1 =
        { status := 400, error := some "Title is required", form := none } ∧
      (postForm M env db body).2 = db) := by
  constructor
  · intro title ht hne
    refine ⟨rfl, rfl, ?_, ?_, ?_, ?_, ?_, ?_⟩
    · intro h
      simp [newForm, h]
    · intro d h
      by_cases hd : d = "" <;> simp [newForm, h, hd]
    · intro h
      simp [newForm, h]
    · intro fs h
      simp [newForm, h]
    · intro hs
      unfold postForm
      simp [ht, hne, hs]
    · intro msg hs
      unfold postForm
      simp [ht, hne, hs]
  · rintro (h | h) <;> unfold postForm <;> simp [h]

/-- C24, on an empty database: the request with the title `Survey` alone
creates a form at version 1, active, with an empty description and no field;
the request with an empty title creates nothing. -/
theorem postForm_creates_witness :
    (∃ form, (postForm sampleMongoose sampleCreateEnv emptyStore
        { title := some "Survey", description := none, fields := none }).2.forms = [form] ∧
      form.version = 1 ∧ form.isActive = true ∧ form.description = "" ∧
      form.fields.length = 0) ∧
    (postForm sampleMongoose sampleCreateEnv emptyStore
        { title := some "", description := none, fields := none }).1.status = 400 := by
  obtain ⟨h1, h2, h3, -, h5, -, h7, -⟩ := (postForm_creates sampleMongoose sampleCreateEnv
    emptyStore { title := some "Survey", description := none, fields := none }).1 "Survey" rfl
    (by decide)
  have h400 := ((postForm_creates sampleMongoose sampleCreateEnv emptyStore
    { title := some "", description := none, fields := none }).2 (Or.inr rfl)).1
  exact ⟨⟨_, (h7 (by decide)).2.1, h1, h2, h3 rfl, by rw [h5 rfl]; rfl⟩, by rw [h400]⟩

/-! ## Keys of a form and keys of a run -/

theorem formKeys_eq (form : Form) : formKeys form = form.fields.flatMap fieldKeys := rfl

theorem evaluatedKeys_eq (form : Form) (answers : Answers) :
    evaluatedKeys form answers = (sortFields form.fields).flatMap (fieldEvaluatedKeys answers) := by
  unfold evaluatedKeys evaluated fieldEvaluatedKeys
  rw [List.map_flatMap]
  congr 1
  funext f
  simp [List.map_map, Function.comp_def]

theorem sublist_flatMap_of_mem {α β : Type} (g : α → List β) (l : List α) (a : α) (h : a ∈ l) :
    List.Sublist (g a) (l.flatMap g) := by
  induction l with
  | nil => cases h
  | cons b t ih =>
    rw [List.flatMap_cons]
    rcases List.mem_cons.1 h with h1 | h1
    · subst h1
      exact List.sublist_append_left _ _
    · exact (ih h1).trans (List.sublist_append_right _ _)

theorem sublist_flatMap_flatMap {α β : Type} (g h : α → List β) (l : List α)
    (hs : ∀ a ∈ l, List.Sublist (g a) (h a)) : List.Sublist (l.flatMap g) (l.flatMap h) := by
  induction l with
  | nil => exact List.Sublist.refl _
  | cons b t ih =>
    rw [List.flatMap_cons, List.flatMap_cons]
    exact (hs b (List.mem_cons_self _ _)).append
      (ih (fun a ha => hs a (List.mem_cons_of_mem _ ha)))

/-- The keys a field evaluates are among the keys it can evaluate, in the same
sequence. -/
theorem fieldEvaluatedKeys_sublist (answers : Answers) (f : Field) :
    List.Sublist (fieldEvaluatedKeys answers f) (fieldKeys f) := by
  unfold fieldEvaluatedKeys fieldKeys
  refine List.Sublist.cons₂ _ ?_
  unfold cascadeFields
  split_ifs
  · cases ho : f.options with
    | none => exact List.nil_sublist _
    | some opts =>
      simp only
      cases hs : findSelected opts (answers.get f.name) with
      | none => exact List.nil_sublist _
      | some opt =>
        simp only
        have hmem := (findSelected_some _ _ _ hs).1
        have := sublist_flatMap_of_mem (fun o : FieldOption =>
          match o.nestedFields with
          | none => []
          | some nfs => nfs.map fun nf => nestedKey f nf) opts opt hmem
        cases hn : opt.nestedFields with
        | none => exact List.nil_sublist _
        | some nfs =>
          simp only [hn] at this
          exact this
  · exact List.nil_sublist _

/-- When the keys of a form are pairwise distinct, so are the keys of every
run. -/
theorem evaluatedKeys_nodup_of_formKeys (form : Form) (answers : Answers)
    (h : (formKeys form).Nodup) : (evaluatedKeys form answers).Nodup := by
  rw [evaluatedKeys_eq]
  have hp : ((sortFields form.fields).flatMap fieldKeys).Nodup := by
    unfold sortFields
    rw [(List.Perm.flatMap_right fieldKeys (List.perm_insertionSort _ form.fields)).nodup_iff]
    exact h
  exact List.Nodup.sublist
    (sublist_flatMap_flatMap _ _ _ (fun f _ => fieldEvaluatedKeys_sublist answers f)) hp

/-- In a form with pairwise distinct keys, a key belongs to one field only. -/
theorem fieldKeys_unique (form : Form) (h : (formKeys form).Nodup) (f g : Field)
    (hf : f ∈ form.fields) (hg : g ∈ form.fields) (k : String)
    (hkf : k ∈ fieldKeys f) (hkg : k ∈ fieldKeys g) : f = g := by
  rw [formKeys_eq, List.nodup_flatMap] at h
  by_contra hne
  have hsym : Symmetric (fun a b : Field => List.Disjoint (fieldKeys a) (fieldKeys b)) :=
    fun a b hab => hab.symm
  exact (List.Pairwise.forall hsym h.2 hf hg hne) hkf hkg

theorem name_mem_fieldKeys (f : Field) : f.name ∈ fieldKeys f := List.mem_cons_self _ _

theorem nestedKey_mem_fieldKeys (f : Field) (opts : List FieldOption) (opt : FieldOption)
    (nfs : List Field) (nf : Field) (ho : f.options = some opts) (hopt : opt ∈ opts)
    (hn : opt.nestedFields = some nfs) (hnf : nf ∈ nfs) :
    nestedKey f nf ∈ (match f.options with
      | none => []
      | some opts => opts.flatMap fun o =>
          match o.nestedFields with
          | none => []
          | some nfs => nfs.map fun nf => nestedKey f nf) := by
  rw [ho]
  simp only [List.mem_flatMap]
  refine ⟨opt, hopt, ?_⟩
  rw [hn]
  exact List.mem_map_of_mem _ hnf

/-- In a form with pairwise distinct keys, no synthesized key of a field is the
field's own name. -/
theorem name_ne_nestedKey (form : Form) (h : (formKeys form).Nodup) (f : Field)
    (hf : f ∈ form.fields) (opts : List FieldOption) (opt : FieldOption)
    (nfs : List Field) (nf : Field) (ho : f.options = some opts) (hopt : opt ∈ opts)
    (hn : opt.nestedFields = some nfs) (hnf : nf ∈ nfs) : nestedKey f nf ≠ f.name := by
  rw [formKeys_eq, List.nodup_flatMap] at h
  have hb := h.1 f hf
  unfold fieldKeys at hb
  rw [List.nodup_cons] at hb
  intro heq
  exact hb.1 (heq ▸ nestedKey_mem_fieldKeys f opts opt nfs nf ho hopt hn hnf)

/-- The answer that sets off the cascade of a radio or select field passes the
field's own check. -/
theorem validateField_of_cascade (B : Builtins) (f : Field) (v : JVal)
    (h : cascadeFields f v ≠ []) : validateField B f v = .ok [] := by
  obtain ⟨nf, hnf⟩ := List.exists_mem_of_ne_nil _ h
  obtain ⟨ht, htr, opts, opt, nfs, ho, hs, -, -⟩ := (mem_cascadeFields _ _ _).1 hnf
  obtain ⟨hmem, hv⟩ := findSelected_some _ _ _ hs
  have hm : isMissing v = false := by
    subst hv
    simp only [truthy, bne_iff_ne, ne_eq] at htr
    simp [isMissing, htr]
  rw [validateField_present B f v hm]
  unfold validateField.validateFieldType
  have h1 : f.type ≠ "email" := by rcases ht with h | h <;> rw [h] <;> decide
  have h2 : f.type ≠ "number" := by rcases ht with h | h <;> rw [h] <;> decide
  have h3 : ¬ (f.type = "text" ∨ f.type = "textarea") := by
    rcases ht with h | h <;> rw [h] <;> decide
  have h4 : f.type ≠ "date" := by rcases ht with h | h <;> rw [h] <;> decide
  simp only [h1, h2, h3, h4, ht, if_false, if_true]
  have hno : f.noOptions = false := by
    cases opts with
    | nil => cases hmem
    | cons a t => simp [Field.noOptions, ho]
  have hinc : includesVal f.validValues v = true := by
    rw [includesVal_iff]
    exact ⟨opt.value, by simp only [Field.validValues, ho]; exact List.mem_map_of_mem _ hmem, hv⟩
  simp [checkChoice, hno, hinc]

/-! ## Parent and nested errors -/

/-- An entry of the returned error object comes from an evaluated field that
got a non-empty list under that key. -/
theorem error_entry_source (B : Builtins) (form : Form) (answers : Answers)
    (r : ValidationResult) (h : validateSubmission B form answers = .ok r) (k : String)
    (hk : r.errors.get? k ≠ none) :
    ∃ g, (k, g) ∈ evaluated answers (sortFields form.fields) ∧
      ∃ errs, validateField B g (answers.get k) = .ok errs ∧ errs ≠ [] := by
  obtain ⟨st, hst, rfl⟩ := validateSubmission_ok B form answers r h
  have hmem : k ∈ st.errors.keys := by
    by_contra hn
    exact hk ((ErrorMap.get?_eq_none_iff _ _).2 hn)
  rcases runChecks_keys B answers _ _ st hst k hmem with h1 | ⟨kf, hkf, hk1, errs, he, hne⟩
  · simp [ErrorMap.keys] at h1
  · obtain ⟨k0, g⟩ := kf
    simp only at hk1
    subst hk1
    exact ⟨g, hkf, errs, he, hne⟩

/-- C28. For a field of a form and an answer object: when the cascade evaluates
nested fields of the field, `validateField` returns the empty list for the
field and its answer; so, the evaluated keys being pairwise distinct, the
returned error object has no entry under the field's name; and in a form whose
keys are all pairwise distinct, an entry under the synthesized key of one of
the field's nested fields never stands beside an entry under the field's
name. -/
theorem parent_passes_with_nested (B : Builtins) (form : Form) (answers : Answers) (f : Field)
    (hf : f ∈ form.fields) :
    (cascadeFields f (answers.get f.name) ≠ [] →
      validateField B f (answers.get f.name) = .ok []) ∧
    (∀ r, validateSubmission B form answers = .ok r → (evaluatedKeys form answers).Nodup →
      cascadeFields f (answers.get f.name) ≠ [] → r.errors.get? f.name = none) ∧
    (∀ r, validateSubmission B form answers = .ok r → (formKeys form).Nodup →
      ∀ opts opt nfs nf, f.options = some opts → opt ∈ opts → opt.nestedFields = some nfs →
        nf ∈ nfs → r.errors.get? (f.name ++ "_" ++ nf.name) ≠ none →
        r.errors.get? f.name = none) := by
  refine ⟨validateField_of_cascade B f _, fun r hr hnd hc => ?_, ?_⟩
  · obtain ⟨st, hst, rfl⟩ := validateSubmission_ok B form answers r hr
    have hmem : (f.name, f) ∈ evaluated answers (sortFields form.fields) :=
      (mem_evaluated _ _ _ _).2 (Or.inl ⟨(mem_sortFields _ _).2 hf, rfl⟩)
    have := (runChecks_get?_of_nodup B answers _ _ st hst hnd _ f hmem []
      (validateField_of_cascade B f _ hc)).1
    simpa [ErrorMap.get?] using this
  · intro r hr hnd opts opt nfs nf ho hopt hn hnf hnested
    by_contra hparent
    have hkf : nestedKey f nf ∈ fieldKeys f :=
      List.mem_cons_of_mem _ (nestedKey_mem_fieldKeys f opts opt nfs nf ho hopt hn hnf)
    -- the entry under the parent's name comes from the parent itself
    obtain ⟨g1, hg1, errs1, he1, hne1⟩ := error_entry_source B form answers r hr f.name hparent
    have hpar : cascadeFields f (answers.get f.name) = [] := by
      by_contra hc
      rcases (mem_evaluated _ _ _ _).1 hg1 with ⟨hg, hk⟩ | ⟨f', hf', hg, hk⟩
      · have hgf : g1 = f := fieldKeys_unique form hnd g1 f ((mem_sortFields _ _).1 hg) hf f.name
          (hk ▸ name_mem_fieldKeys g1) (name_mem_fieldKeys f)
        subst hgf
        rw [validateField_of_cascade B g1 _ hc] at he1
        cases he1
        exact hne1 rfl
      · obtain ⟨-, -, opts', opt', nfs', ho', hs', hn', hmem'⟩ := (mem_cascadeFields _ _ _).1 hg
        have hopt' := (findSelected_some _ _ _ hs').1
        have hf'' := (mem_sortFields _ _).1 hf'
        have hkf' : f.name ∈ fieldKeys f' := hk ▸ List.mem_cons_of_mem _
          (nestedKey_mem_fieldKeys f' opts' opt' nfs' g1 ho' hopt' hn' hmem')
        have hff : f' = f := fieldKeys_unique form hnd f' f hf'' hf f.name hkf'
          (name_mem_fieldKeys f)
        subst hff
        exact name_ne_nestedKey form hnd f' hf opts' opt' nfs' g1 ho' hopt' hn' hmem' hk.symm
    -- the entry under the nested key comes from a nested field of the parent
    obtain ⟨g2, hg2, errs2, he2, hne2⟩ := error_entry_source B form answers r hr _ hnested
    rcases (mem_evaluated _ _ _ _).1 hg2 with ⟨hg, hk⟩ | ⟨f', hf', hg, hk⟩
    · have hgf : g2 = f := fieldKeys_unique form hnd g2 f ((mem_sortFields _ _).1 hg) hf
        (nestedKey f nf) (by rw [show nestedKey f nf = g2.name from hk]; exact name_mem_fieldKeys g2)
        hkf
      subst hgf
      exact name_ne_nestedKey form hnd g2 hf opts opt nfs nf ho hopt hn hnf hk
    · obtain ⟨-, -, opts', opt', nfs', ho', hs', hn', hmem'⟩ := (mem_cascadeFields _ _ _).1 hg
      have hopt' := (findSelected_some _ _ _ hs').1
      have hf'' := (mem_sortFields _ _).1 hf'
      have hkf' : nestedKey f nf ∈ fieldKeys f' := by
        rw [show nestedKey f nf = nestedKey f' g2 from hk]
        exact List.mem_cons_of_mem _
          (nestedKey_mem_fieldKeys f' opts' opt' nfs' g2 ho' hopt' hn' hmem')
      have hff : f' = f := fieldKeys_unique form hnd f' f hf'' hf _ hkf' hkf
      subst hff
      rw [hpar] at hg
      cases hg

/-- C28, on the select `country` whose option `other` carries the required
nested field `details`: the answer `other` passes the check of `country`, and
the result has the entry of `country_details` and none under `country`. -/
theorem parent_passes_with_nested_witness :
    validateField sampleBuiltins countryField (Answers.get [("country", .str "other")] "country")
      = .ok [] ∧
    ErrorMap.get? [("country_details", ["Details is required"])] "country" = none := by
  have h := parent_passes_with_nested sampleBuiltins (formOf [countryField])
    [("country", .str "other")] countryField (List.mem_cons_self _ _)
  have hc : cascadeFields countryField
      (Answers.get [("country", .str "other")] countryField.name) ≠ [] := by
    rw [show cascadeFields countryField
      (Answers.get [("country", .str "other")] countryField.name) = [detailsField] from rfl]
    exact List.cons_ne_nil _ _
  exact ⟨h.1 hc,
    h.2.1 ⟨false, [("country_details", ["Details is required"])]⟩ (by decide) (by decide) hc⟩

/-! ## Uniqueness of the synthesized key -/

theorem append_cons_inj_of_not_mem {α : Type} (x : α) :
    ∀ (a b c d : List α), x ∉ a → x ∉ c → a ++ x :: b = c ++ x :: d → a = c ∧ b = d
  | [], b, [], d, _, _, h => by
    simp only [List.nil_append, List.cons.injEq, true_and] at h
    exact ⟨rfl, h⟩
  | [], b, y :: c, d, _, hc, h => by
    simp only [List.nil_append, List.cons_append, List.cons.injEq] at h
    exact absurd (h.1 ▸ List.mem_cons_self _ _) hc
  | y :: a, b, [], d, ha, _, h => by
    simp only [List.nil_append, List.cons_append, List.cons.injEq] at h
    exact absurd (h.1 ▸ List.mem_cons_self _ _) ha
  | y :: a, b, z :: c, d, ha, hc, h => by
    simp only [List.cons_append, List.cons.injEq] at h
    obtain ⟨h1, h2⟩ := append_cons_inj_of_not_mem x a b c d
      (fun hm => ha (List.mem_cons_of_mem _ hm)) (fun hm => hc (List.mem_cons_of_mem _ hm)) h.2
    exact ⟨by rw [h.1, h1], h2⟩

theorem nestedKey_data (p n : String) :
    (p ++ "_" ++ n).data = p.data ++ '_' :: n.data := by
  simp [String.data_append]

/-- A name that matches `[a-z0-9-]+` holds no underscore. -/
theorem underscore_not_mem_of_validName (s : String) (h : validName s = true) :
    '_' ∉ s.data := by
  intro hm
  unfold validName at h
  simp only [Bool.and_eq_true, List.all_eq_true] at h
  have := h.2 '_' hm
  revert this
  decide

/-- The key synthesis is injective on names that match `[a-z0-9-]+`. -/
theorem nestedKey_inj (p1 n1 p2 n2 : String) (hp1 : validName p1 = true)
    (hp2 : validName p2 = true) (h : p1 ++ "_" ++ n1 = p2 ++ "_" ++ n2) : p1 = p2 ∧ n1 = n2 := by
  have hd := congrArg String.data h
  rw [nestedKey_data, nestedKey_data] at hd
  obtain ⟨h1, h2⟩ := append_cons_inj_of_not_mem '_' _ _ _ _
    (underscore_not_mem_of_validName p1 hp1) (underscore_not_mem_of_validName p2 hp2) hd
  exact ⟨String.ext h1, String.ext h2⟩

/-- A synthesized key is no name that matches `[a-z0-9-]+`. -/
theorem nestedKey_ne_name (p n m : String) (hm : validName m = true) : p ++ "_" ++ n ≠ m := by
  intro h
  have hd := congrArg String.data h
  rw [nestedKey_data] at hd
  exact underscore_not_mem_of_validName m hm (hd ▸ List.mem_append_right _ (List.mem_cons_self _ _))

/-- C26. For names that match `[a-z0-9-]+`: two synthesized keys are equal
only if their parent names are equal and their nested names are equal, and no
synthesized key is such a name. So, for a form whose names all match the
pattern and are unique among siblings, the keys that one run of
`validateSubmission` evaluates are pairwise distinct, under every answer
object. -/
theorem synthesized_key_unique :
    (∀ p1 n1 p2 n2 : String, validName p1 = true → validName n1 = true →
      validName p2 = true → validName n2 = true →
      p1 ++ "_" ++ n1 = p2 ++ "_" ++ n2 → p1 = p2 ∧ n1 = n2) ∧
    (∀ p n m : String, validName p = true → validName n = true → validName m = true →
      p ++ "_" ++ n ≠ m) ∧
    (∀ (form : Form) (answers : Answers), form.NamesValid → form.NamesUnique →
      (evaluatedKeys form answers).Nodup) := by
  refine ⟨fun p1 n1 p2 n2 hp1 _ hp2 _ h => nestedKey_inj p1 n1 p2 n2 hp1 hp2 h,
    fun p n m _ _ hm => nestedKey_ne_name p n m hm, fun form answers hv hu => ?_⟩
  rw [evaluatedKeys_eq, List.nodup_flatMap]
  have hnested : ∀ f ∈ form.fields, ∀ nf ∈ cascadeFields f (answers.get f.name),
      ∃ opts opt nfs, f.options = some opts ∧ opt ∈ opts ∧ opt.nestedFields = some nfs ∧
        nf ∈ nfs ∧ cascadeFields f (answers.get f.name) = nfs := by
    intro f _ nf hnf
    obtain ⟨ht, htr, opts, opt, nfs, ho, hs, hn, hmem⟩ := (mem_cascadeFields _ _ _).1 hnf
    refine ⟨opts, opt, nfs, ho, (findSelected_some _ _ _ hs).1, hn, hmem, ?_⟩
    unfold cascadeFields
    simp [ht, htr, ho, hs, hn]
  constructor
  · intro f hf
    have hf' := (mem_sortFields _ _).1 hf
    unfold fieldEvaluatedKeys
    rw [List.nodup_cons]
    constructor
    · intro hm
      obtain ⟨nf, -, hk⟩ := List.mem_map.1 hm
      exact nestedKey_ne_name f.name nf.name f.name (hv f hf').1 hk
    · cases hc : cascadeFields f (answers.get f.name) with
      | nil => exact List.nodup_nil
      | cons a t =>
        obtain ⟨opts, opt, nfs, ho, hopt, hn, -, hcas⟩ := hnested f hf' a (hc ▸ List.mem_cons_self _ _)
        rw [← hc, hcas]
        have hnames := hu.2 f hf' opts ho opt hopt nfs hn
        have : nfs.map (fun nf => nestedKey f nf) =
            (nfs.map Field.name).map (fun n => f.name ++ "_" ++ n) := by
          simp [List.map_map, Function.comp_def, nestedKey]
        rw [this]
        refine List.Nodup.map ?_ hnames
        intro n1 n2 h
        exact (nestedKey_inj f.name n1 f.name n2 (hv f hf').1 (hv f hf').1 h).2
  · have hpair : (sortFields form.fields).Pairwise (fun a b => a.name ≠ b.name) := by
      have : ((sortFields form.fields).map Field.name).Nodup := by
        unfold sortFields
        rw [(List.Perm.map Field.name (List.perm_insertionSort _ form.fields)).nodup_iff]
        exact hu.1
      exact (List.pairwise_map.1 this)
    refine List.Pairwise.imp_of_mem ?_ hpair
    intro a b ha hb hab
    have ha' := (mem_sortFields _ _).1 ha
    have hb' := (mem_sortFields _ _).1 hb
    intro k hka hkb
    unfold fieldEvaluatedKeys at hka hkb
    rcases List.mem_cons.1 hka with h1 | h1 <;> rcases List.mem_cons.1 hkb with h2 | h2
    · exact hab (h1.symm.trans h2)
    · obtain ⟨nf, -, hk⟩ := List.mem_map.1 h2
      exact nestedKey_ne_name b.name nf.name a.name (hv a ha').1 (hk.trans h1)
    · obtain ⟨nf, -, hk⟩ := List.mem_map.1 h1
      exact nestedKey_ne_name a.name nf.name b.name (hv b hb').1 (hk.trans h2)
    · obtain ⟨nf1, -, hk1⟩ := List.mem_map.1 h1
      obtain ⟨nf2, -, hk2⟩ := List.mem_map.1 h2
      exact hab (nestedKey_inj a.name nf1.name b.name nf2.name (hv a ha').1 (hv b hb').1
        (hk1.trans hk2.symm)).1

/-- C26, on the names `country`, `details` and `country-details`: the key
`country_details` is none of them, and the form with the select `country` and
the field `age` evaluates pairwise distinct keys under the answer `other`. -/
theorem synthesized_key_unique_witness :
    "country" ++ "_" ++ "details" ≠ "country-details" ∧
    (evaluatedKeys (formOf [countryField, ageField]) [("country", .str "other")]).Nodup := by
  refine ⟨synthesized_key_unique.2.1 "country" "details" "country-details" (by decide)
    (by decide) (by decide), synthesized_key_unique.2.2 _ _ ?_ ?_⟩
  · intro f hf
    simp only [formOf, List.mem_cons, List.mem_singleton, List.not_mem_nil, or_false] at hf
    rcases hf with rfl | rfl
    · refine ⟨by decide, ?_⟩
      intro opts ho o hopt nfs hn nf hnf
      cases ho
      simp only [List.mem_cons, List.mem_singleton, List.not_mem_nil, or_false] at hopt
      rcases hopt with rfl | rfl
      · cases hn
      · cases hn
        simp only [List.mem_singleton] at hnf
        subst hnf
        decide
    · exact ⟨by decide, fun opts ho => by cases ho⟩
  · refine ⟨by decide, ?_⟩
    intro f hf
    simp only [formOf, List.mem_cons, List.mem_singleton, List.not_mem_nil, or_false] at hf
    rcases hf with rfl | rfl
    · intro opts ho o hopt nfs hn
      cases ho
      simp only [List.mem_cons, List.mem_singleton, List.not_mem_nil, or_false] at hopt
      rcases hopt with rfl | rfl
      · cases hn
      · cases hn
        decide
    · intro opts ho
      cases ho

/-! ## Independence of the storage order -/

theorem validateField_stripOrder (B : Builtins) (f : Field) (v : JVal) :
    validateField B f.stripOrder v = validateField B f v := by
  apply validateField_congr <;> first | rfl | (intro s; rfl)

theorem stripOrder_name (f : Field) : f.stripOrder.name = f.name := rfl

theorem cascadeFields_stripOrder (f : Field) (v : JVal) :
    cascadeFields f.stripOrder v = cascadeFields f v := rfl

theorem fieldKeys_stripOrder (f : Field) : fieldKeys f.stripOrder = fieldKeys f := rfl

theorem formKeys_eq_strip (form : Form) :
    formKeys form = (form.fields.map Field.stripOrder).flatMap fieldKeys := by
  rw [formKeys_eq, List.flatMap_map]
  rfl

/-- When two field lists hold the same fields up to their sequence and their
`order` values, every check of a run on one has a check with the same key and
the same outcomes in the run on the other. -/
theorem evaluated_of_perm (B : Builtins) (answers : Answers) (l1 l2 : List Field)
    (hperm : List.Perm (l1.map Field.stripOrder) (l2.map Field.stripOrder))
    (k : String) (g : Field) (h : (k, g) ∈ evaluated answers (sortFields l1)) :
    ∃ g', (k, g') ∈ evaluated answers (sortFields l2) ∧
      ∀ v, validateField B g v = validateField B g' v := by
  have twin : ∀ f ∈ l1, ∃ f' ∈ l2, f'.stripOrder = f.stripOrder := by
    intro f hf
    have : f.stripOrder ∈ l2.map Field.stripOrder :=
      hperm.mem_iff.1 (List.mem_map_of_mem _ hf)
    obtain ⟨f', hf', he⟩ := List.mem_map.1 this
    exact ⟨f', hf', he⟩
  rcases (mem_evaluated _ _ _ _).1 h with ⟨hg, hk⟩ | ⟨f, hf, hg, hk⟩
  · obtain ⟨g', hg', he⟩ := twin g ((mem_sortFields _ _).1 hg)
    have hn : g'.name = g.name := by
      have := congrArg Field.name he
      exact this
    refine ⟨g', (mem_evaluated _ _ _ _).2 (Or.inl ⟨(mem_sortFields _ _).2 hg', ?_⟩), fun v => ?_⟩
    · rw [hk, hn]
    · rw [← validateField_stripOrder B g v, ← validateField_stripOrder B g' v, he]
  · obtain ⟨f', hf', he⟩ := twin f ((mem_sortFields _ _).1 hf)
    have hn : f'.name = f.name := by
      have := congrArg Field.name he
      exact this
    have hc : cascadeFields f' (answers.get f'.name) = cascadeFields f (answers.get f.name) := by
      rw [← cascadeFields_stripOrder f', ← cascadeFields_stripOrder f, he, hn]
    refine ⟨g, (mem_evaluated _ _ _ _).2 (Or.inr ⟨f', (mem_sortFields _ _).2 hf', ?_, ?_⟩),
      fun v => rfl⟩
    · rw [hc]
      exact hg
    · rw [hk]
      unfold nestedKey
      rw [hn]

theorem errors_ne_nil_iff (m : ErrorMap) : m ≠ [] ↔ ∃ k, m.get? k ≠ none := by
  constructor
  · intro h
    cases m with
    | nil => exact absurd rfl h
    | cons hd tl =>
      refine ⟨hd.1, ?_⟩
      simp [ErrorMap.get?, List.lookup]
  · rintro ⟨k, hk⟩ hnil
    subst hnil
    exact hk rfl

/-- The entry of a key after a run from the empty state, with pairwise distinct
keys: the list reported by the check of that key, when there is one and the
list is not empty. -/
theorem runChecks_entry (B : Builtins) (answers : Answers) (l : List (String × Field))
    (st : VState)
    (h : runChecks B answers l { errors := [], hasErrors := false } = .ok st)
    (hnd : (l.map Prod.fst).Nodup) (k : String) :
    (∀ g, (k, g) ∈ l → ∃ errs, validateField B g (answers.get k) = .ok errs ∧
      st.errors.get? k = if errs = [] then none else some errs) ∧
    ((∀ g, (k, g) ∉ l) → st.errors.get? k = none) := by
  constructor
  · intro g hg
    obtain ⟨errs, he⟩ := (runChecks_ok_iff B answers l _).1 ⟨st, h⟩ (k, g) hg
    refine ⟨errs, he, ?_⟩
    have := (runChecks_get?_of_nodup B answers l _ st h hnd k g hg errs he).1
    simpa [ErrorMap.get?] using this
  · intro hno
    have hk : k ∉ l.map Prod.fst := by
      intro hm
      obtain ⟨kf, hkf, hk⟩ := List.mem_map.1 hm
      obtain ⟨k0, g⟩ := kf
      simp only at hk
      subst hk
      exact hno g hkf
    rw [runChecks_get?_untouched B answers l _ st h k hk]
    rfl

/-- C29. When the names and synthesized keys of a form are pairwise distinct,
a second form that holds the same fields in another sequence or with other
`order` values gets the same outcome from `validateSubmission` on every answer
object: the same `isValid` and the same message list under every key (or the
same exception). -/
theorem order_independent (B : Builtins) (form1 form2 : Form) (answers : Answers)
    (hkeys : (formKeys form1).Nodup)
    (hperm : List.Perm (form1.fields.map Field.stripOrder)
      (form2.fields.map Field.stripOrder)) :
    SameOutcome (validateSubmission B form1 answers) (validateSubmission B form2 answers) := by
  have hkeys2 : (formKeys form2).Nodup := by
    rw [formKeys_eq_strip, ← (List.Perm.flatMap_right fieldKeys hperm).nodup_iff,
      ← formKeys_eq_strip]
    exact hkeys
  have hnd1 := evaluatedKeys_nodup_of_formKeys form1 answers hkeys
  have hnd2 := evaluatedKeys_nodup_of_formKeys form2 answers hkeys2
  have h12 := evaluated_of_perm B answers form1.fields form2.fields hperm
  have h21 := evaluated_of_perm B answers form2.fields form1.fields hperm.symm
  rw [validateSubmission_eq, validateSubmission_eq]
  cases hr1 : runChecks B answers (evaluated answers (sortFields form1.fields))
      { errors := [], hasErrors := false } with
  | error e1 =>
    cases hr2 : runChecks B answers (evaluated answers (sortFields form2.fields))
        { errors := [], hasErrors := false } with
    | error e2 =>
      cases e1
      cases e2
      exact rfl
    | ok st2 =>
      exfalso
      have hall := (runChecks_ok_iff B answers _ _).1 ⟨st2, hr2⟩
      have : ∃ st1, runChecks B answers (evaluated answers (sortFields form1.fields))
          { errors := [], hasErrors := false } = .ok st1 := by
        rw [runChecks_ok_iff]
        rintro ⟨k, g⟩ hkg
        obtain ⟨g', hg', hv⟩ := h12 k g hkg
        obtain ⟨msgs, hm⟩ := hall (k, g') hg'
        exact ⟨msgs, by simp only [hv]; exact hm⟩
      obtain ⟨st1, hst1⟩ := this
      rw [hr1] at hst1
      cases hst1
  | ok st1 =>
    cases hr2 : runChecks B answers (evaluated answers (sortFields form2.fields))
        { errors := [], hasErrors := false } with
    | error e2 =>
      exfalso
      have hall := (runChecks_ok_iff B answers _ _).1 ⟨st1, hr1⟩
      have : ∃ st2, runChecks B answers (evaluated answers (sortFields form2.fields))
          { errors := [], hasErrors := false } = .ok st2 := by
        rw [runChecks_ok_iff]
        rintro ⟨k, g⟩ hkg
        obtain ⟨g', hg', hv⟩ := h21 k g hkg
        obtain ⟨msgs, hm⟩ := hall (k, g') hg'
        exact ⟨msgs, by simp only [hv]; exact hm⟩
      obtain ⟨st2, hst2⟩ := this
      rw [hr2] at hst2
      cases hst2
    | ok st2 =>
      have hmap : ∀ k, st1.errors.get? k = st2.errors.get? k := by
        intro k
        have e1 := runChecks_entry B answers _ st1 hr1 hnd1 k
        have e2 := runChecks_entry B answers _ st2 hr2 hnd2 k
        by_cases hex : ∃ g, (k, g) ∈ evaluated answers (sortFields form1.fields)
        · obtain ⟨g, hg⟩ := hex
          obtain ⟨errs, he, hget⟩ := e1.1 g hg
          obtain ⟨g', hg', hv⟩ := h12 k g hg
          obtain ⟨errs', he', hget'⟩ := e2.1 g' hg'
          rw [← hv, he] at he'
          cases he'
          rw [hget, hget']
        · have hno1 : ∀ g, (k, g) ∉ evaluated answers (sortFields form1.fields) :=
            fun g hg => hex ⟨g, hg⟩
          have hno2 : ∀ g, (k, g) ∉ evaluated answers (sortFields form2.fields) := by
            intro g hg
            obtain ⟨g', hg', -⟩ := h21 k g hg
            exact hex ⟨g', hg'⟩
          rw [e1.2 hno1, e2.2 hno2]
      have hc1 := (runChecks_consistent B answers _ _ st1 hr1 ⟨by simp, by simp⟩).1
      have hc2 := (runChecks_consistent B answers _ _ st2 hr2 ⟨by simp, by simp⟩).1
      have hflag : st1.hasErrors = st2.hasErrors := by
        have : (st1.hasErrors = true ↔ st2.hasErrors = true) := by
          rw [hc1, hc2, errors_ne_nil_iff, errors_ne_nil_iff]
          simp only [hmap]
        cases h1 : st1.hasErrors <;> cases h2 : st2.hasErrors <;> simp_all
      exact ⟨by simp only [hflag], hmap⟩

/-- C29, on the fields `a` and `b`, stored once as `a, b` with the orders 2
and 1 and once as `b, a` with the orders 9 and 3: the answers `{a: "x"}` get
the same outcome. -/
theorem order_independent_witness :
    SameOutcome
      (validateSubmission sampleBuiltins (formOf [thirdField, firstField]) [("a", .str "x")])
      (validateSubmission sampleBuiltins
        (formOf [{ firstField with order := 9 }, { thirdField with order := 3 }])
        [("a", .str "x")]) :=
  order_independent sampleBuiltins (formOf [thirdField, firstField])
    (formOf [{ firstField with order := 9 }, { thirdField with order := 3 }]) [("a", .str "x")]
    (by decide) (List.Perm.swap _ _ _)

/-! ## The e-mail pattern and the shape `local@domain.tld` -/

theorem mem_notSpaceAt (x : List EmailSym) :
    x ∈ notSpaceAt.matches' ↔ x = [EmailSym.dot] ∨ x = [EmailSym.other] := by
  simp only [notSpaceAt, RegularExpression.matches', Language.mem_add]
  exact Iff.rfl

theorem mem_notSpaceAtPlus (x : List EmailSym) :
    x ∈ notSpaceAtPlus.matches' ↔
      x ≠ [] ∧ ∀ a ∈ x, a = EmailSym.dot ∨ a = EmailSym.other := by
  unfold notSpaceAtPlus
  simp only [RegularExpression.matches']
  rw [Language.mem_mul]
  constructor
  · rintro ⟨a, ha, b, hb, rfl⟩
    have ha := (mem_notSpaceAt a).1 ha
    rw [Language.mem_kstar] at hb
    obtain ⟨L, rfl, hL⟩ := hb
    refine ⟨by rcases ha with rfl | rfl <;> simp, ?_⟩
    intro c hc
    rw [List.mem_append] at hc
    rcases hc with hc | hc
    · rcases ha with rfl | rfl <;> simp at hc <;> simp [hc]
    · rw [List.mem_flatten] at hc
      obtain ⟨y, hy, hcy⟩ := hc
      have := (mem_notSpaceAt y).1 (hL y hy)
      rcases this with rfl | rfl <;> simp at hcy <;> simp [hcy]
  · rintro ⟨hne, hall⟩
    cases x with
    | nil => exact absurd rfl hne
    | cons c t =>
      refine ⟨[c], ?_, t, ?_, rfl⟩
      · apply (mem_notSpaceAt _).2
        rcases hall c (List.mem_cons_self _ _) with h | h <;> simp [h]
      · rw [Language.mem_kstar]
        refine ⟨t.map fun a => [a], ?_, ?_⟩
        · clear hall hne
          induction t with
          | nil => rfl
          | cons a t ih => simp [← ih]
        · intro y hy
          obtain ⟨a, ha, rfl⟩ := List.mem_map.1 hy
          apply (mem_notSpaceAt _).2
          rcases hall a (List.mem_cons_of_mem _ ha) with h | h <;> simp [h]

theorem mem_emailRegex (x : List EmailSym) :
    x ∈ emailRegex.matches' ↔
      ∃ l d1 d2, l ∈ notSpaceAtPlus.matches' ∧ d1 ∈ notSpaceAtPlus.matches' ∧
        d2 ∈ notSpaceAtPlus.matches' ∧
        x = l ++ EmailSym.atSign :: (d1 ++ EmailSym.dot :: d2) := by
  unfold emailRegex
  simp only [RegularExpression.matches', Language.mem_mul]
  constructor
  · rintro ⟨l, hl, r, ⟨a, ha, r2, ⟨d1, hd1, r3, ⟨b, hb, d2, hd2, rfl⟩, rfl⟩, rfl⟩, rfl⟩
    have ha' : a = [EmailSym.atSign] := ha
    have hb' : b = [EmailSym.dot] := hb
    subst ha' hb'
    exact ⟨l, d1, d2, hl, hd1, hd2, by simp⟩
  · rintro ⟨l, d1, d2, hl, hd1, hd2, rfl⟩
    exact ⟨l, hl, _, ⟨[EmailSym.atSign], rfl, _, ⟨d1, hd1, _, ⟨[EmailSym.dot], rfl, d2, hd2, rfl⟩,
      rfl⟩, rfl⟩, by simp⟩

theorem emailSym_plain (c : Char) :
    (emailSym c = EmailSym.dot ∨ emailSym c = EmailSym.other) ↔
      (c ≠ '@' ∧ isJsSpace c = false) := by
  unfold emailSym
  by_cases h1 : c = '@'
  · simp [h1]
  · by_cases h2 : c = '.'
    · subst h2
      simp
      decide
    · cases h3 : isJsSpace c <;> simp [h1, h2, h3]

theorem emailSym_atSign (c : Char) : emailSym c = EmailSym.atSign ↔ c = '@' := by
  unfold emailSym
  by_cases h1 : c = '@'
  · simp [h1]
  · by_cases h2 : c = '.'
    · simp [h1, h2]
    · cases h3 : isJsSpace c <;> simp [h1, h2, h3]

theorem emailSym_dot (c : Char) : emailSym c = EmailSym.dot ↔ c = '.' := by
  unfold emailSym
  by_cases h1 : c = '@'
  · subst h1
    simp
  · by_cases h2 : c = '.'
    · simp [h1, h2]
    · cases h3 : isJsSpace c <;> simp [h1, h2, h3]

theorem map_emailSym_plain (l : List Char) :
    l.map emailSym ∈ notSpaceAtPlus.matches' ↔
      l ≠ [] ∧ ∀ c ∈ l, c ≠ '@' ∧ isJsSpace c = false := by
  rw [mem_notSpaceAtPlus]
  constructor
  · rintro ⟨hne, hall⟩
    refine ⟨fun h => hne (by rw [h]; rfl), fun c hc => ?_⟩
    exact (emailSym_plain c).1 (hall _ (List.mem_map_of_mem _ hc))
  · rintro ⟨hne, hall⟩
    refine ⟨fun h => hne (List.map_eq_nil_iff.1 h), fun a ha => ?_⟩
    obtain ⟨c, hc, rfl⟩ := List.mem_map.1 ha
    exact (emailSym_plain c).2 (hall c hc)

/-- The pattern matches a string exactly when the string splits as
`l @ d1 . d2` with three non-empty parts free of white space and of `@`. -/
theorem emailTest_iff (s : String) :
    emailTest s = true ↔ ∃ l d1 d2 : List Char, s.data = l ++ '@' :: (d1 ++ '.' :: d2) ∧
      (l ≠ [] ∧ ∀ c ∈ l, c ≠ '@' ∧ isJsSpace c = false) ∧
      (d1 ≠ [] ∧ ∀ c ∈ d1, c ≠ '@' ∧ isJsSpace c = false) ∧
      (d2 ≠ [] ∧ ∀ c ∈ d2, c ≠ '@' ∧ isJsSpace c = false) := by
  unfold emailTest
  rw [RegularExpression.rmatch_iff_matches', mem_emailRegex]
  constructor
  · rintro ⟨l, d1, d2, hl, hd1, hd2, hx⟩
    rw [List.map_eq_append_iff] at hx
    obtain ⟨cl, r, hs, rfl, hr⟩ := hx
    rw [List.map_eq_cons_iff] at hr
    obtain ⟨a, r2, rfl, ha, hr2⟩ := hr
    rw [List.map_eq_append_iff] at hr2
    obtain ⟨cd1, r3, rfl, rfl, hr3⟩ := hr2
    rw [List.map_eq_cons_iff] at hr3
    obtain ⟨b, cd2, rfl, hb, rfl⟩ := hr3
    rw [emailSym_atSign] at ha
    rw [emailSym_dot] at hb
    subst ha hb
    exact ⟨cl, cd1, cd2, hs, (map_emailSym_plain _).1 hl, (map_emailSym_plain _).1 hd1,
      (map_emailSym_plain _).1 hd2⟩
  · rintro ⟨l, d1, d2, hs, hl, hd1, hd2⟩
    refine ⟨l.map emailSym, d1.map emailSym, d2.map emailSym, (map_emailSym_plain _).2 hl,
      (map_emailSym_plain _).2 hd1, (map_emailSym_plain _).2 hd2, ?_⟩
    rw [hs]
    simp only [List.map_append, List.map_cons]
    rw [(emailSym_atSign '@').2 rfl, (emailSym_dot '.').2 rfl]

theorem hasInnerDot_iff (d : List Char) :
    hasInnerDot d = true ↔ ∃ d1 d2, d = d1 ++ '.' :: d2 ∧ d1 ≠ [] ∧ d2 ≠ [] := by
  unfold hasInnerDot
  simp only [List.any_eq_true, List.mem_range, Bool.and_eq_true, decide_eq_true_eq, beq_iff_eq]
  constructor
  · rintro ⟨i, hi, ⟨h0, h1⟩, hget⟩
    have hgi : d[i] = '.' := by
      rw [List.getElem?_eq_getElem hi] at hget
      exact Option.some.inj hget
    refine ⟨d.take i, d.drop (i + 1), ?_, ?_, ?_⟩
    · rw [← hgi, ← List.drop_eq_getElem_cons hi, List.take_append_drop]
    · intro h
      have := congrArg List.length h
      rw [List.length_take, List.length_nil] at this
      omega
    · intro h
      have := congrArg List.length h
      rw [List.length_drop, List.length_nil] at this
      omega
  · rintro ⟨d1, d2, rfl, h1, h2⟩
    have l1 : 0 < d1.length := List.length_pos.2 h1
    have l2 : 0 < d2.length := List.length_pos.2 h2
    refine ⟨d1.length, by simp, ⟨l1, by simp; omega⟩, ?_⟩
    rw [List.getElem?_append_right (le_refl _)]
    simp

theorem dropWhile_notAt (cs : List Char) :
    (cs.dropWhile fun c => c != '@') = [] ∨
      ∃ dom, (cs.dropWhile fun c => c != '@') = '@' :: dom := by
  induction cs with
  | nil => exact Or.inl rfl
  | cons c t ih =>
    by_cases h : c = '@'
    · subst h
      exact Or.inr ⟨t, by simp [List.dropWhile]⟩
    · have : (List.dropWhile (fun c => c != '@') (c :: t)) =
          List.dropWhile (fun c => c != '@') t := by
        rw [List.dropWhile_cons]
        simp [h]
      rw [this]
      exact ih

/-- The shape worded by the specification is the split `l @ d1 . d2`. -/
theorem emailShape_iff (s : String) :
    emailShape s = true ↔ ∃ l d1 d2 : List Char, s.data = l ++ '@' :: (d1 ++ '.' :: d2) ∧
      (l ≠ [] ∧ ∀ c ∈ l, c ≠ '@' ∧ isJsSpace c = false) ∧
      (d1 ≠ [] ∧ ∀ c ∈ d1, c ≠ '@' ∧ isJsSpace c = false) ∧
      (d2 ≠ [] ∧ ∀ c ∈ d2, c ≠ '@' ∧ isJsSpace c = false) := by
  unfold emailShape
  simp only [Bool.and_eq_true, List.all_eq_true, Bool.not_eq_true', beq_iff_eq,
    List.isEmpty_eq_true, hasInnerDot_iff]
  constructor
  · rintro ⟨⟨⟨hall, hcount⟩, hloc⟩, d1, d2, hdom, hd1, hd2⟩
    have hsplit := List.takeWhile_append_dropWhile (fun c => c != '@') s.data
    have htw : ∀ c ∈ s.data.takeWhile (fun c => c != '@'), c ≠ '@' := by
      intro c hc
      simpa using List.mem_takeWhile_imp hc
    have hc0 : (s.data.takeWhile fun c => c != '@').count '@' = 0 :=
      List.count_eq_zero.2 fun hm => htw _ hm rfl
    rcases dropWhile_notAt s.data with hnil | ⟨dom, hdw⟩
    · rw [hnil, List.append_nil] at hsplit
      rw [← hsplit, hc0] at hcount
      exact absurd hcount (by decide)
    · rw [hdw] at hsplit hdom
      simp only [List.drop_succ_cons, List.drop_zero] at hdom
      have hcd : dom.count '@' = 0 := by
        rw [← hsplit, List.count_append, hc0, List.count_cons_self] at hcount
        omega
      have hdomAt : ∀ c ∈ dom, c ≠ '@' := by
        intro c hc he
        subst he
        exact (List.count_eq_zero.1 hcd) hc
      have hmem : ∀ c ∈ dom, c ∈ s.data := by
        intro c hc
        rw [← hsplit]
        simp [hc]
      refine ⟨_, d1, d2, by rw [← hdom]; exact hsplit.symm,
        ⟨by simpa using hloc, fun c hc => ⟨htw c hc, hall c ?_⟩⟩,
        ⟨hd1, fun c hc => ⟨hdomAt c ?_, hall c (hmem c ?_)⟩⟩,
        ⟨hd2, fun c hc => ⟨hdomAt c ?_, hall c (hmem c ?_)⟩⟩⟩
      · rw [← hsplit]
        exact List.mem_append_left _ hc
      · rw [hdom]; simp [hc]
      · rw [hdom]; simp [hc]
      · rw [hdom]; simp [hc]
      · rw [hdom]; simp [hc]
  · rintro ⟨l, d1, d2, hs, ⟨hl, hla⟩, ⟨hd1, hd1a⟩, ⟨hd2, hd2a⟩⟩
    have hp : ∀ a ∈ l, (fun c : Char => c != '@') a = true := by
      intro a ha
      simpa using (hla a ha).1
    have htw : (s.data.takeWhile fun c => c != '@') = l := by
      rw [hs, List.takeWhile_append_of_pos hp]
      simp [List.takeWhile]
    have hdw : (s.data.dropWhile fun c => c != '@') = '@' :: (d1 ++ '.' :: d2) := by
      rw [hs, List.dropWhile_append_of_pos hp]
      simp [List.dropWhile]
    have c0 : ∀ m : List Char, (∀ c ∈ m, c ≠ '@' ∧ isJsSpace c = false) → m.count '@' = 0 :=
      fun m hm => List.count_eq_zero.2 fun hmem => (hm _ hmem).1 rfl
    refine ⟨⟨⟨?_, ?_⟩, ?_⟩, d1, d2, ?_, hd1, hd2⟩
    · intro c hc
      rw [hs] at hc
      simp only [List.mem_append, List.mem_cons] at hc
      rcases hc with h | rfl | h | rfl | h
      · exact (hla c h).2
      · decide
      · exact (hd1a c h).2
      · decide
      · exact (hd2a c h).2
    · rw [hs, List.count_append, List.count_cons_self, List.count_append,
        List.count_cons_of_ne (by decide), c0 l hla, c0 d1 hd1a, c0 d2 hd2a]
    · rw [htw]
      simpa using hl
    · rw [hdw]
      rfl

theorem emailTest_eq_shape (s : String) : emailTest s = emailShape s := by
  rw [Bool.eq_iff_iff]
  exact (emailTest_iff s).trans (emailShape_iff s).symm

/-- C25. For an e-mail field and a present string value, `validateField`
returns the empty list exactly when the value has the shape `local@domain.tld`
as worded (no white space, exactly one `@`, a non-empty part before it, and a
part after it with a `.` that has a character on each side), and returns the
single message `<label> must be a valid email address` for every other present
string. -/
theorem email_shape (B : Builtins) (f : Field) (s : String) (ht : f.type = "email")
    (hs : s ≠ "") :
    validateField B f (.str s) =
        .ok (if emailShape s then [] else [ f.label ++ " must be a valid email address"]) ∧
      (validateField B f (.str s) = .ok [] ↔ emailShape s = true) := by
  have hpres : isMissing (.str s) = false := by
    rw [isMissing_eq_false_iff]
    simp [hs]
  have key : validateField B f (.str s) =
      .ok (if emailShape s then [] else [ f.label ++ " must be a valid email address"]) := by
    rw [validateField_present B f _ hpres]
    unfold validateField.validateFieldType
    rw [if_pos ht]
    unfold checkEmail
    have hstr : toStr B (.str s) = .ok s := by simp [toStr]
    rw [hstr]
    simp only [emailTest_eq_shape]
    cases emailShape s <;> simp
  refine ⟨key, ?_⟩
  rw [key]
  cases emailShape s <;> simp

/-- C25, on the values `a@b.c` and `a@b`. -/
theorem email_shape_witness :
    validateField sampleBuiltins emailField (.str "a@b.c") = .ok [] ∧
      validateField sampleBuiltins emailField (.str "a@b") =
        .ok ["Email must be a valid email address"] :=
  ⟨(email_shape sampleBuiltins emailField "a@b.c" rfl (by decide)).2.2 (by decide),
    (email_shape sampleBuiltins emailField "a@b" rfl (by decide)).1.trans (by decide)⟩

/-! ## The CSV export reads the keys of the validator -/

theorem pushNested_eq (field : Field) (nfs : List Field) (st : HeaderState) :
    pushNested field nfs st =
      { headers := st.headers ++
          (nfs.map fun nf => ({ field := field, nested := some nf } : FieldHeader)).map
            FieldHeader.title,
        fieldHeaders := st.fieldHeaders ++
          nfs.map fun nf => { field := field, nested := some nf } } := by
  induction nfs generalizing st with
  | nil => simp [pushNested]
  | cons nf rest ih =>
    rw [pushNested, ih]
    simp [FieldHeader.title]

theorem pushOptions_eq (field : Field) (opts : List FieldOption) (st : HeaderState) :
    pushOptions field opts st =
      { headers := st.headers ++ (optionColumns field opts).map FieldHeader.title,
        fieldHeaders := st.fieldHeaders ++ optionColumns field opts } := by
  induction opts generalizing st with
  | nil => simp [pushOptions, optionColumns]
  | cons o rest ih =>
    unfold pushOptions
    cases ho : o.nestedFields with
    | none =>
      simp only [ih]
      simp [optionColumns, ho]
    | some nfs =>
      simp only [ih, pushNested_eq]
      simp [optionColumns, ho]

theorem pushField_eq (st : HeaderState) (f : Field) :
    pushField st f =
      { headers := st.headers ++ (fieldColumns f).map FieldHeader.title,
        fieldHeaders := st.fieldHeaders ++ fieldColumns f } := by
  unfold pushField fieldColumns
  cases ho : f.options with
  | none => simp [FieldHeader.title]
  | some opts => simp [pushOptions_eq, FieldHeader.title]

theorem foldl_pushField_eq (fields : List Field) (st : HeaderState) :
    fields.foldl pushField st =
      { headers := st.headers ++ (fields.flatMap fieldColumns).map FieldHeader.title,
        fieldHeaders := st.fieldHeaders ++ fields.flatMap fieldColumns } := by
  induction fields generalizing st with
  | nil => simp
  | cons f rest ih =>
    rw [List.foldl_cons, ih, pushField_eq]
    simp

/-- The header loop: one column per field and per nested field of any option,
in storage order, each under its title. -/
theorem exportHeaders_eq (form : Form) :
    exportHeaders form =
      { headers := "Submitted At" :: (form.fields.flatMap fieldColumns).map FieldHeader.title,
        fieldHeaders := form.fields.flatMap fieldColumns } := by
  unfold exportHeaders
  rw [foldl_pushField_eq]
  simp

theorem fieldColumns_keys (f : Field) : (fieldColumns f).map FieldHeader.key = fieldKeys f := by
  unfold fieldColumns fieldKeys
  cases ho : f.options with
  | none => rfl
  | some opts =>
    simp only [List.map_cons, optionColumns, List.map_flatMap]
    congr 1
    congr 1
    funext o
    cases o.nestedFields with
    | none => rfl
    | some nfs =>
      simp only [List.map_map]
      rfl

theorem mem_fieldColumns (f : Field) (h : FieldHeader) :
    h ∈ fieldColumns f ↔ h = { field := f, nested := none } ∨
      ∃ opts o nfs nf, f.options = some opts ∧ o ∈ opts ∧ o.nestedFields = some nfs ∧
        nf ∈ nfs ∧ h = { field := f, nested := some nf } := by
  unfold fieldColumns
  cases ho : f.options with
  | none => simp
  | some opts =>
    simp only [List.mem_cons, optionColumns, List.mem_flatMap, Option.some.injEq]
    constructor
    · rintro (h1 | ⟨o, ho1, hm⟩)
      · exact Or.inl h1
      · cases hn : o.nestedFields with
        | none => simp [hn] at hm
        | some nfs =>
          rw [hn] at hm
          obtain ⟨nf, hnf, rfl⟩ := List.mem_map.1 hm
          exact Or.inr ⟨opts, o, nfs, nf, rfl, ho1, hn, hnf, rfl⟩
    · rintro (h1 | ⟨opts1, o, nfs, nf, rfl, ho1, hn, hnf, rfl⟩)
      · exact Or.inl h1
      · refine Or.inr ⟨o, ho1, ?_⟩
        rw [hn]
        exact List.mem_map_of_mem _ hnf

theorem pushCell_eq (B : Builtins) (answers : Answers) (row : List String) (h : FieldHeader) :
    pushCell B answers row h =
      match cellText B (answers.get h.key) with
      | .error e => .error e
      | .ok cell => .ok (row ++ [cell]) := by
  unfold pushCell FieldHeader.key
  cases h.nested <;> rfl

/-- The row loop returns exactly the rows that extend the start by one cell per
column, the cell of a column being the text of the answer under its key. -/
theorem pushCells_ok_iff (B : Builtins) (answers : Answers) (cols : List FieldHeader)
    (row0 row : List String) :
    pushCells B answers cols row0 = .ok row ↔
      ∃ cells, row = row0 ++ cells ∧
        List.Forall₂ (fun h c => cellText B (answers.get h.key) = .ok c) cols cells := by
  induction cols generalizing row0 with
  | nil =>
    simp only [pushCells, Except.ok.injEq, List.forall₂_nil_left_iff]
    constructor
    · rintro rfl
      exact ⟨[], by simp, rfl⟩
    · rintro ⟨cells, h, rfl⟩
      simp [h]
  | cons h rest ih =>
    unfold pushCells
    rw [pushCell_eq]
    cases hc : cellText B (answers.get h.key) with
    | error e =>
      simp only [List.forall₂_cons_left_iff]
      constructor
      · intro h1
        cases h1
      · rintro ⟨cells, -, c, cs, hcc, -, -⟩
        rw [hc] at hcc
        cases hcc
    | ok cell =>
      simp only [ih, List.forall₂_cons_left_iff]
      constructor
      · rintro ⟨cells, rfl, hf⟩
        exact ⟨cell :: cells, by simp, cell, cells, by rw [hc], hf, rfl⟩
      · rintro ⟨cells, rfl, c, cs, hcc, hf, rfl⟩
        rw [hc] at hcc
        cases hcc
        exact ⟨cs, by simp, hf⟩

theorem pushCells_returns (B : Builtins) (answers : Answers) (cols : List FieldHeader)
    (row0 : List String)
    (h : ∀ c ∈ cols, ∃ s, toStr B (answers.get c.key) = .ok s) :
    ∃ row, pushCells B answers cols row0 = .ok row := by
  induction cols generalizing row0 with
  | nil => exact ⟨row0, rfl⟩
  | cons hd rest ih =>
    unfold pushCells
    rw [pushCell_eq]
    obtain ⟨s, hs⟩ := h hd (List.mem_cons_self _ _)
    have : ∃ cell, cellText B (answers.get hd.key) = .ok cell := by
      unfold cellText
      split_ifs
      · exact ⟨s, hs⟩
      · exact ⟨"", rfl⟩
    obtain ⟨cell, hcell⟩ := this
    rw [hcell]
    exact ih _ fun c hc => h c (List.mem_cons_of_mem _ hc)

/-- C27. The CSV export and the validator use the same answer keys.  The keys
of the export columns, in column order, are the names and synthesized keys of
the form; every pair of key and field on which `validateSubmission` calls
`validateField` for the answers of a stored submission has a column of that
field which reads that key; a row that is built holds, after the time stamp,
one cell per column, the text of the answer under the key of the column (empty
for a missing answer); and the row is built whenever every answer under a key
of the form has a string rendering. -/
theorem export_reads_validator_keys (B : Builtins) (toISOString : ℕ → String) (form : Form)
    (sub : Submission) :
    ((exportHeaders form).fieldHeaders.map FieldHeader.key = formKeys form) ∧
    ((exportHeaders form).headers =
      "Submitted At" :: (exportHeaders form).fieldHeaders.map FieldHeader.title) ∧
    (∀ k g, (k, g) ∈ evaluated sub.answers (sortFields form.fields) →
      ∃ h ∈ (exportHeaders form).fieldHeaders, h.key = k ∧ h.target = g) ∧
    (∀ row, exportRow B toISOString (exportHeaders form).fieldHeaders sub = .ok row →
      ∃ cells, row = toISOString sub.submittedAt :: cells ∧
        List.Forall₂ (fun h c => cellText B (sub.answers.get h.key) = .ok c)
          (exportHeaders form).fieldHeaders cells) ∧
    ((∀ k ∈ formKeys form, ∃ s, toStr B (sub.answers.get k) = .ok s) →
      ∃ row, exportRow B toISOString (exportHeaders form).fieldHeaders sub = .ok row) := by
  have hkeys : (exportHeaders form).fieldHeaders.map FieldHeader.key = formKeys form := by
    rw [exportHeaders_eq, formKeys_eq, List.map_flatMap]
    congr 1
    funext f
    exact fieldColumns_keys f
  refine ⟨hkeys, ?_, ?_, ?_, ?_⟩
  · rw [exportHeaders_eq]
  · intro k g hkg
    rw [exportHeaders_eq]
    simp only [List.mem_flatMap]
    rcases (mem_evaluated _ _ _ _).1 hkg with ⟨hg, hk⟩ | ⟨f, hf, hg, hk⟩
    · exact ⟨{ field := g, nested := none }, ⟨g, (mem_sortFields _ _).1 hg,
        (mem_fieldColumns _ _).2 (Or.inl rfl)⟩, hk.symm, rfl⟩
    · obtain ⟨-, -, opts, opt, nfs, ho, hsel, hn, hmem⟩ := (mem_cascadeFields _ _ _).1 hg
      exact ⟨{ field := f, nested := some g }, ⟨f, (mem_sortFields _ _).1 hf,
        (mem_fieldColumns _ _).2 (Or.inr ⟨opts, opt, nfs, g, ho, (findSelected_some _ _ _ hsel).1,
          hn, hmem, rfl⟩)⟩, hk.symm, rfl⟩
  · intro row hrow
    unfold exportRow at hrow
    obtain ⟨cells, hr, hf⟩ := (pushCells_ok_iff _ _ _ _ _).1 hrow
    exact ⟨cells, hr, hf⟩
  · intro hall
    unfold exportRow
    apply pushCells_returns
    intro c hc
    apply hall
    rw [← hkeys]
    exact List.mem_map_of_mem _ hc

/-- C27, on the form `country, age` and a stored submission that selects
`other`: the columns, their keys and the row. -/
theorem export_reads_validator_keys_witness :
    (exportHeaders (formOf [countryField, ageField])).headers =
        ["Submitted At", "Country", "Country - Details", "age"] ∧
      (exportHeaders (formOf [countryField, ageField])).fieldHeaders.map FieldHeader.key =
        ["country", "country_details", "age"] ∧
      exportRow sampleBuiltins epochIso
          (exportHeaders (formOf [countryField, ageField])).fieldHeaders storedSubmission =
        .ok ["1970-01-01T00:00:00.000Z", "other", "north", ""] ∧
      ∃ h ∈ (exportHeaders (formOf [countryField, ageField])).fieldHeaders,
        h.key = "country_details" ∧ h.target = detailsField :=
  ⟨by decide,
    (export_reads_validator_keys sampleBuiltins epochIso (formOf [countryField, ageField])
      storedSubmission).1.trans (by decide),
    by decide,
    (export_reads_validator_keys sampleBuiltins epochIso (formOf [countryField, ageField])
      storedSubmission).2.2.1 "country_details" detailsField (by
        rw [mem_evaluated]
        refine Or.inr ⟨countryField, ?_, ?_, rfl⟩
        · rw [mem_sortFields]
          exact List.mem_cons_self _ _
        · rw [show cascadeFields countryField (storedSubmission.answers.get countryField.name) =
            [detailsField] from rfl]
          exact List.mem_cons_self _ _)⟩

/-! ## The input sanitizer -/

theorem noAngle_removeAngles (s : String) : noAngleString (removeAngles s) = true := by
  unfold noAngleString removeAngles
  rw [List.all_eq_true]
  intro c hc
  exact (List.mem_filter.1 hc).2

theorem noAngle_sanitizeString (R : Replacers) (s : String) :
    noAngleString (sanitizeString R s) = true :=
  noAngle_removeAngles _

theorem noAngle_defineProp (o : List (String × JVal)) (k : String) (v : JVal)
    (ho : noAngleProps o = true) (hk : noAngleString k = true) (hv : noAngle v = true) :
    noAngleProps (defineProp o k v) = true := by
  induction o with
  | nil => simp [defineProp, noAngleProps, hk, hv]
  | cons hd tl ih =>
    obtain ⟨k0, w⟩ := hd
    simp only [noAngleProps, Bool.and_eq_true] at ho
    unfold defineProp
    split_ifs with h
    · simp [noAngleProps, ho.1.1, hv, ho.2]
    · simp [noAngleProps, ho.1.1, ho.1.2, ih ho.2]

theorem noAngle_assignProp (o : List (String × JVal)) (k : String) (v : JVal)
    (ho : noAngleProps o = true) (hk : noAngleString k = true) (hv : noAngle v = true) :
    noAngleProps (assignProp o k v) = true := by
  unfold assignProp
  split_ifs
  · exact ho
  · exact noAngle_defineProp o k v ho hk hv

mutual
/-- On a value in which no object has an own `constructor` or `hasOwnProperty`
key, `sanitizeInput` returns, and no string of the result holds `<` or `>`. -/
theorem sanitizeInput_guarded (R : Replacers) :
    ∀ v : JVal, guarded v = true → ∃ out, sanitizeInput R v = .ok out ∧ noAngle out = true
  | .undefined, _ => ⟨_, rfl, rfl⟩
  | .null, _ => ⟨_, rfl, rfl⟩
  | .bool _, _ => ⟨_, rfl, rfl⟩
  | .num _, _ => ⟨_, rfl, rfl⟩
  | .str s, _ => ⟨_, rfl, noAngle_sanitizeString R s⟩
  | .arr xs, h => by
    obtain ⟨ys, hys, hc, -⟩ := sanitizeItems_guarded R xs (by simpa [guarded] using h)
    exact ⟨.arr ys, by simp [sanitizeInput, hys], by simpa [noAngle] using hc⟩
  | .obj kvs, h => by
    simp only [guarded, Bool.and_eq_true, Bool.not_eq_true'] at h
    obtain ⟨out, hout, hc⟩ := sanitizeProps_guarded R kvs [] h.2 rfl
    exact ⟨.obj out, by simp [sanitizeInput, h.1.1, h.1.2, hout], by simpa [noAngle] using hc⟩
theorem sanitizeItems_guarded (R : Replacers) :
    ∀ xs : List JVal, guardedItems xs = true →
      ∃ ys, sanitizeItems R xs = .ok ys ∧ noAngleItems ys = true ∧ ys.length = xs.length
  | [], _ => ⟨[], rfl, rfl, rfl⟩
  | x :: rest, h => by
    simp only [guardedItems, Bool.and_eq_true] at h
    obtain ⟨y, hy, hcy⟩ := sanitizeInput_guarded R x h.1
    obtain ⟨ys, hys, hcys, hlen⟩ := sanitizeItems_guarded R rest h.2
    exact ⟨y :: ys, by simp [sanitizeItems, hy, hys], by simp [noAngleItems, hcy, hcys],
      by simp [hlen]⟩
theorem sanitizeProps_guarded (R : Replacers) :
    ∀ (kvs acc : List (String × JVal)), guardedProps kvs = true → noAngleProps acc = true →
      ∃ out, sanitizeProps R kvs acc = .ok out ∧ noAngleProps out = true
  | [], acc, _, hacc => ⟨acc, rfl, hacc⟩
  | (k, v) :: rest, acc, h, hacc => by
    simp only [guardedProps, Bool.and_eq_true] at h
    obtain ⟨w, hw, hcw⟩ := sanitizeInput_guarded R v h.1
    obtain ⟨out, hout, hc⟩ := sanitizeProps_guarded R rest
      (assignProp acc (sanitizeString R k) w) h.2
      (noAngle_assignProp _ _ _ hacc (noAngle_sanitizeString R k) hcw)
    exact ⟨out, by simp [sanitizeProps, hw, hout], hc⟩
end

/-- Numbers, booleans and `null` are returned unchanged, and an array that is
returned keeps its length. -/
theorem sanitizeInput_shape (R : Replacers) :
    (∀ n, sanitizeInput R (.num n) = .ok (.num n)) ∧
    (∀ b, sanitizeInput R (.bool b) = .ok (.bool b)) ∧
    sanitizeInput R .null = .ok .null ∧
    (∀ xs out, sanitizeInput R (.arr xs) = .ok out →
      ∃ ys, out = .arr ys ∧ ys.length = xs.length) := by
  refine ⟨fun _ => rfl, fun _ => rfl, rfl, ?_⟩
  have items : ∀ xs ys, sanitizeItems R xs = .ok ys → ys.length = xs.length := by
    intro xs
    induction xs with
    | nil =>
      intro ys h
      simp only [sanitizeItems, Except.ok.injEq] at h
      rw [← h]
    | cons x rest ih =>
      intro ys h
      unfold sanitizeItems at h
      cases hx : sanitizeInput R x with
      | error e => simp [hx] at h
      | ok y =>
        cases hr : sanitizeItems R rest with
        | error e => simp [hx, hr] at h
        | ok zs =>
          simp only [hx, hr, Except.ok.injEq] at h
          rw [← h, List.length_cons, List.length_cons, ih zs hr]
  intro xs out h
  unfold sanitizeInput at h
  cases hr : sanitizeItems R xs with
  | error e => simp [hr] at h
  | ok ys =>
    simp only [hr, Except.ok.injEq] at h
    exact ⟨ys, h.symm, items xs ys hr⟩

theorem sanitizeInput_of_constructor_key (R : Replacers) (kvs : List (String × JVal))
    (h : hasOwn kvs "constructor" = true) : sanitizeInput R (.obj kvs) = .ok (.obj kvs) := by
  unfold sanitizeInput
  rw [if_pos h]

/-- C30, on the code: the body `{"constructor": 1, "note": "<b>"}` is returned as
it is, with the string `<b>` in it.  An own `constructor` property makes the
test `obj.constructor === Object` fail, so the object skips the branch that
sanitizes keys and values. -/
theorem sanitize_skips_constructor_key (R : Replacers) :
    sanitizeInput R constructorBody = .ok constructorBody ∧
      noAngle constructorBody = false :=
  ⟨rfl, by decide⟩

end FormMaker
